import Mathlib

/-!
# librbd: address translation, block naming and synchronous byte-range I/O

A shallow embedding of the pure and sequential parts of `src/librbd.cc`.

* `uint64_t` and `size_t` values are natural numbers reduced modulo `2 ^ 64`
  wherever the C++ arithmetic can wrap; `int` and `ssize_t` values are integers
  reduced to their 32 and 64 bit two's complement ranges at each conversion.
* The callback handed to `read_iterate` and `handle_sparse_read` is a function
  that threads a state (the memory behind its `void *arg`) and returns an `int`.
* The object store behind `IoCtx` is a parameter of the I/O functions.
-/

namespace Librbd

/-! ## Machine integers and errno values -/

/-- Number of values of a 64 bit word (`uint64_t`, and `size_t` on LP64). -/
abbrev TWO64 : Nat := 18446744073709551616

/-- Conversion of an integer value to `uint64_t`. -/
def toU64 (z : Int) : Nat := (z % 18446744073709551616).toNat

/-- Conversion of an integer value to `int` (32 bit two's complement). -/
def toInt32 (z : Int) : Int := (z + 2147483648) % 4294967296 - 2147483648

/-- Conversion of an integer value to `int64_t` or `ssize_t`. -/
def toInt64 (z : Int) : Int :=
  (z + 9223372036854775808) % 18446744073709551616 - 9223372036854775808

/-- The value of `a + b` computed on `uint64_t`. -/
def add64 (a b : Nat) : Nat := (a + b) % TWO64

/-- The value of `a - b` computed on `uint64_t`. -/
def sub64 (a b : Nat) : Nat := toU64 ((a : Int) - (b : Int))

/-- The value of `1 << k` in C++: the literal `1` is an `int`, so the shift is a
32 bit one. For `k = 31` the result is `INT_MIN`. For `k ≥ 32` C++ leaves the
shift undefined; the embedding keeps the low 32 bits of the mathematical shift
there, and no statement below is about such a `k`. -/
def shl_int (k : Nat) : Int := toInt32 ((1 <<< k : Nat) : Int)

/-- The errno value `ENOENT` (NotFound). -/
def ENOENT : Int := 2

/-- The errno value `EIO` (IOFault). -/
def EIO : Int := 5

/-- The errno value `EEXIST` (AlreadyExists). -/
def EEXIST : Int := 17

/-- The errno value `EINVAL` (InvalidArgument). -/
def EINVAL : Int := 22

/-! ## Image header -/

/-- The fields of `struct rbd_obj_header_ondisk` that the library computes with
(the constant text, signature and version arrays are left out). `block_name` is
the NUL terminated content of the `block_name` array, `order` is
`options.order`. -/
structure rbd_obj_header_ondisk where
  block_name : String
  image_size : Nat
  order : Nat
  crypt_type : Nat
  comp_type : Nat
  snap_seq : Nat
  snap_count : Nat
  reserved : Nat
  snap_names_len : Nat
deriving DecidableEq

/-! ## Address translator -/

/-- Source function `get_max_block`: number of block objects of the image. -/
def get_max_block (header : rbd_obj_header_ondisk) : Nat :=
  let size := header.image_size
  let obj_order := header.order
  let block_size := toU64 (shl_int obj_order)
  let numseg := (sub64 (add64 size block_size) 1) >>> obj_order
  numseg

/-- Source function `get_block_ofs`: offset of image byte `ofs` inside its block object. -/
def get_block_ofs (header : rbd_obj_header_ondisk) (ofs : Nat) : Nat :=
  let obj_order := header.order
  let block_size := toU64 (shl_int obj_order)
  ofs &&& (sub64 block_size 1)

/-- Source function `get_block_size`: `1 << order`, converted to `uint64_t`. -/
def get_block_size (header : rbd_obj_header_ondisk) : Nat :=
  toU64 (shl_int header.order)

/-- Source function `get_block_num`: index of the block object holding image byte `ofs`. -/
def get_block_num (header : rbd_obj_header_ondisk) (ofs : Nat) : Nat :=
  let obj_order := header.order
  let num := ofs >>> obj_order
  num

/-- Source function `check_io`: the range check of the I/O entry points, on the cached header. -/
def check_io (header : rbd_obj_header_ondisk) (off len : Nat) : Int :=
  let image_size := header.image_size
  if add64 off len > image_size then - EINVAL else 0

/-- A header with the given prefix, size and order and no snapshots. -/
def mkHeader (name : String) (size order : Nat) : rbd_obj_header_ondisk :=
  { block_name := name, image_size := size, order := order, crypt_type := 0,
    comp_type := 0, snap_seq := 0, snap_count := 0, reserved := 0,
    snap_names_len := 0 }

/-! ## Block object names -/

/-- The output of `printf("%x")` or `printf("%llx")`: lowercase hexadecimal, no
leading zeros. -/
def fmt_x (n : Nat) : String := String.mk (Nat.toDigits 16 n)

/-- The output of `printf("%012llx")`: lowercase hexadecimal, padded on the left
with zeros to a width of at least 12. -/
def fmt_012x (n : Nat) : String :=
  String.mk (List.replicate (12 - (Nat.toDigits 16 n).length) '0' ++ Nat.toDigits 16 n)

/-- The string `snprintf(buf, size, ...)` leaves in `buf` when the formatted
text is `s`: at most `size - 1` characters before the terminating NUL. -/
def snprintf (size : Nat) (s : String) : String := String.mk (s.data.take (size - 1))

/-- Source function `get_block_oid`. The constant `RBD_MAX_BLOCK_NAME_SIZE` comes from
`include/rbd_types.h`, which is not part of the sources at hand; it is the
parameter `nameSize`. -/
def get_block_oid (nameSize : Nat) (header : rbd_obj_header_ondisk) (num : Nat) : String :=
  snprintf nameSize (header.block_name ++ "." ++ fmt_012x num)

/-- Source function `init_rbd_header`: the header built for a new image, and the value left in
`*order`. `nameSize` stands for `sizeof(ondisk.block_name)`, that is
`RBD_MAX_BLOCK_NAME_SIZE`, and `defaultOrder` for `RBD_DEFAULT_OBJ_ORDER`; both
constants are declared outside the sources at hand. `options.order` is a byte. -/
def init_rbd_header (nameSize defaultOrder : Nat) (size : Nat) (order : Int) (bid : Nat) :
    rbd_obj_header_ondisk × Int :=
  let hi := (bid >>> 32) % 4294967296
  let lo := (bid &&& 4294967295) % 4294967296
  let order1 : Int := if order = 0 then (defaultOrder : Int) else order
  ({ block_name := snprintf nameSize ("rb." ++ fmt_x hi ++ "." ++ fmt_x lo),
     image_size := size,
     order := (order1 % 256).toNat,
     crypt_type := 0,
     comp_type := 0,
     snap_seq := 0,
     snap_count := 0,
     reserved := 0,
     snap_names_len := 0 }, order1)

/-- The value of a lowercase hexadecimal digit (`0` for any other character). -/
def hexDigitVal (c : Char) : Nat :=
  if '0' ≤ c ∧ c ≤ '9' then c.toNat - '0'.toNat
  else if 'a' ≤ c ∧ c ≤ 'f' then c.toNat - 'a'.toNat + 10
  else 0

/-- The character is one of `0123456789abcdef`. -/
def isLowerHex (c : Char) : Bool := decide (('0' ≤ c ∧ c ≤ '9') ∨ ('a' ≤ c ∧ c ≤ 'f'))

/-- The number a string of hexadecimal digits denotes, most significant first. -/
def hexValue (ds : List Char) : Nat := ds.foldl (fun a c => 16 * a + hexDigitVal c) 0

/-! ## Sinks and sparse-read reconstruction -/

abbrev Byte := UInt8

/-- The callback type `int (*cb)(uint64_t, size_t, const char *, void *)`: the
state is what lies behind `void *arg`; the data pointer is `none` for `NULL` and
otherwise the bytes it designates. -/
abbrev Sink (σ : Type) := σ → Nat → Nat → Option (List Byte) → σ × Int

/-- One call of a sink: offset, length and data pointer. -/
structure Emit where
  ofs : Nat
  len : Nat
  data : Option (List Byte)
deriving DecidableEq

/-- The `(offset, length)` range of a sink call. -/
def Emit.range (e : Emit) : Nat × Nat := (e.ofs, e.len)

/-- A sink that behaves like `cb` and also logs every call it receives. -/
def record {σ : Type} (cb : Sink σ) : Sink (σ × List Emit) :=
  fun arg ofs len data =>
    let res := cb arg.1 ofs len data
    ((res.1, arg.2 ++ [⟨ofs, len, data⟩]), res.2)

/-- A sink that accepts everything and keeps no state. -/
def null_cb : Sink Unit := fun _ _ _ _ => ((), 0)

/-- The loop and the tail of `handle_sparse_read`, over the entries of `data_map`
in key order, with the running values of `block_ofs`, `buf_ofs`, `bl_ofs`. -/
def handle_sparse_read_loop {σ : Type} (data_bl : List Byte) (buf_len : Nat) (cb : Sink σ) :
    List (Nat × Nat) → Nat → Nat → Nat → σ → σ × Int
  | [], _block_ofs, buf_ofs, _bl_ofs, arg =>
    -- last hole
    if sub64 buf_len buf_ofs ≠ 0 then
      let res := cb arg buf_ofs (sub64 buf_len buf_ofs) none
      if res.2 < 0 then (res.1, res.2) else (res.1, toInt64 buf_len)
    else (arg, toInt64 buf_len)
  | (extent_ofs, extent_len) :: rest, block_ofs, buf_ofs, bl_ofs, arg =>
    -- a hole?
    let hole := sub64 extent_ofs block_ofs
    let res1 := if hole > 0 then cb arg buf_ofs hole none else (arg, 0)
    if res1.2 < 0 then (res1.1, res1.2)
    else if add64 bl_ofs extent_len > buf_len then (res1.1, - EIO)
    else
      let buf_ofs1 := add64 buf_ofs hole
      -- data
      let res2 := cb res1.1 buf_ofs1 extent_len (some ((data_bl.drop bl_ofs).take extent_len))
      if res2.2 < 0 then (res2.1, res2.2)
      else
        handle_sparse_read_loop data_bl buf_len cb rest (add64 extent_ofs extent_len)
          (add64 buf_ofs1 extent_len) (add64 bl_ofs extent_len) res2.1

/-- Source function `handle_sparse_read`: `data_map` is the extent map as the list of its
`(offset, length)` entries in key order. Returns the final state of the sink and
the `ssize_t` result. -/
def handle_sparse_read {σ : Type} (data_bl : List Byte) (block_ofs : Nat)
    (data_map : List (Nat × Nat)) (buf_ofs buf_len : Nat) (cb : Sink σ) (arg : σ) : σ × Int :=
  handle_sparse_read_loop data_bl buf_len cb data_map block_ofs buf_ofs 0 arg

/-- Sparse-read reconstruction in the words of the specification: walk the
extents by increasing offset; before each extent, when there is a gap since the
last position, a zero-fill for that gap; then the extent's data, taken from the
blob at the running blob offset; after the last extent, when bytes remain up to
`buf_len`, a final zero-fill. Positions are unbounded naturals. -/
def reconstruction (data_bl : List Byte) (buf_len : Nat) :
    List (Nat × Nat) → Nat → Nat → Nat → List Emit
  | [], _pos, out, _blob => if out < buf_len then [⟨out, buf_len - out, none⟩] else []
  | (extent_ofs, extent_len) :: rest, pos, out, blob =>
    (if pos < extent_ofs then [⟨out, extent_ofs - pos, none⟩] else []) ++
      ⟨out + (extent_ofs - pos), extent_len, some ((data_bl.drop blob).take extent_len)⟩ ::
        reconstruction data_bl buf_len rest (extent_ofs + extent_len)
          (out + (extent_ofs - pos) + extent_len) (blob + extent_len)

/-- The state a sink reaches after the given calls, in order. -/
def feed {σ : Type} (cb : Sink σ) (arg : σ) (calls : List Emit) : σ :=
  calls.foldl (fun s e => (cb s e.ofs e.len e.data).1) arg

/-- The extents are sorted by offset, pairwise disjoint and lie in `[lo, hi)`:
each starts at or after the end of the one before (`lo` for the first) and the
last ends at or before `hi`. -/
def ExtentsWithin : Nat → Nat → List (Nat × Nat) → Prop
  | lo, hi, [] => lo ≤ hi
  | lo, hi, (o, l) :: rest => lo ≤ o ∧ ExtentsWithin (o + l) hi rest

/-- The ranges follow one another without gap or overlap from `a` to `b`. -/
def Tiles : Nat → Nat → List (Nat × Nat) → Prop
  | a, b, [] => a = b
  | a, b, (o, l) :: rest => o = a ∧ Tiles (a + l) b rest

/-- Byte position `p` lies in the range `r`. -/
def inRange (p : Nat) (r : Nat × Nat) : Bool := decide (r.1 ≤ p ∧ p < r.1 + r.2)

/-! ## Synchronous read -/

/-- What `IoCtx::sparse_read(oid, m, bl, len, off)` hands back: the return
value, the extent map (entries in key order) and the data blob. -/
structure SparseRead where
  r : Int
  m : List (Nat × Nat)
  bl : List Byte
deriving DecidableEq

/-- The read side of the data session: `sparse_read oid len off`. -/
abbrev SparseReader := String → Nat → Nat → SparseRead

/-- The `for` loop of `read_iterate`: `n` iterations remain, `i` is the block
index, `total_read` and `left` are the loop's variables. -/
def read_iterate_loop {σ : Type} (nameSize : Nat) (header : rbd_obj_header_ondisk)
    (sparse_read : SparseReader) (cb : Sink σ) (off block_size : Nat) :
    Nat → Nat → Int → Nat → σ → σ × Int
  | 0, _i, total_read, _left, arg => (arg, total_read)
  | n + 1, i, total_read, left, arg =>
    let oid := get_block_oid nameSize header i
    let block_ofs := get_block_ofs header (toU64 ((off : Int) + total_read))
    let read_len := min (sub64 block_size block_ofs) left
    let res := sparse_read oid read_len block_ofs
    let r : Int := if res.r < 0 ∧ res.r = - ENOENT then 0 else res.r
    if r < 0 then (arg, r)
    else
      let out := handle_sparse_read res.bl block_ofs res.m (toU64 total_read) read_len cb arg
      let r : Int := toInt32 out.2
      if r < 0 then (out.1, r)
      else
        read_iterate_loop nameSize header sparse_read cb off block_size n (i + 1)
          (toInt64 (total_read + r)) (toU64 ((left : Int) - r)) out.1

/-- Source function `read_iterate`, on the header cached in the image context. `ictx_check_r` is
the value `ictx_check` returned. -/
def read_iterate {σ : Type} (nameSize : Nat) (header : rbd_obj_header_ondisk)
    (ictx_check_r : Int) (sparse_read : SparseReader) (off len : Nat) (cb : Sink σ) (arg : σ) :
    σ × Int :=
  if ictx_check_r < 0 then (arg, ictx_check_r)
  else if check_io header off len < 0 then (arg, check_io header off len)
  else
    let start_block := get_block_num header off
    let end_block := get_block_num header (add64 off len)
    let block_size := get_block_size header
    read_iterate_loop nameSize header sparse_read cb off block_size
      (end_block + 1 - start_block) start_block 0 len arg

/-- Source function `simple_read_cb`. The state is the caller's buffer `dest_buf`; it is `none`
once a `memcpy` or `memset` was asked to go past the end of that buffer, or to
copy more bytes than the source holds (undefined behaviour in C++). -/
def simple_read_cb : Sink (Option (List Byte)) := fun arg ofs len buf =>
  match arg with
  | none => (none, 0)
  | some dest_buf =>
    if ofs + len ≤ dest_buf.length then
      match buf with
      | some src =>
        if len ≤ src.length then
          (some (dest_buf.take ofs ++ src.take len ++ dest_buf.drop (ofs + len)), 0)
        else (none, 0)
      | none => (some (dest_buf.take ofs ++ List.replicate len 0 ++ dest_buf.drop (ofs + len)), 0)
    else (none, 0)

/-- Source function `read`: `read_iterate` with `simple_read_cb` on the caller's buffer. -/
def read (nameSize : Nat) (header : rbd_obj_header_ondisk) (ictx_check_r : Int)
    (sparse_read : SparseReader) (ofs len : Nat) (buf : List Byte) : Option (List Byte) × Int :=
  read_iterate nameSize header ictx_check_r sparse_read ofs len simple_read_cb (some buf)

/-! ## Synchronous write -/

/-- The write side of the data session: `write st oid bl len off` is the store
after `IoCtx::write(oid, bl, len, off)` and the `int` it returned. -/
abbrev StoreWrite (τ : Type) := τ → String → List Byte → Nat → Nat → τ × Int

/-- One call of the store's `write` and the value it returned. -/
structure WriteCall where
  oid : String
  bl : List Byte
  len : Nat
  off : Nat
  ret : Int
deriving DecidableEq

/-- A store that behaves like `w` and also logs every `write` it receives. -/
def record_writes {τ : Type} (w : StoreWrite τ) : StoreWrite (τ × List WriteCall) :=
  fun st oid bl len off =>
    let res := w st.1 oid bl len off
    ((res.1, st.2 ++ [⟨oid, bl, len, off, res.2⟩]), res.2)

/-- The `for` loop of `write`: `n` iterations remain, `i` is the block index. -/
def write_loop {τ : Type} (nameSize : Nat) (header : rbd_obj_header_ondisk)
    (store_write : StoreWrite τ) (off block_size : Nat) (buf : List Byte) :
    Nat → Nat → Nat → Nat → τ → τ × Int
  | 0, _i, total_write, _left, st => (st, toInt64 total_write)
  | n + 1, i, total_write, left, st =>
    let oid := get_block_oid nameSize header i
    let block_ofs := get_block_ofs header (add64 off total_write)
    let write_len := min (sub64 block_size block_ofs) left
    let bl := (buf.drop total_write).take write_len
    let res := store_write st oid bl write_len block_ofs
    if res.2 < 0 then (res.1, res.2)
    else if toU64 res.2 ≠ write_len then (res.1, - EIO)
    else
      write_loop nameSize header store_write off block_size buf n (i + 1)
        (add64 total_write write_len) (sub64 left write_len) res.1

/-- Source function `write`, on the header cached in the image context. `ictx_check_r` is the
value `ictx_check` returned; `buf` holds the `len` bytes to write. -/
def write {τ : Type} (nameSize : Nat) (header : rbd_obj_header_ondisk) (ictx_check_r : Int)
    (store_write : StoreWrite τ) (off len : Nat) (buf : List Byte) (st : τ) : τ × Int :=
  if len = 0 then (st, 0)
  else if ictx_check_r < 0 then (st, ictx_check_r)
  else if check_io header off len < 0 then (st, check_io header off len)
  else
    let start_block := get_block_num header off
    let end_block := get_block_num header (sub64 (add64 off len) 1)
    let block_size := get_block_size header
    write_loop nameSize header store_write off block_size buf
      (end_block + 1 - start_block) start_block 0 len st

/-! ## A byte store for the block objects -/

/-- Modelled from the spec: the content of the data pool, an association list
from object name to the object's bytes. The object store itself (librados) is
not part of the sources at hand. -/
abbrev ObjectStore := List (String × List Byte)

/-- Modelled from the spec: `write` of the object store with implicit object
creation. The object is extended with zeros up to `off` when it is shorter, the
bytes `[off, off + len)` are replaced by the first `len` bytes of `bl`, and the
number of bytes written is returned. -/
def store_write : StoreWrite ObjectStore := fun st oid bl len off =>
  let old := (st.lookup oid).getD []
  let padded := old ++ List.replicate (off - old.length) 0
  let data := padded.take off ++ bl.take len ++ padded.drop (off + len)
  ((oid, data) :: st.filter (fun p => p.1 != oid), (len : Int))

/-- Modelled from the spec: `sparse_read` of the object store. A missing object
is NotFound; otherwise the part of the object inside `[off, off + len)` comes
back as one extent at `off` together with its bytes. -/
def store_sparse_read (st : ObjectStore) : SparseReader := fun oid len off =>
  match st.lookup oid with
  | none => ⟨- ENOENT, [], []⟩
  | some obj =>
    let data := (obj.drop off).take len
    if data.length = 0 then ⟨0, [], []⟩ else ⟨(data.length : Int), [(off, data.length)], data⟩

/-- A store that accepts at most `cap` bytes of each write (a short write). -/
def capped_write (cap : Nat) : StoreWrite ObjectStore := fun st oid bl len off =>
  store_write st oid bl (min len cap) off

/-- A store in which every write fails with the negative value `err`. -/
def failing_write (err : Int) : StoreWrite ObjectStore := fun st _ _ _ _ => (st, err)

/-! ## Derived notions used in the statements -/

instance decExtentsWithin :
    ∀ (lo hi : Nat) (m : List (Nat × Nat)), Decidable (ExtentsWithin lo hi m)
  | lo, hi, [] => inferInstanceAs (Decidable (lo ≤ hi))
  | lo, hi, (o, l) :: rest =>
    have := decExtentsWithin (o + l) hi rest
    inferInstanceAs (Decidable (lo ≤ o ∧ ExtentsWithin (o + l) hi rest))

instance decTiles : ∀ (a b : Nat) (rs : List (Nat × Nat)), Decidable (Tiles a b rs)
  | a, b, [] => inferInstanceAs (Decidable (a = b))
  | a, b, (o, l) :: rest =>
    have := decTiles (a + l) b rest
    inferInstanceAs (Decidable (o = a ∧ Tiles (a + l) b rest))

/-- The calls `handle_sparse_read` makes to the sink `cb` when it is called with
`buf_ofs = 0`, in order. -/
def sparse_read_calls {σ : Type} (data_bl : List Byte) (block_ofs : Nat)
    (data_map : List (Nat × Nat)) (buf_len : Nat) (cb : Sink σ) (arg : σ) : List Emit :=
  (handle_sparse_read data_bl block_ofs data_map 0 buf_len (record cb) (arg, [])).1.2

/-- The calls `read_iterate` makes to the sink `cb`, in order. -/
def read_iterate_calls {σ : Type} (nameSize : Nat) (header : rbd_obj_header_ondisk)
    (ictx_check_r : Int) (sparse_read : SparseReader) (off len : Nat) (cb : Sink σ) (arg : σ) :
    List Emit :=
  (read_iterate nameSize header ictx_check_r sparse_read off len (record cb) (arg, [])).1.2

/-- The store writes `write` issues, in order, each with the value the store
returned for it. -/
def write_calls {τ : Type} (nameSize : Nat) (header : rbd_obj_header_ondisk)
    (ictx_check_r : Int) (w : StoreWrite τ) (off len : Nat) (buf : List Byte) (st : τ) :
    List WriteCall :=
  (write nameSize header ictx_check_r (record_writes w) off len buf (st, [])).1.2

/-- The value `write` returns when run against the store `w`, logging its calls. -/
def write_result {τ : Type} (nameSize : Nat) (header : rbd_obj_header_ondisk)
    (ictx_check_r : Int) (w : StoreWrite τ) (off len : Nat) (buf : List Byte) (st : τ) : Int :=
  (write nameSize header ictx_check_r (record_writes w) off len buf (st, [])).2

/-- A store write that returned an error, or a count other than the requested
one, is the last call of the log and decides the result `res`. -/
def WriteStops (res : Int) (calls : List WriteCall) : Prop :=
  ∀ (k : Nat) (hk : k < calls.length),
    (calls[k].ret < 0 → res = calls[k].ret ∧ k + 1 = calls.length) ∧
    (0 ≤ calls[k].ret → toU64 calls[k].ret ≠ calls[k].len →
      res = - EIO ∧ k + 1 = calls.length)

/-! ## Asynchronous completions -/

/-- The state of a `struct AioCompletion`. `complete_cb` tells whether a finish
callback is registered. The last three fields are bookkeeping that the C++
object does not hold: how often `complete()` ran, how often the callback was
invoked, and whether `delete this` has run. -/
structure AioCompletion where
  done : Bool
  rval : Int
  complete_cb : Bool
  pending_count : Int
  ref : Int
  released : Bool
  completes : Nat
  cb_calls : Nat
  deleted : Bool
deriving DecidableEq

/-- Source function `aio_create_completion`: the constructor's initial values,
with or without a finish callback. -/
def aio_create_completion (complete_cb : Bool) : AioCompletion :=
  { done := false, rval := 0, complete_cb := complete_cb, pending_count := 1, ref := 1,
    released := false, completes := 0, cb_calls := 0, deleted := false }

/-- The update `complete_block` applies to `rval` for a sub-op result `r`. -/
def rval_update (rval r : Int) : Int :=
  if 0 ≤ rval then
    if r < 0 ∧ r ≠ - EEXIST then r
    else if 0 < r then toInt64 (rval + r)
    else rval
  else rval

namespace AioCompletion

/-- Source function `AioCompletion::complete`: invokes the callback when there is
one, then sets `done`. -/
def complete (c : AioCompletion) : AioCompletion :=
  { c with
    cb_calls := if c.complete_cb then c.cb_calls + 1 else c.cb_calls,
    done := true,
    completes := c.completes + 1 }

/-- Source function `AioCompletion::put_unlock`. The result is `none` when the
assertion `ref > 0` fails or the object was deleted before the call. -/
def put_unlock (c : AioCompletion) : Option AioCompletion :=
  if c.deleted then none
  else if 0 < c.ref then
    let n := toInt32 (c.ref - 1)
    some { c with ref := n, deleted := decide (n = 0) }
  else none

/-- Source function `AioCompletion::put`. -/
def put (c : AioCompletion) : Option AioCompletion := put_unlock c

/-- Source function `AioCompletion::get`. The result is `none` when the
assertion `ref > 0` fails or the object was deleted before the call. -/
def get (c : AioCompletion) : Option AioCompletion :=
  if c.deleted then none
  else if 0 < c.ref then some { c with ref := toInt32 (c.ref + 1) }
  else none

/-- Source function `AioCompletion::release`. The result is `none` when an
assertion fails or the object was deleted before the call. -/
def release (c : AioCompletion) : Option AioCompletion :=
  if c.deleted then none
  else if c.released then none
  else put_unlock { c with released := true }

/-- The first locked section of `add_block_completion`: `pending_count++`. -/
def add_pending (c : AioCompletion) : Option AioCompletion :=
  if c.deleted then none
  else some { c with pending_count := toInt32 (c.pending_count + 1) }

/-- Source function `AioCompletion::add_block_completion`: `pending_count++`
under the lock, then `get()`. -/
def add_block_completion (c : AioCompletion) : Option AioCompletion :=
  (add_pending c).bind get

/-- Source function `AioCompletion::finish_adding_completions`. The result is
`none` when the assertion `pending_count` fails or the object was deleted. -/
def finish_adding_completions (c : AioCompletion) : Option AioCompletion :=
  if c.deleted then none
  else if c.pending_count = 0 then none
  else
    let count := toInt32 (c.pending_count - 1)
    let c1 := { c with pending_count := count }
    some (if count = 0 then c1.complete else c1)

/-- Source function `AioCompletion::complete_block` for the sub-op result `r`.
The result is `none` when an assertion fails or the object was deleted. -/
def complete_block (c : AioCompletion) (r : Int) : Option AioCompletion :=
  if c.deleted then none
  else
    let c1 := { c with rval := rval_update c.rval r }
    if c1.pending_count = 0 then none
    else
      let count := toInt32 (c1.pending_count - 1)
      let c2 := { c1 with pending_count := count }
      put_unlock (if count = 0 then c2.complete else c2)

/-- Source function `AioCompletion::get_return_value`. -/
def get_return_value (c : AioCompletion) : Int := c.rval

/-- Source function `AioCompletion::wait_for_complete`: returns 0 once `done` is
set; `none` stands for a wait that never ends in this state. -/
def wait_for_complete (c : AioCompletion) : Option Int :=
  if c.done then some 0 else none

end AioCompletion

/-- The atomic steps taken on one `AioCompletion`, each a section run under its
lock: the `get()` that `aio_read` / `aio_write` issue before their loop, the two
halves of `add_block_completion`, `finish_adding_completions`, the `put()` after
the loop, a sub-op's `complete_block(r)`, and the caller's `release()`. -/
inductive AioEvent where
  | loop_get
  | add_pending
  | add_get
  | finish
  | loop_put
  | report (r : Int)
  | release
deriving DecidableEq

/-- The effect of one step on the completion. -/
def aio_step (c : AioCompletion) : AioEvent → Option AioCompletion
  | .loop_get => c.get
  | .add_pending => c.add_pending
  | .add_get => c.get
  | .finish => c.finish_adding_completions
  | .loop_put => c.put
  | .report r => c.complete_block r
  | .release => c.release

/-- The effect of a sequence of steps, in order. -/
def aio_run (c : AioCompletion) : List AioEvent → Option AioCompletion
  | [] => some c
  | e :: rest => (aio_step c e).bind (fun c1 => aio_run c1 rest)

/-- The sub-op results reported in a sequence of steps, in order. -/
def reported : List AioEvent → List Int
  | [] => []
  | .report r :: rest => r :: reported rest
  | _ :: rest => reported rest

/-- How far the submission protocol has got: whether the loop's `get()` and
`put()` have run, how many registrations have begun (`adds`) and finished
(`regs`), whether `finish_adding_completions` has run, the results reported so
far, and whether the caller has released its reference. -/
structure Proto where
  lg : Bool
  adds : Nat
  regs : Nat
  fin : Bool
  lp : Bool
  reports : List Int
  rel : Bool
deriving DecidableEq

/-- The protocol state before any step. -/
def Proto.start : Proto :=
  { lg := false, adds := 0, regs := 0, fin := false, lp := false, reports := [], rel := false }

/-- One step of the submission protocol for at most `N` sub-ops; `none` when the
step is out of order. The loop's `get()` comes before any registration and
before the caller's release; a registration begins only when the previous one is
finished and `finish_adding_completions` has not run; `finish_adding_completions`
runs once, between registrations; the loop's `put()` follows it; a sub-op reports
only after its own registration; the caller releases once, after the loop's
`get()`. -/
def proto_step (N : Nat) (p : Proto) : AioEvent → Option Proto
  | .loop_get =>
    if p.lg = false ∧ p.adds = 0 ∧ p.fin = false ∧ p.rel = false then some { p with lg := true }
    else none
  | .add_pending =>
    if p.adds = p.regs ∧ p.adds < N ∧ p.fin = false then some { p with adds := p.adds + 1 }
    else none
  | .add_get =>
    if p.adds = p.regs + 1 then some { p with regs := p.regs + 1 } else none
  | .finish =>
    if p.adds = p.regs ∧ p.fin = false then some { p with fin := true } else none
  | .loop_put =>
    if p.lg = true ∧ p.fin = true ∧ p.lp = false then some { p with lp := true } else none
  | .report r =>
    if p.reports.length < p.regs then some { p with reports := p.reports ++ [r] } else none
  | .release =>
    if p.rel = false ∧ p.lg = true then some { p with rel := true } else none

/-- The protocol state after a sequence of steps; `none` when one is out of
order. -/
def proto_run (N : Nat) (p : Proto) : List AioEvent → Option Proto
  | [] => some p
  | e :: rest => (proto_step N p e).bind (fun p1 => proto_run N p1 rest)

/-- The steps are a complete fan-out of `N` sub-ops: they follow the protocol,
all `N` registrations are made, `finish_adding_completions` has run and all `N`
sub-ops have reported. -/
def is_fanout (N : Nat) (evs : List AioEvent) : Bool :=
  match proto_run N Proto.start evs with
  | some p => decide (p.adds = N ∧ p.regs = N ∧ p.fin = true ∧ p.reports.length = N)
  | none => false

/-- The steps are a complete submission of `N` sub-ops with their reference
counting: a complete fan-out in which the loop's `get()` and `put()` have run
and the caller has released its reference. -/
def is_submission (N : Nat) (evs : List AioEvent) : Bool :=
  match proto_run N Proto.start evs with
  | some p => decide (p.adds = N ∧ p.regs = N ∧ p.fin = true ∧ p.reports.length = N ∧
      p.lg = true ∧ p.lp = true ∧ p.rel = true)
  | none => false

/-- The completion that corresponds to a protocol state. -/
def proto_state (cb : Bool) (p : Proto) : AioCompletion :=
  { done := decide (p.fin = true ∧ p.adds = p.reports.length),
    rval := p.reports.foldl rval_update 0,
    complete_cb := cb,
    pending_count := (if p.fin then 0 else 1) + (p.adds : Int) - (p.reports.length : Int),
    ref := (if p.rel then 0 else 1) + (if p.lg = true ∧ p.lp = false then 1 else 0)
      + (p.regs : Int) - (p.reports.length : Int),
    released := p.rel,
    completes := if p.fin = true ∧ p.adds = p.reports.length then 1 else 0,
    cb_calls := if cb = true ∧ p.fin = true ∧ p.adds = p.reports.length then 1 else 0,
    deleted := decide (p.rel = true ∧ ¬ (p.lg = true ∧ p.lp = false)
      ∧ p.regs = p.reports.length) }

/-- The protocol state is consistent. -/
def Proto.wf (N : Nat) (p : Proto) : Prop :=
  p.regs ≤ p.adds ∧ p.adds ≤ p.regs + 1 ∧ p.reports.length ≤ p.regs ∧ p.adds ≤ N ∧
  (p.fin = true → p.adds = p.regs) ∧ (p.lp = true → p.fin = true ∧ p.lg = true) ∧
  (p.rel = true → p.lg = true)

/-! ## Asynchronous read and write -/

/-- The state of a `struct AioBlockCompletion`: the sub-op's offset and length,
the pointer `buf` as an offset into the caller's buffer (`none` for `NULL`), and
the extent map and data blob that a sparse read fills in. -/
structure AioBlockCompletion where
  ofs : Nat
  len : Nat
  buf : Option Nat
  m : List (Nat × Nat)
  data_bl : List Byte
deriving DecidableEq

/-- The callback `simple_read_cb` with `arg` pointing `base` bytes into the
caller's buffer; the state is the whole buffer. -/
def simple_read_cb_at (base : Nat) : Sink (Option (List Byte)) :=
  fun arg ofs len buf => simple_read_cb arg (base + ofs) len buf

/-- Source function `AioBlockCompletion::complete` for the sub-op result `r`:
the caller's buffer `mem` and the parent completion `c` after the call. -/
def AioBlockCompletion.complete (bc : AioBlockCompletion) (mem : Option (List Byte))
    (c : AioCompletion) (r : Int) : Option (List Byte) × Option AioCompletion :=
  match bc.buf with
  | some base =>
    if 0 ≤ r ∨ r = - ENOENT then
      -- this was a sparse_read operation
      let out := handle_sparse_read bc.data_bl bc.ofs bc.m 0 bc.len (simple_read_cb_at base) mem
      (out.1, c.complete_block out.2)
    else (mem, c.complete_block r)
  | none => (mem, c.complete_block r)

/-- One iteration of the submission loop of `aio_read` or `aio_write`: the block
completion it registered, the request it handed to the data session (object
name, data for a write, length, offset) and what the submission returned. -/
structure SubOp where
  block : AioBlockCompletion
  oid : String
  bl : List Byte
  len : Nat
  off : Nat
  r : Int
deriving DecidableEq

/-- The `for` loop of `aio_write`. `submit oid bl len off` is what
`IoCtx::aio_write` returns for the request. No sub-op reports while the loop
runs. -/
def aio_write_loop (nameSize : Nat) (header : rbd_obj_header_ondisk)
    (submit : String → List Byte → Nat → Nat → Int) (off len block_size : Nat)
    (buf : List Byte) :
    Nat → Nat → Nat → Nat → Option AioCompletion → List SubOp →
      Option AioCompletion × List SubOp × Int
  | 0, _i, _total_write, _left, c, subs => (c, subs, 0)
  | n + 1, i, total_write, left, c, subs =>
    let oid := get_block_oid nameSize header i
    let block_ofs := get_block_ofs header (add64 off total_write)
    let write_len := min (sub64 block_size block_ofs) left
    let bl := (buf.drop total_write).take write_len
    let block_completion : AioBlockCompletion := ⟨off, len, none, [], []⟩
    let c1 := c.bind AioCompletion.add_block_completion
    let r := submit oid bl write_len block_ofs
    let subs1 := subs ++ [⟨block_completion, oid, bl, write_len, block_ofs, r⟩]
    if r < 0 then (c1, subs1, r)
    else
      aio_write_loop nameSize header submit off len block_size buf n (i + 1)
        (add64 total_write write_len) (sub64 left write_len) c1 subs1

/-- Source function `aio_write`: the completion when the call returns (`none`
after a failed assertion), the sub-ops registered, and the return value. -/
def aio_write (nameSize : Nat) (header : rbd_obj_header_ondisk) (ictx_check_r : Int)
    (submit : String → List Byte → Nat → Nat → Int) (off len : Nat) (buf : List Byte)
    (c : AioCompletion) : Option AioCompletion × List SubOp × Int :=
  if len = 0 then (some c, [], 0)
  else if ictx_check_r < 0 then (some c, [], ictx_check_r)
  else
    let start_block := get_block_num header off
    let end_block := get_block_num header (sub64 (add64 off len) 1)
    let block_size := get_block_size header
    if check_io header off len < 0 then (some c, [], check_io header off len)
    else
      let out := aio_write_loop nameSize header submit off len block_size buf
        (end_block + 1 - start_block) start_block 0 len c.get []
      -- done:
      ((out.1.bind AioCompletion.finish_adding_completions).bind AioCompletion.put,
        out.2.1, out.2.2)

/-- The `for` loop of `aio_read`. `submit oid len off` is what
`IoCtx::aio_sparse_read` returns for the request. No sub-op reports while the
loop runs. -/
def aio_read_loop (nameSize : Nat) (header : rbd_obj_header_ondisk)
    (submit : String → Nat → Nat → Int) (off block_size : Nat) :
    Nat → Nat → Int → Nat → Option AioCompletion → List SubOp →
      Option AioCompletion × List SubOp × Int
  | 0, _i, total_read, _left, c, subs => (c, subs, total_read)
  | n + 1, i, total_read, left, c, subs =>
    let oid := get_block_oid nameSize header i
    let block_ofs := get_block_ofs header (toU64 ((off : Int) + total_read))
    let read_len := min (sub64 block_size block_ofs) left
    let block_completion : AioBlockCompletion :=
      ⟨block_ofs, read_len, some total_read.toNat, [], []⟩
    let c1 := c.bind AioCompletion.add_block_completion
    let r0 := submit oid read_len block_ofs
    let r : Int := if r0 < 0 ∧ r0 = - ENOENT then 0 else r0
    let subs1 := subs ++ [⟨block_completion, oid, [], read_len, block_ofs, r0⟩]
    if r < 0 then (c1, subs1, r)
    else
      aio_read_loop nameSize header submit off block_size n (i + 1)
        (toInt32 (total_read + (read_len : Int))) (sub64 left read_len) c1 subs1

/-- Source function `aio_read`: the completion when the call returns (`none`
after a failed assertion), the sub-ops registered, and the return value. -/
def aio_read (nameSize : Nat) (header : rbd_obj_header_ondisk) (ictx_check_r : Int)
    (submit : String → Nat → Nat → Int) (off len : Nat) (c : AioCompletion) :
    Option AioCompletion × List SubOp × Int :=
  if ictx_check_r < 0 then (some c, [], ictx_check_r)
  else if check_io header off len < 0 then (some c, [], check_io header off len)
  else
    let start_block := get_block_num header off
    let end_block := get_block_num header (sub64 (add64 off len) 1)
    let block_size := get_block_size header
    let out := aio_read_loop nameSize header submit off block_size
      (end_block + 1 - start_block) start_block 0 len c.get []
    -- done:
    ((out.1.bind AioCompletion.finish_adding_completions).bind AioCompletion.put,
      out.2.1, toInt32 out.2.2)

/-! ## Image context, refresh and snapshot selection -/

/-- Modelled from the spec: the selector value that stands for "head" (the
constant `CEPH_NOSNAP`, declared outside the sources at hand, where it is
`(__u64)(-2)`). -/
def CEPH_NOSNAP : Nat := 18446744073709551614

/-- The fields of `struct SnapInfo`. -/
structure SnapInfo where
  id : Nat
  size : Nat
deriving DecidableEq

/-- The state of a `struct ImageCtx`: the cached header, the snapshot context
`snapc` (its `seq` and `snaps`), the id list `snaps`, the index by name (a
`std::map`, kept as an association list), the active selector `snapid` /
`snapname`, the image name and the staleness flag. The last three fields are what
the context has set on its data session: the read pin (`snap_set_read`) and the
write snapshot context (`selfmanaged_snap_set_write_ctx`). -/
structure ImageCtx where
  header : rbd_obj_header_ondisk
  snapc_seq : Nat
  snapc_snaps : List Nat
  snaps : List Nat
  snaps_by_name : List (String × SnapInfo)
  snapid : Nat
  name : String
  snapname : String
  needs_refresh : Bool
  data_read_snap : Nat
  data_write_seq : Nat
  data_write_snaps : List Nat
deriving DecidableEq

namespace ImageCtx

/-- The constructor `ImageCtx(imgname, p)`: head selected, refresh needed. The
header is given because the embedding has no uninitialised memory. -/
def create (imgname : String) (header : rbd_obj_header_ondisk) : ImageCtx :=
  { header := header, snapc_seq := 0, snapc_snaps := [], snaps := [], snaps_by_name := [],
    snapid := CEPH_NOSNAP, name := imgname, snapname := "", needs_refresh := true,
    data_read_snap := CEPH_NOSNAP, data_write_seq := 0, data_write_snaps := [] }

/-- Source function `ImageCtx::snap_unset`. -/
def snap_unset (ictx : ImageCtx) : ImageCtx :=
  { ictx with snapid := CEPH_NOSNAP, snapname := "" }

/-- Source function `ImageCtx::snap_set`. -/
def snap_set (ictx : ImageCtx) (snap_name : String) : ImageCtx × Int :=
  match ictx.snaps_by_name.lookup snap_name with
  | some info => ({ ictx with snapname := snap_name, snapid := info.id }, 0)
  | none => (ictx.snap_unset, - ENOENT)

/-- Source function `ImageCtx::get_snapid`. -/
def get_snapid (ictx : ImageCtx) (snap_name : String) : Nat :=
  match ictx.snaps_by_name.lookup snap_name with
  | some info => info.id
  | none => CEPH_NOSNAP

/-- Source function `ImageCtx::add_snap`. `std::map::insert` keeps an entry that
is already there. -/
def add_snap (ictx : ImageCtx) (snap_name : String) (id size : Nat) : ImageCtx :=
  { ictx with
    snapc_snaps := ictx.snapc_snaps ++ [id],
    snaps := ictx.snaps ++ [id],
    snaps_by_name :=
      match ictx.snaps_by_name.lookup snap_name with
      | some _ => ictx.snaps_by_name
      | none => ictx.snaps_by_name ++ [(snap_name, ⟨id, size⟩)] }

end ImageCtx

/-- What the metadata session answers during one `ictx_refresh`: the result of
`read_header_bl` on the header object (`header_r`), whether the bytes read are
fewer than `sizeof(struct rbd_obj_header_ondisk)` (`header_short`), the header
those bytes hold (`header`), the result of the `snap_list` call (`list_r`), and
the decoded reply: the sequence number and the `(id, image_size, name)` entries
in order. -/
structure MdReply where
  header_r : Int
  header_short : Bool
  header : rbd_obj_header_ondisk
  list_r : Int
  seq : Nat
  snaps : List (Nat × Nat × String)
deriving DecidableEq

/-- Source function `read_header`, given what `read_header_bl` brought back: the
header is overwritten only on success. -/
def read_header (md : MdReply) (header : rbd_obj_header_ondisk) :
    rbd_obj_header_ondisk × Int :=
  if md.header_r < 0 then (header, md.header_r)
  else if md.header_short then (header, - EIO)
  else (md.header, 0)

/-- Source function `ictx_refresh`. `is_valid` is `SnapContext::is_valid`, which
is declared outside the sources at hand; `snap_name` is `none` for `NULL`. -/
def ictx_refresh (is_valid : Nat → List Nat → Bool) (md : MdReply) (ictx : ImageCtx)
    (snap_name : Option String) : ImageCtx × Int :=
  let rh := read_header md ictx.header
  let ictx1 := { ictx with header := rh.1 }
  if rh.2 < 0 then (ictx1, rh.2)
  else if md.list_r < 0 then (ictx1, md.list_r)
  else
    let ictx2 := { ictx1 with snaps := [], snapc_snaps := [], snaps_by_name := [] }
    let ictx3 := { ictx2 with snapc_seq := md.seq }
    let ictx4 := md.snaps.foldl (fun (c : ImageCtx) e => c.add_snap e.2.2 e.1 e.2.1) ictx3
    if ¬ is_valid ictx4.snapc_seq ictx4.snapc_snaps then (ictx4, - EIO)
    else
      let sel : ImageCtx × Int :=
        match snap_name with
        | some n =>
          let s := ictx4.snap_set n
          if s.2 < 0 then s else ({ s.1 with data_read_snap := s.1.snapid }, 0)
        | none => (ictx4, 0)
      if sel.2 < 0 then sel
      else
        ({ sel.1 with
            data_write_seq := sel.1.snapc_seq,
            data_write_snaps := sel.1.snaps,
            needs_refresh := false }, 0)

/-- Source function `ictx_check`. `md` is what the metadata session answers if a
refresh takes place. -/
def ictx_check (is_valid : Nat → List Nat → Bool) (md : MdReply) (ictx : ImageCtx) :
    ImageCtx × Int :=
  let needs_refresh := ictx.needs_refresh
  if needs_refresh then
    let snap : Option String := if ictx.snapid ≠ CEPH_NOSNAP then some ictx.snapname else none
    let out := ictx_refresh is_valid md ictx snap
    if out.2 < 0 then out
    else
      -- check if the snapshot at which we were reading was removed
      match snap with
      | some n => if out.1.snapname ≠ n then (out.1, - ENOENT) else (out.1, 0)
      | none => (out.1, 0)
  else (ictx, 0)

/-- Source function `snap_set` (the free function); `snap_name` is `none` for
`NULL`. -/
def snap_set (is_valid : Nat → List Nat → Bool) (md : MdReply) (ictx : ImageCtx)
    (snap_name : Option String) : ImageCtx × Int :=
  let chk := ictx_check is_valid md ictx
  if chk.2 < 0 then chk
  else
    let ictx1 :=
      match snap_name with
      | some n => (chk.1.snap_set n).1
      | none => chk.1.snap_unset
    ({ ictx1 with data_read_snap := ictx1.snapid }, 0)

/-- Source function `notify_change` as far as a context that is passed to it
goes: the staleness flag is set. The notify sent to the other clients has no
effect on this context. -/
def notify_change (ictx : ImageCtx) : ImageCtx :=
  { ictx with needs_refresh := true }

/-- Modelled from the spec: a snapshot context is valid when its snapshot ids
are strictly increasing (the method `SnapContext::is_valid` is declared outside
the sources at hand). -/
def snapc_is_valid (_seq : Nat) (snaps : List Nat) : Bool :=
  decide (snaps.Pairwise (fun a b => a < b))

/-! ## Rollback and resize -/

/-- The per-object rollback of the data session:
`rollback st oid snapid` is the store after
`IoCtx::selfmanaged_snap_rollback(oid, snapid)` and the `int` it returned. -/
abbrev StoreRollback (τ : Type) := τ → String → Nat → τ × Int

/-- One call of the store's per-object rollback and the value it returned. -/
structure RollbackCall where
  oid : String
  snapid : Nat
  ret : Int
deriving DecidableEq

/-- A store that behaves like `rb` and also logs every rollback it receives. -/
def record_rollbacks {τ : Type} (rb : StoreRollback τ) :
    StoreRollback (τ × List RollbackCall) :=
  fun st oid snapid =>
    let res := rb st.1 oid snapid
    ((res.1, st.2 ++ [⟨oid, snapid, res.2⟩]), res.2)

/-- The `for` loop of `rollback_image`: `n` iterations remain, `i` is the block
index. -/
def rollback_image_loop {τ : Type} (nameSize : Nat) (header : rbd_obj_header_ondisk)
    (rb : StoreRollback τ) (snapid : Nat) : Nat → Nat → τ → τ × Int
  | 0, _i, st => (st, 0)
  | n + 1, i, st =>
    let oid := get_block_oid nameSize header i
    let res := rb st oid snapid
    if res.2 < 0 ∧ res.2 ≠ - ENOENT then (res.1, res.2)
    else rollback_image_loop nameSize header rb snapid n (i + 1) res.1

/-- Source function `rollback_image`. -/
def rollback_image {τ : Type} (nameSize : Nat) (ictx : ImageCtx) (rb : StoreRollback τ)
    (snapid : Nat) (st : τ) : τ × Int :=
  let numseg := get_max_block ictx.header
  rollback_image_loop nameSize ictx.header rb snapid numseg 0 st

/-- Source function `snap_rollback`. `md` is what the metadata session answers
to the refresh of `ictx_check`, if there is one, and `md2` what it answers to
the refresh after the rollback. -/
def snap_rollback {τ : Type} (nameSize : Nat) (is_valid : Nat → List Nat → Bool)
    (md md2 : MdReply) (rb : StoreRollback τ) (ictx : ImageCtx) (snap_name : String)
    (st : τ) : ImageCtx × τ × Int :=
  let chk := ictx_check is_valid md ictx
  if chk.2 < 0 then (chk.1, st, chk.2)
  else
    let snapid := chk.1.get_snapid snap_name
    if snapid = CEPH_NOSNAP then (chk.1, st, - ENOENT)
    else
      let rr := rollback_image nameSize chk.1 rb snapid st
      if rr.2 < 0 then (chk.1, rr.1, rr.2)
      else
        -- refresh without setting the snapid we read from
        let refreshed := ictx_refresh is_valid md2 chk.1 none
        (notify_change refreshed.1, rr.1, 0)

/-- The object removal of a session: `remove st oid` is the store after
`IoCtx::remove(oid)` and the `int` it returned. -/
abbrev StoreRemove (τ : Type) := τ → String → τ × Int

/-- A store that behaves like `rm` and also logs the name of every object it is
asked to remove. -/
def record_removes {τ : Type} (rm : StoreRemove τ) : StoreRemove (τ × List String) :=
  fun st oid =>
    let res := rm st.1 oid
    ((res.1, st.2 ++ [oid]), res.2)

/-- The `for` loop of `trim_image`: `n` iterations remain, `i` is the block
index. The result of `remove` is not looked at. -/
def trim_image_loop {τ : Type} (nameSize : Nat) (header : rbd_obj_header_ondisk)
    (rm : StoreRemove τ) : Nat → Nat → τ → τ
  | 0, _i, st => st
  | n + 1, i, st =>
    let oid := get_block_oid nameSize header i
    trim_image_loop nameSize header rm n (i + 1) (rm st oid).1

/-- Source function `trim_image`. -/
def trim_image {τ : Type} (nameSize : Nat) (header : rbd_obj_header_ondisk)
    (rm : StoreRemove τ) (newsize : Nat) (st : τ) : τ :=
  let numseg := get_max_block header
  let start := get_block_num header newsize
  trim_image_loop nameSize header rm (numseg - start) start st

/-- Source function `resize`. `md` is what the metadata session answers to the
refresh of `ictx_check`, if there is one, and `write_r` what the write of the new
header returns. -/
def resize {τ : Type} (nameSize : Nat) (is_valid : Nat → List Nat → Bool) (md : MdReply)
    (rm : StoreRemove τ) (write_r : Int) (ictx : ImageCtx) (size : Nat) (st : τ) :
    ImageCtx × τ × Int :=
  let chk := ictx_check is_valid md ictx
  if chk.2 < 0 then (chk.1, st, chk.2)
  else if size = chk.1.header.image_size then (chk.1, st, 0)
  else
    let st1 :=
      if size > chk.1.header.image_size then st
      else trim_image nameSize chk.1.header rm size st
    let ictx1 := { chk.1 with header := { chk.1.header with image_size := size } }
    -- rewrite header
    if write_r < 0 then (ictx1, st1, write_r)
    else (notify_change ictx1, st1, 0)

/-- The per-object rollbacks `rollback_image` issues, in order, each with the
value the store returned. -/
def rollback_calls {τ : Type} (nameSize : Nat) (ictx : ImageCtx) (rb : StoreRollback τ)
    (snapid : Nat) (st : τ) : List RollbackCall :=
  (rollback_image nameSize ictx (record_rollbacks rb) snapid (st, [])).1.2

/-- The names of the objects `resize` asks the data session to remove, in
order. -/
def resize_removes {τ : Type} (nameSize : Nat) (is_valid : Nat → List Nat → Bool)
    (md : MdReply) (rm : StoreRemove τ) (write_r : Int) (ictx : ImageCtx) (size : Nat)
    (st : τ) : List String :=
  (resize nameSize is_valid md (record_removes rm) write_r ictx size (st, [])).2.1.2

/-- Modelled from the spec: `remove` of the object store: NotFound for a missing
object, otherwise the object is gone. -/
def store_remove : StoreRemove ObjectStore := fun st oid =>
  match st.lookup oid with
  | none => (st, - ENOENT)
  | some _ => (st.filter (fun p => p.1 != oid), 0)

/-- A store in which the rollback of the object named `bad` fails with `err`,
that of the object named `missing` reports NotFound, and every other rollback
succeeds. -/
def scripted_rollback (bad missing : String) (err : Int) : StoreRollback Unit :=
  fun st oid _ =>
    if oid = bad then (st, err) else if oid = missing then (st, - ENOENT) else (st, 0)

/-! ## Pool sessions: header I/O, image creation, removal and copy -/

/-- The macro `READ_SIZE` of `read_header_bl`. -/
def READ_SIZE : Nat := 4096

/-- Modelled from the spec: the constant `RBD_SUFFIX`, declared outside the
sources at hand; a header object is named after its image with this suffix. -/
def RBD_SUFFIX : String := ".rbd"

/-- Modelled from the spec: the constant `RBD_DIRECTORY`, the name of the object
that holds the image directory (declared outside the sources at hand). -/
def RBD_DIRECTORY : String := "rbd_directory"

/-- Modelled from the spec: the constant `RBD_INFO`, the name of the object
behind the block-name counter (declared outside the sources at hand). -/
def RBD_INFO : String := "rbd_info"

/-- The command buffer handed to `IoCtx::tmap_update`: the opcode
`CEPH_OSD_TMAP_SET` or `CEPH_OSD_TMAP_RM` and the image name encoded after it
(the value of a `SET` is an empty buffer). -/
inductive TmapCmd where
  | set (imgname : String)
  | rm (imgname : String)
deriving DecidableEq

/-- The memory image of `struct rbd_obj_header_ondisk`, whose declaration is
outside the sources at hand: `sizeof` is `sizeof(struct rbd_obj_header_ondisk)`,
`encode h` the bytes of a struct holding `h`, and `decode bytes` the struct that
`memcpy(header, bytes, sizeof(*header))` leaves. -/
structure HeaderLayout where
  sizeof : Nat
  encode : rbd_obj_header_ondisk → List Byte
  decode : List Byte → rbd_obj_header_ondisk

/-- The operations of a pool session (`IoCtx`) that `create`, `remove` and
`copy` call, over a store state `τ`: `stat`, `read(oid, bl, len, off)` (return
value and bytes), `write`, `remove`, `exec(oid, "rbd", "assign_bid")` (return
value and the decoded id), `tmap_update` and `sparse_read`. -/
structure IoCtx (τ : Type) where
  stat : τ → String → Int
  read : τ → String → Nat → Nat → Int × List Byte
  write : StoreWrite τ
  remove : τ → String → τ × Int
  exec_assign_bid : τ → String → τ × Int × Nat
  tmap_update : τ → String → TmapCmd → τ × Int
  sparse_read : τ → SparseReader

/-- The `do ... while` loop of `read_header_bl`: `header` is the buffer
accumulated so far. The second component is `none` when the loop has not
returned after `fuel` iterations. -/
def read_header_bl_loop (read : String → Nat → Nat → Int × List Byte) (md_oid : String) :
    Nat → List Byte → List Byte × Option Int
  | 0, header => (header, none)
  | fuel + 1, header =>
    let res := read md_oid READ_SIZE 0
    let r := res.1
    if r < 0 then (header, some r)
    else
      -- header.claim_append(bl)
      let header1 := header ++ res.2
      if r = (READ_SIZE : Int) then read_header_bl_loop read md_oid fuel header1
      else (header1, some 0)

/-- Source function `read_header_bl`, run for at most `fuel` iterations of its
loop: the buffer `header` and the return value (`none` when the loop has not
returned). -/
def read_header_bl (read : String → Nat → Nat → Int × List Byte) (md_oid : String)
    (fuel : Nat) : List Byte × Option Int :=
  read_header_bl_loop read md_oid fuel []

/-- Source function `read_header` on a pool session: `read_header_bl`, then the
length test and the `memcpy` of `read_header`. `none` when `read_header_bl` has
not returned after `fuel` iterations. -/
def read_header_from {τ : Type} (L : HeaderLayout) (io : IoCtx τ) (st : τ) (md_oid : String)
    (fuel : Nat) (header : rbd_obj_header_ondisk) : Option (rbd_obj_header_ondisk × Int) :=
  let out := read_header_bl (io.read st) md_oid fuel
  match out.2 with
  | none => none
  | some r =>
    some (read_header
      { header_r := r, header_short := decide (out.1.length < L.sizeof),
        header := L.decode out.1, list_r := 0, seq := 0, snaps := [] } header)

/-- Source function `touch_rbd_info`. -/
def touch_rbd_info {τ : Type} (io : IoCtx τ) (info_oid : String) (st : τ) : τ × Int :=
  let res := io.write st info_oid [] 0 0
  if res.2 < 0 then (res.1, res.2) else (res.1, 0)

/-- Source function `rbd_assign_bid`: the store, the return value and `*id`. -/
def rbd_assign_bid {τ : Type} (io : IoCtx τ) (info_oid : String) (st : τ) : τ × Int × Nat :=
  let t := touch_rbd_info io info_oid st
  if t.2 < 0 then (t.1, t.2, 0)
  else
    let e := io.exec_assign_bid t.1 info_oid
    if e.2.1 < 0 then (e.1, e.2.1, 0) else (e.1, 0, e.2.2)

/-- Source function `create`: the store after the call and the return value
(the value left in `*order` is not returned). -/
def create {τ : Type} (nameSize defaultOrder : Nat) (L : HeaderLayout) (io : IoCtx τ)
    (imgname : String) (size : Nat) (order : Int) (st : τ) : τ × Int :=
  let md_oid := imgname ++ RBD_SUFFIX
  -- make sure it doesn't already exist
  let r := io.stat st md_oid
  if r = 0 then (st, - EEXIST)
  else
    let ab := rbd_assign_bid io RBD_INFO st
    if ab.2.1 < 0 then (ab.1, ab.2.1)
    else
      let header := (init_rbd_header nameSize defaultOrder size order ab.2.2).1
      let bl := L.encode header
      let t := io.tmap_update ab.1 RBD_DIRECTORY (.set imgname)
      if t.2 < 0 then (t.1, t.2)
      else
        let w := io.write t.1 md_oid bl bl.length 0
        if w.2 < 0 then (w.1, w.2) else (w.1, 0)

/-- Source function `remove`. `none` when `read_header_bl` has not returned
after `fuel` iterations. -/
def remove {τ : Type} (nameSize : Nat) (L : HeaderLayout) (io : IoCtx τ) (imgname : String)
    (fuel : Nat) (st : τ) : Option (τ × Int) :=
  let md_oid := imgname ++ RBD_SUFFIX
  match read_header_from L io st md_oid fuel (mkHeader "" 0 0) with
  | none => none
  | some rh =>
    let st1 :=
      if 0 ≤ rh.2 then
        let st2 := trim_image nameSize rh.1 io.remove 0 st
        (io.remove st2 md_oid).1
      else st
    let t := io.tmap_update st1 RBD_DIRECTORY (.rm imgname)
    if t.2 < 0 then some (t.1, t.2) else some (t.1, 0)

/-- The inner `for` loop of `copy` over the extent map of one block: the store
and `some r` when the function returns `r` from inside the loop, `none` when the
loop runs to its end. -/
def copy_extents {τ : Type} (write : StoreWrite τ) (dest_oid : String) (bl : List Byte) :
    List (Nat × Nat) → τ → τ × Option Int
  | [], st => (st, none)
  | (extent_ofs, extent_len) :: rest, st =>
    if add64 extent_ofs extent_len > bl.length then (st, some (- EIO))
    else
      -- bl.copy(extent_ofs, extent_len, wrbl)
      let wrbl := (bl.drop extent_ofs).take extent_len
      let res := write st dest_oid wrbl extent_len extent_ofs
      if res.2 < 0 then (res.1, some res.2)
      else copy_extents write dest_oid bl rest res.1

/-- The outer `for` loop of `copy`: `n` iterations remain, `i` is the block
index. -/
def copy_loop {τ : Type} (nameSize : Nat) (src dest : IoCtx τ)
    (header dest_header : rbd_obj_header_ondisk) (block_size : Nat) :
    Nat → Nat → τ → τ × Int
  | 0, _i, st => (st, 0)
  | n + 1, i, st =>
    let oid := get_block_oid nameSize header i
    let dest_oid := get_block_oid nameSize dest_header i
    let res := src.sparse_read st oid block_size 0
    let r : Int := if res.r < 0 ∧ res.r = - ENOENT then 0 else res.r
    if r < 0 then (st, r)
    else
      let out := copy_extents dest.write dest_oid res.bl res.m st
      match out.2 with
      | some r1 => (out.1, r1)
      | none => copy_loop nameSize src dest header dest_header block_size n (i + 1) out.1

/-- Source function `copy`, with the source and the destination session over
one store state. `none` when a `read_header_bl` has not returned after `fuel`
iterations. -/
def copy {τ : Type} (nameSize defaultOrder : Nat) (L : HeaderLayout) (src dest : IoCtx τ)
    (srcname destname : String) (fuel : Nat) (st : τ) : Option (τ × Int) :=
  let md_oid := srcname ++ RBD_SUFFIX
  let dest_md_oid := destname ++ RBD_SUFFIX
  match read_header_from L src st md_oid fuel (mkHeader "" 0 0) with
  | none => none
  | some rh =>
    if rh.2 < 0 then some (st, rh.2)
    else
      let header := rh.1
      let numseg := get_max_block header
      let block_size := get_block_size header
      let order : Int := header.order
      let cr := create nameSize defaultOrder L dest destname header.image_size order st
      if cr.2 < 0 then some cr
      else
        match read_header_from L dest cr.1 dest_md_oid fuel (mkHeader "" 0 0) with
        | none => none
        | some rh2 =>
          if rh2.2 < 0 then some (cr.1, rh2.2)
          else some (copy_loop nameSize src dest header rh2.1 block_size numseg 0 cr.1)

/-- Modelled from the spec: the content of a pool: its objects, the names in the
image directory and the next value of the block-name counter. -/
structure Cluster where
  objs : ObjectStore
  dir : List String
  next_bid : Nat
deriving DecidableEq

/-- Modelled from the spec: a pool session in which every operation succeeds
when its object is there: `stat` and `read` report NotFound for a missing
object, `read` returns the bytes of the object inside `[off, off + len)`,
`assign_bid` hands out the counter and advances it, and `tmap_update` adds or
removes a name of the directory (NotFound when a name to remove is not in
it). -/
def cluster_io : IoCtx Cluster where
  stat := fun st oid =>
    match st.objs.lookup oid with
    | some _ => 0
    | none => - ENOENT
  read := fun st oid len off =>
    match st.objs.lookup oid with
    | some obj => ((((obj.drop off).take len).length : Nat), (obj.drop off).take len)
    | none => (- ENOENT, [])
  write := fun st oid bl len off =>
    ({ st with objs := (store_write st.objs oid bl len off).1 },
      (store_write st.objs oid bl len off).2)
  remove := fun st oid =>
    ({ st with objs := (store_remove st.objs oid).1 }, (store_remove st.objs oid).2)
  exec_assign_bid := fun st _ => ({ st with next_bid := st.next_bid + 1 }, 0, st.next_bid)
  tmap_update := fun st _ cmd =>
    match cmd with
    | .set n => ({ st with dir := n :: st.dir.filter (fun x => x != n) }, 0)
    | .rm n =>
      if n ∈ st.dir then ({ st with dir := st.dir.filter (fun x => x != n) }, 0)
      else (st, - ENOENT)
  sparse_read := fun st => store_sparse_read st.objs

/-! ## Snapshot creation and removal, image information -/

/-- Source function `add_snap` (the free function). `snap_create_r` is what
`selfmanaged_snap_create` returns and `exec_r` what the `snap_add` class call
returns. -/
def add_snap (snap_create_r exec_r : Int) (ictx : ImageCtx) : ImageCtx × Int :=
  if snap_create_r < 0 then (ictx, snap_create_r)
  else if exec_r < 0 then (ictx, exec_r)
  else (notify_change ictx, 0)

/-- Source function `rm_snap`. `exec_r` is what the `snap_remove` class call
returns. -/
def rm_snap (exec_r : Int) : Int :=
  if exec_r < 0 then exec_r else 0

/-- Source function `snap_create`. `md` is what the metadata session answers to
the refresh of `ictx_check`, if there is one. -/
def snap_create (is_valid : Nat → List Nat → Bool) (md : MdReply)
    (snap_create_r exec_r : Int) (ictx : ImageCtx) : ImageCtx × Int :=
  let chk := ictx_check is_valid md ictx
  if chk.2 < 0 then chk
  else
    let a := add_snap snap_create_r exec_r chk.1
    if a.2 < 0 then a
    else (notify_change a.1, 0)

/-- Source function `snap_remove`. `exec_r` is what the `snap_remove` class call
returns and `snap_remove_r` what `selfmanaged_snap_remove` returns. -/
def snap_remove (is_valid : Nat → List Nat → Bool) (md : MdReply)
    (exec_r snap_remove_r : Int) (ictx : ImageCtx) (snap_name : String) : ImageCtx × Int :=
  let chk := ictx_check is_valid md ictx
  if chk.2 < 0 then chk
  else
    let snapid := chk.1.get_snapid snap_name
    if snapid = CEPH_NOSNAP then (chk.1, - ENOENT)
    else
      let r := rm_snap exec_r
      if r < 0 then (chk.1, r)
      else if snap_remove_r < 0 then (chk.1, snap_remove_r)
      else (notify_change chk.1, 0)

/-- The fields of `image_info_t` that `image_info` fills in. -/
structure image_info_t where
  size : Nat
  obj_size : Nat
  num_objs : Nat
  order : Int
  block_name_prefix : String
  parent_pool : Int
  parent_name : String
deriving DecidableEq

/-- Source function `image_info`. -/
def image_info (header : rbd_obj_header_ondisk) : image_info_t :=
  let obj_order := header.order
  { size := header.image_size,
    obj_size := toU64 (shl_int obj_order),
    num_objs := header.image_size >>> obj_order,
    order := (obj_order : Int),
    block_name_prefix := header.block_name,
    parent_pool := -1,
    parent_name := "" }

/-! ## Derived notions for the per-block requests and the assertions -/

/-- A per-block request as `write` and `aio_write` hand it to the data session:
object name, data, length and offset inside the object. -/
structure BlockReq where
  oid : String
  bl : List Byte
  len : Nat
  off : Nat
deriving DecidableEq

/-- The request of a store write. -/
def WriteCall.req (c : WriteCall) : BlockReq := ⟨c.oid, c.bl, c.len, c.off⟩

/-- The request of a sub-op. -/
def SubOp.req (s : SubOp) : BlockReq := ⟨s.oid, s.bl, s.len, s.off⟩

/-- The lengths of the first `k` requests added up. -/
def lens_before (reqs : List BlockReq) (k : Nat) : Nat :=
  ((reqs.take k).map (fun q => q.len)).sum

/-- The requests are block-relative slices of the range that starts at image
offset `off`: request `k` is for the block `k` places after the block of `off`,
starts in that block where the earlier requests ended, holds at least one byte,
stays inside the block, and carries the bytes of `buf` that follow those of the
earlier requests. -/
def BlockSlices (nameSize : Nat) (header : rbd_obj_header_ondisk) (off : Nat)
    (buf : List Byte) (reqs : List BlockReq) : Prop :=
  ∀ (k : Nat) (hk : k < reqs.length),
    reqs[k].oid = get_block_oid nameSize header (get_block_num header off + k) ∧
    (get_block_num header off + k) * 2 ^ header.order + reqs[k].off
      = off + lens_before reqs k ∧
    1 ≤ reqs[k].len ∧
    reqs[k].off + reqs[k].len ≤ 2 ^ header.order ∧
    reqs[k].bl = (buf.drop (lens_before reqs k)).take reqs[k].len

/-- The requests the loops of `write` and `aio_write` build when no iteration
stops them: `n` iterations remain, `i` is the block index, `total_write` and
`left` are the loops' variables. -/
def loop_requests (nameSize : Nat) (header : rbd_obj_header_ondisk) (off block_size : Nat)
    (buf : List Byte) : Nat → Nat → Nat → Nat → List BlockReq
  | 0, _i, _total_write, _left => []
  | n + 1, i, total_write, left =>
    let oid := get_block_oid nameSize header i
    let block_ofs := get_block_ofs header (add64 off total_write)
    let write_len := min (sub64 block_size block_ofs) left
    let bl := (buf.drop total_write).take write_len
    ⟨oid, bl, write_len, block_ofs⟩ ::
      loop_requests nameSize header off block_size buf n (i + 1)
        (add64 total_write write_len) (sub64 left write_len)

/-- The assertions a step runs into hold in the state `c`, and the object has
not been deleted: `ref > 0` for `get` and `put_unlock`, `pending_count != 0` for
`finish_adding_completions` and `complete_block`, `!released` for `release`. -/
def assertions_hold (c : AioCompletion) : AioEvent → Bool
  | .loop_get => decide (c.deleted = false ∧ 0 < c.ref)
  | .add_pending => decide (c.deleted = false)
  | .add_get => decide (c.deleted = false ∧ 0 < c.ref)
  | .finish => decide (c.deleted = false ∧ c.pending_count ≠ 0)
  | .loop_put => decide (c.deleted = false ∧ 0 < c.ref)
  | .report _ => decide (c.deleted = false ∧ c.pending_count ≠ 0 ∧ 0 < c.ref)
  | .release => decide (c.deleted = false ∧ c.released = false ∧ 0 < c.ref)

/-- The steps follow the submission protocol for at most `N` sub-ops, whether
or not they are complete. -/
def follows_protocol (N : Nat) (evs : List AioEvent) : Bool :=
  (proto_run N Proto.start evs).isSome

/-! ## Image information and snapshot listing on a context -/

/-- The fields of `snap_info_t` that `snap_list` fills in. -/
structure snap_info_t where
  id : Nat
  size : Nat
  name : String
deriving DecidableEq

/-- Insertion of an entry into a list kept in the key order of the `std::map`
`snaps_by_name`. -/
def insert_by_name (e : String × SnapInfo) : List (String × SnapInfo) → List (String × SnapInfo)
  | [] => [e]
  | x :: xs => if e.1 < x.1 then e :: x :: xs else x :: insert_by_name e xs

/-- The entries of `snaps_by_name` in the order in which the iteration over the
`std::map` visits them. -/
def in_key_order (m : List (String × SnapInfo)) : List (String × SnapInfo) :=
  m.foldr insert_by_name []

/-- Source function `info`: the context after the call, the `image_info_t`
filled in (`none` when the function returned before filling it) and the return
value. `md` is what the metadata session answers to the refresh of
`ictx_check`, if there is one. -/
def info (is_valid : Nat → List Nat → Bool) (md : MdReply) (ictx : ImageCtx) :
    ImageCtx × Option image_info_t × Int :=
  let chk := ictx_check is_valid md ictx
  if chk.2 < 0 then (chk.1, none, chk.2)
  else (chk.1, some (image_info chk.1.header), 0)

/-- Source function `snap_list`: the context after the call, the entries pushed
to `snaps` and the return value. -/
def snap_list (is_valid : Nat → List Nat → Bool) (md : MdReply) (ictx : ImageCtx) :
    ImageCtx × List snap_info_t × Int :=
  let chk := ictx_check is_valid md ictx
  if chk.2 < 0 then (chk.1, [], chk.2)
  else
    (chk.1,
      (in_key_order chk.1.snaps_by_name).map (fun it => ⟨it.2.id, it.2.size, it.1⟩), 0)

/-! ## Sample values for the concrete statements -/

/-- An image context for an image of 10 bytes in blocks of 4 bytes, refreshed,
with one snapshot `A` (id 1) in its cache and head selected. -/
def sample_ctx : ImageCtx :=
  { ImageCtx.create "img" (mkHeader "rb.0.0" 10 2) with
    needs_refresh := false, snapc_seq := 1, snapc_snaps := [1], snaps := [1],
    snaps_by_name := [("A", ⟨1, 10⟩)], data_write_seq := 1, data_write_snaps := [1] }

/-- The context `sample_ctx` with snapshot `A` selected. -/
def sample_ctx_pinned : ImageCtx :=
  { sample_ctx with snapid := 1, snapname := "A", data_read_snap := 1 }

/-- A metadata reply with the same header, sequence number 1 and no snapshot
left. -/
def sample_md_no_snaps : MdReply :=
  { header_r := 0, header_short := false, header := mkHeader "rb.0.0" 10 2, list_r := 0,
    seq := 1, snaps := [] }

/-- A metadata reply whose header read succeeds with a header of 16 bytes image
size and whose `snap_list` call fails with -5. -/
def sample_md_list_fails : MdReply :=
  { header_r := 0, header_short := false, header := mkHeader "rb.0.0" 16 2, list_r := -5,
    seq := 0, snaps := [] }

/-- A small header layout for the concrete statements: 24 bytes of block name
(NUL padded), then one byte each for the order, the image size, the snapshot
sequence number, the snapshot count and the length of the snapshot names. -/
def sample_layout : HeaderLayout where
  sizeof := 29
  encode := fun h =>
    ((h.block_name.data.map (fun c => c.toNat.toUInt8)).take 24
      ++ List.replicate (24 - h.block_name.data.length) 0)
    ++ [h.order.toUInt8, h.image_size.toUInt8, h.snap_seq.toUInt8, h.snap_count.toUInt8,
        h.snap_names_len.toUInt8]
  decode := fun bytes =>
    { block_name :=
        String.mk (((bytes.take 24).takeWhile (fun b => b != 0)).map
          (fun b => Char.ofNat b.toNat)),
      order := (bytes.getD 24 0).toNat,
      image_size := (bytes.getD 25 0).toNat,
      crypt_type := 0,
      comp_type := 0,
      snap_seq := (bytes.getD 26 0).toNat,
      snap_count := (bytes.getD 27 0).toNat,
      reserved := 0,
      snap_names_len := (bytes.getD 28 0).toNat }

/-- A pool that holds nothing; the block-name counter is at 1. -/
def sample_cluster : Cluster := { objs := [], dir := [], next_bid := 1 }

/-- A pool with the image `src` in it: 4 bytes in one block of 4 bytes, block
name `rb.0.0`. -/
def sample_cluster_src : Cluster :=
  { objs := [("src.rbd", sample_layout.encode (mkHeader "rb.0.0" 4 2))], dir := ["src"],
    next_bid := 1 }

/-- The session `cluster_io` with a data pool whose block `rb.0.0.000000000000`
holds the two bytes 7, 8 at offsets 2 and 3 after a hole of two bytes: its
sparse read returns the extent map `{2: 2}` and the data blob `[7, 8]`. -/
def sample_sparse_io : IoCtx Cluster :=
  { cluster_io with
    sparse_read := fun _ oid _ _ =>
      if oid = "rb.0.0.000000000000" then ⟨2, [(2, 2)], [7, 8]⟩ else ⟨- ENOENT, [], []⟩ }

/-- A metadata reply whose reads succeed and whose snapshot list holds two
snapshots `B` and `C` with the same id 1: the ids are not strictly increasing,
and the name `A` is not in the list. -/
def sample_md_invalid : MdReply :=
  { header_r := 0, header_short := false, header := mkHeader "rb.0.0" 16 2, list_r := 0,
    seq := 1, snaps := [(1, 16, "B"), (1, 16, "C")] }

/-- An image context for an image of `2 ^ 64 - 1` bytes in blocks of `2 ^ 22`
bytes, refreshed, with one snapshot `A` (id 1) and head selected. -/
def sample_ctx_huge : ImageCtx :=
  { sample_ctx with header := mkHeader "rb.0.0" 18446744073709551615 22 }

/-- A store whose rollback always succeeds. -/
def rollback_ok : StoreRollback Unit := fun st _ _ => (st, 0)

/-- A store that accepts every write in full and keeps nothing. -/
def write_ok : StoreWrite Unit := fun st _ _ len _ => (st, (len : Int))

/-- An image context for an image of `2 ^ 31` bytes with order 31, refreshed,
with one snapshot `A` (id 1) and head selected. -/
def sample_ctx_order31 : ImageCtx :=
  { sample_ctx with header := mkHeader "rb.0.0" 2147483648 31 }

/-! ## Facts about machine integers -/

theorem sub64_of_le {a b : Nat} (h : b ≤ a) (ha : a < TWO64) : sub64 a b = a - b := by
  unfold sub64 toU64
  simp only [TWO64] at ha
  omega

theorem add64_of_lt {a b : Nat} (h : a + b < TWO64) : add64 a b = a + b := by
  unfold add64
  exact Nat.mod_eq_of_lt h

theorem toInt64_of_lt {n : Nat} (h : n < 9223372036854775808) : toInt64 (n : Int) = (n : Int) := by
  unfold toInt64
  omega

theorem toU64_natCast {n : Nat} (h : n < TWO64) : toU64 (n : Int) = n := by
  unfold toU64
  simp only [TWO64] at h
  omega

/-! ## Facts about the address translator for orders below 31 -/

theorem shl_int_of_le {k : Nat} (hk : k ≤ 30) : shl_int k = ((2 ^ k : Nat) : Int) := by
  have h1 : (1 <<< k : Nat) = 2 ^ k := by simp [Nat.shiftLeft_eq]
  have h2 : 2 ^ k ≤ 2 ^ 30 := Nat.pow_le_pow_right (by decide) hk
  unfold shl_int toInt32
  rw [h1]
  generalize 2 ^ k = n at h2 ⊢
  omega

theorem get_block_size_of_le (header : rbd_obj_header_ondisk) (hk : header.order ≤ 30) :
    get_block_size header = 2 ^ header.order := by
  have h2 : 2 ^ header.order ≤ 2 ^ 30 := Nat.pow_le_pow_right (by decide) hk
  unfold get_block_size toU64
  rw [shl_int_of_le hk]
  generalize 2 ^ header.order = n at h2 ⊢
  omega

theorem get_block_num_eq_div (header : rbd_obj_header_ondisk) (ofs : Nat) :
    get_block_num header ofs = ofs / 2 ^ header.order := by
  simp [get_block_num, Nat.shiftRight_eq_div_pow]

theorem get_block_ofs_of_le (header : rbd_obj_header_ondisk) (ofs : Nat)
    (hk : header.order ≤ 30) : get_block_ofs header ofs = ofs % 2 ^ header.order := by
  have h2 : 2 ^ header.order ≤ 2 ^ 30 := Nat.pow_le_pow_right (by decide) hk
  have h3 : 0 < 2 ^ header.order := Nat.two_pow_pos _
  have h4 : sub64 (toU64 (shl_int header.order)) 1 = 2 ^ header.order - 1 := by
    unfold sub64 toU64
    rw [shl_int_of_le hk]
    generalize 2 ^ header.order = n at h2 h3 ⊢
    omega
  unfold get_block_ofs
  simp only [h4]
  exact Nat.and_pow_two_sub_one_eq_mod ofs header.order

theorem block_split_of_le (header : rbd_obj_header_ondisk) (x : Nat)
    (hk : header.order ≤ 30) :
    get_block_num header x * 2 ^ header.order + get_block_ofs header x = x := by
  rw [get_block_num_eq_div, get_block_ofs_of_le header x hk]
  exact Nat.div_add_mod' x (2 ^ header.order)

theorem get_max_block_of_le (header : rbd_obj_header_ondisk) (hk : header.order ≤ 30)
    (hs : header.image_size + 2 ^ header.order - 1 < TWO64) :
    get_max_block header = (header.image_size + 2 ^ header.order - 1) / 2 ^ header.order := by
  have h2 : 2 ^ header.order ≤ 2 ^ 30 := Nat.pow_le_pow_right (by decide) hk
  have h3 : 0 < 2 ^ header.order := Nat.two_pow_pos _
  have hbs : toU64 (shl_int header.order) = 2 ^ header.order := get_block_size_of_le header hk
  have h4 : sub64 (add64 header.image_size (2 ^ header.order)) 1
      = header.image_size + 2 ^ header.order - 1 := by
    unfold sub64 add64 toU64
    simp only [TWO64] at hs ⊢
    generalize 2 ^ header.order = b at hs h2 h3 ⊢
    omega
  unfold get_max_block
  simp only [hbs, h4, Nat.shiftRight_eq_div_pow]

theorem check_io_of_lt (header : rbd_obj_header_ondisk) (off len : Nat)
    (h : off + len < TWO64) :
    check_io header off len = if off + len > header.image_size then - EINVAL else 0 := by
  unfold check_io
  rw [add64_of_lt h]

/-! ## Facts about sparse-read reconstruction -/

theorem extentsWithin_le : ∀ (m : List (Nat × Nat)) (lo hi : Nat), ExtentsWithin lo hi m → lo ≤ hi
  | [], _, _, h => h
  | (o, l) :: rest, lo, hi, h => by
    have h1 := extentsWithin_le rest (o + l) hi h.2
    have h2 := h.1
    omega

theorem handle_sparse_read_loop_eq {σ : Type} (data_bl : List Byte) (buf_len : Nat) (cb : Sink σ)
    (hcb : ∀ s o l d, 0 ≤ (cb s o l d).2) (hi : Nat) (hhi : hi < TWO64)
    (hlen : buf_len < TWO64) :
    ∀ (m : List (Nat × Nat)) (pos out blob : Nat) (arg : σ),
      ExtentsWithin pos hi m → out + (hi - pos) = buf_len → blob ≤ out →
      handle_sparse_read_loop data_bl buf_len cb m pos out blob arg
        = (feed cb arg (reconstruction data_bl buf_len m pos out blob),
            toInt64 (buf_len : Int)) := by
  intro m
  induction m with
  | nil =>
    intro pos out blob arg hw hsum _
    have hle : out ≤ buf_len := by omega
    have hs : sub64 buf_len out = buf_len - out := sub64_of_le hle hlen
    rw [handle_sparse_read_loop, reconstruction, hs]
    by_cases h : out < buf_len
    · have hne : buf_len - out ≠ 0 := by omega
      have hr := hcb arg out (buf_len - out) none
      simp [h, hne, feed, not_lt.mpr hr]
    · have he : buf_len - out = 0 := by omega
      simp [h, he, feed]
  | cons e rest ih =>
    obtain ⟨eo, el⟩ := e
    intro pos out blob arg hw hsum hblob
    have hpos : pos ≤ eo := hw.1
    have hend : eo + el ≤ hi := extentsWithin_le rest _ _ hw.2
    simp only [TWO64] at hhi hlen
    have hs : sub64 eo pos = eo - pos := sub64_of_le hpos (by simp only [TWO64]; omega)
    have ha1 : add64 blob el = blob + el := add64_of_lt (by simp only [TWO64]; omega)
    have ha2 : add64 out (eo - pos) = out + (eo - pos) := add64_of_lt (by simp only [TWO64]; omega)
    have ha3 : add64 eo el = eo + el := add64_of_lt (by simp only [TWO64]; omega)
    have ha4 : add64 (out + (eo - pos)) el = out + (eo - pos) + el :=
      add64_of_lt (by simp only [TWO64]; omega)
    have hnio : ¬ (blob + el > buf_len) := by omega
    have hrec := fun a => ih (eo + el) (out + (eo - pos) + el) (blob + el) a hw.2
      (by omega) (by omega)
    rw [handle_sparse_read_loop, reconstruction]
    simp only [hs, ha1, ha2, ha3, ha4, hnio, if_false]
    by_cases hgap : pos < eo
    · have hg : eo - pos > 0 := by omega
      have hr1 := hcb arg out (eo - pos) none
      have hr2 := hcb (cb arg out (eo - pos) none).1 (out + (eo - pos)) el
        (some ((data_bl.drop blob).take el))
      simp only [hg, hgap, if_true, not_lt.mpr hr1, not_lt.mpr hr2, if_false]
      rw [hrec]
      simp [feed]
    · have hg : ¬ (eo - pos > 0) := by omega
      have hr2 := hcb arg (out + (eo - pos)) el (some ((data_bl.drop blob).take el))
      simp only [hg, hgap, if_false, not_lt.mpr hr2]
      rw [hrec]
      simp [feed]

theorem feed_record {σ : Type} (cb : Sink σ) :
    ∀ (calls : List Emit) (arg : σ) (log : List Emit),
      feed (record cb) (arg, log) calls = (feed cb arg calls, log ++ calls)
  | [], arg, log => by simp [feed]
  | e :: rest, arg, log => by
    have ih := feed_record cb rest (cb arg e.ofs e.len e.data).1 (log ++ [e])
    simp only [feed, List.foldl_cons, record] at ih ⊢
    rw [ih]
    simp

theorem record_nonneg {σ : Type} (cb : Sink σ) (hcb : ∀ s o l d, 0 ≤ (cb s o l d).2) :
    ∀ s o l d, 0 ≤ (record cb s o l d).2 := by
  intro s o l d
  exact hcb s.1 o l d

theorem reconstruction_tiles (data_bl : List Byte) (buf_len hi : Nat) :
    ∀ (m : List (Nat × Nat)) (pos out blob : Nat),
      ExtentsWithin pos hi m → out + (hi - pos) = buf_len →
      Tiles out buf_len ((reconstruction data_bl buf_len m pos out blob).map Emit.range)
  | [], pos, out, blob, hw, hsum => by
    have hw1 : pos ≤ hi := hw
    rw [reconstruction]
    by_cases h : out < buf_len
    · rw [if_pos h]
      refine ⟨rfl, ?_⟩
      show out + (buf_len - out) = buf_len
      omega
    · rw [if_neg h]
      show out = buf_len
      omega
  | (eo, el) :: rest, pos, out, blob, hw, hsum => by
    have hpos : pos ≤ eo := hw.1
    have hend : eo + el ≤ hi := extentsWithin_le rest _ _ hw.2
    have ih := reconstruction_tiles data_bl buf_len hi rest (eo + el)
      (out + (eo - pos) + el) (blob + el) hw.2 (by omega)
    rw [reconstruction]
    by_cases hgap : pos < eo
    · rw [if_pos hgap]
      exact ⟨rfl, rfl, ih⟩
    · have h0 : eo - pos = 0 := by omega
      rw [if_neg hgap]
      rw [h0] at ih ⊢
      exact ⟨rfl, ih⟩

theorem reconstruction_pos (data_bl : List Byte) (buf_len : Nat) :
    ∀ (m : List (Nat × Nat)) (pos out blob : Nat), (∀ e ∈ m, 0 < e.2) →
      ∀ r ∈ (reconstruction data_bl buf_len m pos out blob).map Emit.range, 0 < r.2
  | [], pos, out, blob, _ => by
    intro r hr
    rw [reconstruction] at hr
    by_cases h : out < buf_len
    · simp only [h, if_true, List.map, List.mem_singleton, Emit.range] at hr
      subst hr
      simp only
      omega
    · simp [h] at hr
  | (eo, el) :: rest, pos, out, blob, hm => by
    intro r hr
    have ih := reconstruction_pos data_bl buf_len rest (eo + el)
      (out + (eo - pos) + el) (blob + el) (fun e he => hm e (List.mem_cons_of_mem _ he))
    have hel : 0 < el := hm (eo, el) (List.mem_cons_self _ _)
    rw [reconstruction] at hr
    by_cases hgap : pos < eo
    · simp only [hgap, if_true, List.map, List.cons_append, List.nil_append, List.mem_cons,
        Emit.range] at hr
      rcases hr with hr | hr | hr
      · subst hr; simp only; omega
      · subst hr; exact hel
      · exact ih r hr
    · simp only [hgap, if_false, List.map, List.nil_append, List.mem_cons, Emit.range] at hr
      rcases hr with hr | hr
      · subst hr; exact hel
      · exact ih r hr

theorem tiles_bounds : ∀ (rs : List (Nat × Nat)) (a b : Nat), Tiles a b rs →
    a ≤ b ∧ ∀ r ∈ rs, a ≤ r.1 ∧ r.1 + r.2 ≤ b
  | [], a, b, h => by
    simp only [Tiles] at h
    exact ⟨by omega, by simp⟩
  | (o, l) :: rest, a, b, h => by
    obtain ⟨h1, h2⟩ := h
    obtain ⟨ih1, ih2⟩ := tiles_bounds rest (a + l) b h2
    refine ⟨by omega, ?_⟩
    intro r hr
    rcases List.mem_cons.mp hr with hr | hr
    · subst hr; simp only; omega
    · have := ih2 r hr
      omega

theorem tiles_pairwise : ∀ (rs : List (Nat × Nat)) (a b : Nat), Tiles a b rs →
    rs.Pairwise (fun x y => x.1 + x.2 ≤ y.1)
  | [], _, _, _ => List.Pairwise.nil
  | (o, l) :: rest, a, b, h => by
    obtain ⟨h1, h2⟩ := h
    refine List.Pairwise.cons ?_ (tiles_pairwise rest (a + l) b h2)
    intro r hr
    have := (tiles_bounds rest (a + l) b h2).2 r hr
    simp only
    omega

theorem tiles_strict : ∀ (rs : List (Nat × Nat)) (a b : Nat), Tiles a b rs →
    (∀ r ∈ rs, 0 < r.2) → rs.Pairwise (fun x y => x.1 < y.1)
  | [], _, _, _, _ => List.Pairwise.nil
  | (o, l) :: rest, a, b, h, hp => by
    obtain ⟨h1, h2⟩ := h
    refine List.Pairwise.cons ?_
      (tiles_strict rest (a + l) b h2 (fun r hr => hp r (List.mem_cons_of_mem _ hr)))
    intro r hr
    have := (tiles_bounds rest (a + l) b h2).2 r hr
    have hl : 0 < l := hp (o, l) (List.mem_cons_self _ _)
    simp only
    omega

theorem tiles_count : ∀ (rs : List (Nat × Nat)) (a b : Nat), Tiles a b rs → ∀ p : Nat,
    rs.countP (inRange p) = if a ≤ p ∧ p < b then 1 else 0
  | [], a, b, h, p => by
    simp only [Tiles] at h
    have : ¬ (a ≤ p ∧ p < b) := by omega
    simp [this]
  | (o, l) :: rest, a, b, h, p => by
    obtain ⟨h1, h2⟩ := h
    have ih := tiles_count rest (a + l) b h2 p
    have hb := (tiles_bounds rest (a + l) b h2).1
    rw [List.countP_cons, ih]
    subst h1
    simp only [inRange]
    by_cases c1 : o ≤ p ∧ p < o + l
    · have c2 : ¬ (o + l ≤ p ∧ p < b) := by omega
      have c3 : o ≤ p ∧ p < b := by omega
      simp [c1, c2, c3]
    · by_cases c2 : o + l ≤ p ∧ p < b
      · have c3 : o ≤ p ∧ p < b := by omega
        simp [c1, c2, c3]
      · have c3 : ¬ (o ≤ p ∧ p < b) := by omega
        simp [c1, c2, c3]

/-! ## Facts about the write loop -/

theorem writeStops_nil (res : Int) : WriteStops res [] := by
  intro k hk
  simp at hk

theorem writeStops_single_neg (c : WriteCall) (h : c.ret < 0) : WriteStops c.ret [c] := by
  intro k hk
  have hk0 : k = 0 := by simpa using hk
  subst hk0
  refine ⟨fun _ => ⟨rfl, rfl⟩, fun h0 _ => ?_⟩
  simp only [List.getElem_cons_zero] at h0
  omega

theorem writeStops_single_short (c : WriteCall) (h : ¬ c.ret < 0) :
    WriteStops (- EIO) [c] := by
  intro k hk
  have hk0 : k = 0 := by simpa using hk
  subst hk0
  refine ⟨fun h0 => ?_, fun _ _ => ⟨rfl, rfl⟩⟩
  simp only [List.getElem_cons_zero] at h0
  omega

theorem writeStops_cons (res : Int) (c : WriteCall) (rest : List WriteCall)
    (h1 : ¬ c.ret < 0) (h2 : toU64 c.ret = c.len) (h : WriteStops res rest) :
    WriteStops res (c :: rest) := by
  intro k hk
  cases k with
  | zero =>
    simp only [List.getElem_cons_zero]
    exact ⟨fun h0 => absurd h0 h1, fun _ h0 => absurd h2 h0⟩
  | succ j =>
    have hj : j < rest.length := by simpa using hk
    have := h j hj
    simp only [List.getElem_cons_succ, List.length_cons]
    refine ⟨fun h0 => ?_, fun h0 h3 => ?_⟩
    · have := this.1 h0
      exact ⟨this.1, by omega⟩
    · have := this.2 h0 h3
      exact ⟨this.1, by omega⟩

theorem next_block_start (p bs : Nat) (hbs : 0 < bs) : (p + (bs - p % bs)) / bs = p / bs + 1 := by
  have h1 : p % bs < bs := Nat.mod_lt p hbs
  have h2 : bs * (p / bs) + p % bs = p := Nat.div_add_mod p bs
  have h3 : p + (bs - p % bs) = bs * (p / bs + 1) := by
    rw [Nat.mul_add, Nat.mul_one]
    omega
  rw [h3, Nat.mul_div_cancel_left _ hbs]

theorem write_loop_spec {τ : Type} (nameSize : Nat) (header : rbd_obj_header_ondisk)
    (w : StoreWrite τ) (off : Nat) (buf : List Byte) :
    ∀ (n i total left : Nat) (st : τ) (log : List WriteCall),
      ∃ new : List WriteCall,
        (write_loop nameSize header (record_writes w) off (get_block_size header) buf
          n i total left (st, log)).1.2 = log ++ new ∧
        WriteStops (write_loop nameSize header (record_writes w) off (get_block_size header) buf
          n i total left (st, log)).2 new ∧
        (header.order ≤ 30 → off + total + left < TWO64 →
          total + left < 9223372036854775808 →
          (left = 0 ∨ i = (off + total) / 2 ^ header.order) →
          (0 < left → (off + total + left - 1) / 2 ^ header.order < i + n) →
          (∀ c ∈ new, c.ret = (c.len : Int)) →
          (write_loop nameSize header (record_writes w) off (get_block_size header) buf
            n i total left (st, log)).2 = ((total + left : Nat) : Int) ∧
          (new.map (fun c => c.len)).sum = left) := by
  intro n
  induction n with
  | zero =>
    intro i total left st log
    refine ⟨[], by simp [write_loop], writeStops_nil _, ?_⟩
    intro hord hsum h63 hpos hiter _
    have hbs : 0 < 2 ^ header.order := Nat.two_pow_pos _
    have hleft : left = 0 := by
      by_contra hne
      have hl : 0 < left := Nat.pos_of_ne_zero hne
      have h1 := hiter hl
      have h2 : i = (off + total) / 2 ^ header.order := by
        rcases hpos with h | h
        · omega
        · exact h
      have h3 : (off + total) / 2 ^ header.order ≤ (off + total + left - 1) / 2 ^ header.order :=
        Nat.div_le_div_right (by omega)
      omega
    subst hleft
    simp only [write_loop, Nat.add_zero, List.map_nil, List.sum_nil, and_true]
    exact toInt64_of_lt (by omega)
  | succ n ih =>
    intro i total left st log
    rw [write_loop]
    generalize hwl : min (sub64 (get_block_size header)
      (get_block_ofs header (add64 off total))) left = write_len
    generalize hc : (⟨get_block_oid nameSize header i, (buf.drop total).take write_len,
      write_len, get_block_ofs header (add64 off total),
      (w st (get_block_oid nameSize header i) ((buf.drop total).take write_len) write_len
        (get_block_ofs header (add64 off total))).2⟩ : WriteCall) = c
    have hret : c.ret = (w st (get_block_oid nameSize header i)
        ((buf.drop total).take write_len) write_len
        (get_block_ofs header (add64 off total))).2 := by rw [← hc]
    have hclen : c.len = write_len := by rw [← hc]
    have hrec : record_writes w (st, log) (get_block_oid nameSize header i)
        ((buf.drop total).take write_len) write_len (get_block_ofs header (add64 off total))
        = (((w st (get_block_oid nameSize header i) ((buf.drop total).take write_len) write_len
            (get_block_ofs header (add64 off total))).1, log ++ [c]), c.ret) := by
      rw [← hc]
      rfl
    simp only [hrec]
    by_cases hneg : c.ret < 0
    · rw [if_pos hneg]
      refine ⟨[c], rfl, writeStops_single_neg c hneg, ?_⟩
      intro _ _ _ _ _ hall
      have := hall c (List.mem_singleton.mpr rfl)
      omega
    · by_cases hshort : toU64 c.ret ≠ write_len
      · rw [if_neg hneg, if_pos hshort]
        refine ⟨[c], rfl, writeStops_single_short c hneg, ?_⟩
        intro _ hsum _ _ _ hall
        have h1 := hall c (List.mem_singleton.mpr rfl)
        have h2 : write_len ≤ left := by rw [← hwl]; exact Nat.min_le_right _ _
        have h3 : toU64 c.ret = write_len := by
          rw [h1, hclen]
          exact toU64_natCast (by simp only [TWO64] at hsum ⊢; omega)
        exact absurd h3 hshort
      · rw [if_neg hneg, if_neg hshort]
        have hshort2 : toU64 c.ret = c.len := by
          rw [hclen]
          exact not_not.mp hshort
        obtain ⟨new, hlog, hstops, hok⟩ := ih (i + 1) (add64 total write_len)
          (sub64 left write_len)
          (w st (get_block_oid nameSize header i) ((buf.drop total).take write_len) write_len
            (get_block_ofs header (add64 off total))).1 (log ++ [c])
        refine ⟨c :: new, ?_, writeStops_cons _ c new hneg hshort2 hstops, ?_⟩
        · rw [hlog]
          simp
        · intro hord hsum h63 hpos hiter hall
          simp only [TWO64] at hsum
          have hbs : 0 < 2 ^ header.order := Nat.two_pow_pos _
          have hbs2 : 2 ^ header.order ≤ 2 ^ 30 := Nat.pow_le_pow_right (by decide) hord
          have hwlen : write_len = min (2 ^ header.order - (off + total) % 2 ^ header.order) left := by
            rw [← hwl, get_block_size_of_le header hord, get_block_ofs_of_le header _ hord,
              add64_of_lt (by simp only [TWO64]; omega)]
            have hm : (off + total) % 2 ^ header.order < 2 ^ header.order := Nat.mod_lt _ hbs
            rw [sub64_of_le (Nat.le_of_lt hm) (by simp only [TWO64]; omega)]
          have hm : (off + total) % 2 ^ header.order < 2 ^ header.order := Nat.mod_lt _ hbs
          have hle : write_len ≤ left := by rw [hwlen]; exact Nat.min_le_right _ _
          have ha : add64 total write_len = total + write_len :=
            add64_of_lt (by simp only [TWO64]; omega)
          have hs : sub64 left write_len = left - write_len :=
            sub64_of_le hle (by simp only [TWO64]; omega)
          rw [ha, hs] at hok ⊢
          have hnext : left - write_len = 0 ∨
              i + 1 = (off + (total + write_len)) / 2 ^ header.order := by
            by_cases hz : left - write_len = 0
            · exact Or.inl hz
            · right
              have hlt : write_len < left := by omega
              have hw2 : write_len = 2 ^ header.order - (off + total) % 2 ^ header.order := by
                rw [hwlen]
                rw [hwlen] at hlt
                omega
              have hi : i = (off + total) / 2 ^ header.order := by
                rcases hpos with h | h
                · omega
                · exact h
              rw [← Nat.add_assoc, hw2, next_block_start _ _ hbs, hi]
          have hiter2 : 0 < left - write_len →
              (off + (total + write_len) + (left - write_len) - 1) / 2 ^ header.order
                < i + 1 + n := by
            intro hl
            have h1 := hiter (by omega)
            have h2 : off + (total + write_len) + (left - write_len) - 1
                = off + total + left - 1 := by omega
            rw [h2]
            omega
          have hres := hok hord (by simp only [TWO64]; omega) (by omega) hnext hiter2
            (fun c1 hc1 => hall c1 (List.mem_cons_of_mem _ hc1))
          refine ⟨?_, ?_⟩
          · rw [hres.1]
            congr 1
            omega
          · simp only [List.map_cons, List.sum_cons, hres.2, hclen]
            omega

/-! ## Facts about hexadecimal formatting -/

theorem hexDigitVal_digitChar : ∀ k : Nat, k < 16 → hexDigitVal (Nat.digitChar k) = k := by
  decide

theorem isLowerHex_digitChar : ∀ k : Nat, k < 16 → isLowerHex (Nat.digitChar k) = true := by
  decide

theorem foldl_hex (ds : List Char) : ∀ a : Nat,
    ds.foldl (fun a c => 16 * a + hexDigitVal c) a = a * 16 ^ ds.length + hexValue ds := by
  induction ds with
  | nil => intro a; simp [hexValue]
  | cons d rest ih =>
    intro a
    simp only [hexValue, List.foldl_cons, List.length_cons]
    rw [ih (16 * a + hexDigitVal d), ih (16 * 0 + hexDigitVal d)]
    ring

theorem hexValue_cons (d : Char) (ds : List Char) :
    hexValue (d :: ds) = hexDigitVal d * 16 ^ ds.length + hexValue ds := by
  have := foldl_hex ds (16 * 0 + hexDigitVal d)
  simp only [hexValue, List.foldl_cons] at this ⊢
  rw [this]
  simp

theorem hexValue_toDigitsCore : ∀ (fuel n : Nat) (ds : List Char), n < fuel →
    hexValue (Nat.toDigitsCore 16 fuel n ds) = n * 16 ^ ds.length + hexValue ds
  | 0, n, ds, h => by omega
  | fuel + 1, n, ds, h => by
    have hd := hexDigitVal_digitChar (n % 16) (Nat.mod_lt n (by decide))
    have hn : 16 * (n / 16) + n % 16 = n := Nat.div_add_mod n 16
    rw [Nat.toDigitsCore]
    by_cases h0 : n / 16 = 0
    · simp only [h0, if_true]
      rw [hexValue_cons, hd]
      have : n % 16 = n := by omega
      rw [this]
    · simp only [h0, if_false]
      rw [hexValue_toDigitsCore fuel (n / 16) _ (by omega), hexValue_cons, hd,
        List.length_cons, Nat.pow_succ]
      nth_rewrite 3 [← hn]
      ring

theorem isLowerHex_toDigitsCore : ∀ (fuel n : Nat) (ds : List Char),
    (∀ c ∈ ds, isLowerHex c = true) → ∀ c ∈ Nat.toDigitsCore 16 fuel n ds, isLowerHex c = true
  | 0, n, ds, h => by
    rw [Nat.toDigitsCore]
    exact h
  | fuel + 1, n, ds, h => by
    have hd := isLowerHex_digitChar (n % 16) (Nat.mod_lt n (by decide))
    have hcons : ∀ c ∈ Nat.digitChar (n % 16) :: ds, isLowerHex c = true := by
      intro c hc
      rcases List.mem_cons.mp hc with hc | hc
      · rw [hc]; exact hd
      · exact h c hc
    rw [Nat.toDigitsCore]
    by_cases h0 : n / 16 = 0
    · simp only [h0, if_true]
      exact hcons
    · simp only [h0, if_false]
      exact isLowerHex_toDigitsCore fuel (n / 16) _ hcons

theorem hexValue_replicate_zero (k : Nat) (ds : List Char) :
    hexValue (List.replicate k '0' ++ ds) = hexValue ds := by
  induction k with
  | zero => simp
  | succ k ih =>
    rw [List.replicate_succ, List.cons_append, hexValue_cons, ih]
    have : hexDigitVal '0' = 0 := by decide
    rw [this]
    simp

theorem fmt_012x_spec (n : Nat) (hn : n < 2 ^ 48) :
    (fmt_012x n).data.length = 12 ∧ (∀ c ∈ (fmt_012x n).data, isLowerHex c = true) ∧
      hexValue (fmt_012x n).data = n := by
  have hlen : (Nat.toDigits 16 n).length ≤ 12 :=
    Nat.toDigitsCore_length 16 (by decide) (n + 1) n 12 (by
      have : (16 : Nat) ^ 12 = 2 ^ 48 := by norm_num
      omega) (by decide)
  unfold fmt_012x
  refine ⟨?_, ?_, ?_⟩
  · simp only [List.length_append, List.length_replicate]
    omega
  · intro c hc
    rcases List.mem_append.mp hc with hc | hc
    · have := (List.mem_replicate.mp hc).2
      rw [this]
      decide
    · exact isLowerHex_toDigitsCore (n + 1) n [] (by simp) c hc
  · rw [hexValue_replicate_zero]
    have := hexValue_toDigitsCore (n + 1) n [] (by omega)
    simpa [Nat.toDigits, hexValue] using this

theorem write_spec {τ : Type} (nameSize : Nat) (header : rbd_obj_header_ondisk)
    (ictx_check_r : Int) (w : StoreWrite τ) (off len : Nat) (buf : List Byte) (st : τ) :
    WriteStops (write_result nameSize header ictx_check_r w off len buf st)
      (write_calls nameSize header ictx_check_r w off len buf st) ∧
    (header.order ≤ 30 → header.image_size < TWO64 → 0 ≤ ictx_check_r → 0 < len →
      len < 9223372036854775808 → off + len ≤ header.image_size →
      (∀ c ∈ write_calls nameSize header ictx_check_r w off len buf st, c.ret = (c.len : Int)) →
      write_result nameSize header ictx_check_r w off len buf st = (len : Int) ∧
      ((write_calls nameSize header ictx_check_r w off len buf st).map (fun c => c.len)).sum
        = len) := by
  unfold write_result write_calls write
  by_cases h0 : len = 0
  · rw [if_pos h0]
    exact ⟨writeStops_nil _, fun _ _ _ h => absurd h0 (by omega)⟩
  rw [if_neg h0]
  by_cases h1 : ictx_check_r < 0
  · rw [if_pos h1]
    exact ⟨writeStops_nil _, fun _ _ h => absurd h1 (by omega)⟩
  rw [if_neg h1]
  by_cases h2 : check_io header off len < 0
  · rw [if_pos h2]
    refine ⟨writeStops_nil _, fun _ hsz _ _ _ hle => ?_⟩
    exfalso
    have ha : add64 off len = off + len := add64_of_lt (by omega)
    unfold check_io at h2
    simp only [ha] at h2
    rw [if_neg (by omega)] at h2
    omega
  rw [if_neg h2]
  obtain ⟨new, hlog, hstops, hok⟩ := write_loop_spec nameSize header w off buf
    (get_block_num header (sub64 (add64 off len) 1) + 1 - get_block_num header off)
    (get_block_num header off) 0 len st []
  simp only [List.nil_append] at hlog
  simp only
  rw [hlog]
  refine ⟨hstops, ?_⟩
  intro hord hsz _ hlen h63 hle hall
  have ha : add64 off len = off + len := add64_of_lt (by omega)
  have hs : sub64 (off + len) 1 = off + len - 1 :=
    sub64_of_le (by omega) (by omega)
  rw [ha, hs, get_block_num_eq_div, get_block_num_eq_div] at hok
  have hmono : off / 2 ^ header.order ≤ (off + len - 1) / 2 ^ header.order :=
    Nat.div_le_div_right (by omega)
  have hres := hok hord (by omega) (by omega) (Or.inr (by simp)) (fun _ => by
    have : off + 0 + len - 1 = off + len - 1 := by omega
    rw [this]
    omega) hall
  rw [ha, hs, get_block_num_eq_div, get_block_num_eq_div]
  refine ⟨?_, hres.2⟩
  rw [hres.1]
  congr 1
  omega

/-! ## Facts about the completion protocol -/

theorem toInt32_of_bounds {z : Int} (h1 : -2147483648 ≤ z) (h2 : z < 2147483648) :
    toInt32 z = z := by
  unfold toInt32
  omega

set_option maxHeartbeats 4000000 in
theorem proto_step_sim_report (N : Nat) (hN : N + 3 < 2147483648) (cb : Bool) (p q : Proto)
    (r : Int) (hwf : p.wf N) (h : proto_step N p (.report r) = some q) :
    aio_step (proto_state cb p) (.report r) = some (proto_state cb q) ∧ q.wf N := by
  obtain ⟨lg, adds, regs, fin, lp, reports, rel⟩ := p
  obtain ⟨h1, h2, h3, h4, h5, h6, h7⟩ := hwf
  simp only at h1 h2 h3 h4 h5 h6 h7
  simp only [proto_step] at h
  split at h
  · rename_i hc
    injection h with h
    subst h
    have e1 : (reports ++ [r]).length = reports.length + 1 := by simp
    have e2 : (reports ++ [r]).foldl rval_update 0
        = rval_update (reports.foldl rval_update 0) r := by simp [List.foldl_append]
    have hk0 : ¬ regs = reports.length := by omega
    have hk1 : ¬ (regs : Int) = (reports.length : Int) := by omega
    generalize hK : reports.length = K at *
    generalize reports.foldl rval_update 0 = v at *
    by_cases hk : adds = K + 1
    · have hr : regs = K + 1 := by omega
      subst hk
      subst hr
      have t1 : toInt32 (1 + ((K + 1 : Nat) : Int) - (K : Int) - 1) = 1 := by
        unfold toInt32; omega
      have t2 : toInt32 (0 + ((K + 1 : Nat) : Int) - (K : Int) - 1) = 0 := by
        unfold toInt32; omega
      cases lg <;> cases lp <;> cases rel <;> cases fin <;> cases cb <;>
        simp_all [aio_step, proto_state, AioCompletion.complete_block,
          AioCompletion.put_unlock, AioCompletion.complete, Proto.wf] <;>
        (try unfold toInt32) <;> omega
    · have hk2 : ¬ (adds : Int) = (K : Int) + 1 := by omega
      have hk3 : ¬ (adds : Int) - (K : Int) = 0 := by omega
      have hk4 : ¬ (1 : Int) + (adds : Int) - (K : Int) = 0 := by omega
      have hk5 : ¬ (adds : Int) - (K : Int) - 1 = 0 := by omega
      have t1 : toInt32 (1 + (adds : Int) - (K : Int) - 1) = (adds : Int) - (K : Int) := by
        unfold toInt32; omega
      have t2 : toInt32 (0 + (adds : Int) - (K : Int) - 1) = (adds : Int) - (K : Int) - 1 := by
        unfold toInt32; omega
      cases lg <;> cases lp <;> cases rel <;> cases fin <;> cases cb <;>
        simp_all [aio_step, proto_state, AioCompletion.complete_block,
          AioCompletion.put_unlock, AioCompletion.complete, Proto.wf] <;>
        (try unfold toInt32) <;> omega
  · simp at h

theorem proto_step_sim (N : Nat) (hN : N + 3 < 2147483648) (cb : Bool) (p q : Proto)
    (e : AioEvent) (hwf : p.wf N) (h : proto_step N p e = some q) :
    aio_step (proto_state cb p) e = some (proto_state cb q) ∧ q.wf N := by
  obtain ⟨lg, adds, regs, fin, lp, reports, rel⟩ := p
  obtain ⟨h1, h2, h3, h4, h5, h6, h7⟩ := hwf
  simp only at h1 h2 h3 h4 h5 h6 h7
  cases e with
  | loop_get =>
    simp only [proto_step] at h
    split at h
    · rename_i hc
      obtain ⟨c1, c2, c3, c4⟩ := hc
      subst c1 c2 c3 c4
      injection h with h
      subst h
      have hr : regs = 0 := by omega
      have hk : reports.length = 0 := by omega
      subst hr
      refine ⟨?_, ?_⟩
      · cases lp <;> simp_all [aio_step, proto_state, AioCompletion.get, toInt32]
      · simp_all [Proto.wf]
    · simp at h
  | add_pending =>
    simp only [proto_step] at h
    split at h
    · rename_i hc
      obtain ⟨c1, c2, c3⟩ := hc
      subst c1 c3
      injection h with h
      subst h
      have hne : adds + 1 ≠ reports.length := by omega
      have hne2 : ¬ (adds : Int) + 1 = (reports.length : Int) := by omega
      cases lg <;> cases lp <;> cases rel <;>
        simp_all [aio_step, proto_state, AioCompletion.add_pending, Proto.wf, toInt32] <;>
        omega
    · simp at h
  | add_get =>
    simp only [proto_step] at h
    split at h
    · rename_i hc
      subst hc
      injection h with h
      subst h
      cases lg <;> cases lp <;> cases rel <;> cases fin <;>
        simp_all [aio_step, proto_state, AioCompletion.get, Proto.wf, toInt32] <;>
        omega
    · simp at h
  | finish =>
    simp only [proto_step] at h
    split at h
    · rename_i hc
      obtain ⟨c1, c2⟩ := hc
      subst c1 c2
      injection h with h
      subst h
      by_cases hk : adds = reports.length
      · cases lg <;> cases lp <;> cases rel <;> cases cb <;>
          simp_all [aio_step, proto_state, AioCompletion.finish_adding_completions,
            AioCompletion.complete, Proto.wf, toInt32]
      · have hk2 : ¬ (adds : Int) = (reports.length : Int) := by omega
        have hk3 : ¬ (1 : Int) + (adds : Int) - (reports.length : Int) = 0 := by omega
        have hk4 : ¬ (adds : Int) - (reports.length : Int) = 0 := by omega
        have hk5 : toInt32 (1 + (adds : Int) - (reports.length : Int) - 1)
            = (adds : Int) - (reports.length : Int) := by
          rw [toInt32_of_bounds (by omega) (by omega)]
          omega
        cases lg <;> cases lp <;> cases rel <;> cases cb <;>
          simp_all [aio_step, proto_state, AioCompletion.finish_adding_completions,
            AioCompletion.complete, Proto.wf]
    · simp at h
  | loop_put =>
    simp only [proto_step] at h
    split at h
    · rename_i hc
      obtain ⟨c1, c2, c3⟩ := hc
      subst c1 c2 c3
      injection h with h
      subst h
      have hr : adds = regs := h5 rfl
      subst hr
      by_cases hk : adds = reports.length
      · cases rel <;> cases cb <;>
          simp_all [aio_step, proto_state, AioCompletion.put, AioCompletion.put_unlock,
            Proto.wf, toInt32]
      · have hk2 : ¬ (adds : Int) = (reports.length : Int) := by omega
        have hk3 : ¬ (adds : Int) - (reports.length : Int) = 0 := by omega
        cases rel <;> cases cb <;>
          simp_all [aio_step, proto_state, AioCompletion.put, AioCompletion.put_unlock,
            Proto.wf, toInt32] <;> omega
    · simp at h
  | release =>
    simp only [proto_step] at h
    split at h
    · rename_i hc
      obtain ⟨c1, c2⟩ := hc
      subst c1 c2
      injection h with h
      subst h
      by_cases hk : regs = reports.length
      · cases lp <;> cases fin <;> cases cb <;>
          simp_all [aio_step, proto_state, AioCompletion.release, AioCompletion.put_unlock,
            Proto.wf, toInt32]
      · have hk2 : ¬ (regs : Int) = (reports.length : Int) := by omega
        have hk3 : ¬ (regs : Int) - (reports.length : Int) = 0 := by omega
        cases lp <;> cases fin <;> cases cb <;>
          simp_all [aio_step, proto_state, AioCompletion.release, AioCompletion.put_unlock,
            Proto.wf, toInt32] <;> omega
    · simp at h
  | report r => exact proto_step_sim_report N hN cb _ q r ⟨h1, h2, h3, h4, h5, h6, h7⟩ h
theorem proto_start_wf (N : Nat) : Proto.start.wf N := by
  simp [Proto.wf, Proto.start]

theorem proto_state_start (cb : Bool) :
    proto_state cb Proto.start = aio_create_completion cb := by
  cases cb <;> simp [proto_state, Proto.start, aio_create_completion]

theorem proto_run_sim (N : Nat) (hN : N + 3 < 2147483648) (cb : Bool) :
    ∀ (evs : List AioEvent) (p q : Proto), p.wf N → proto_run N p evs = some q →
      aio_run (proto_state cb p) evs = some (proto_state cb q) ∧ q.wf N
  | [], p, q, hwf, h => by
    simp only [proto_run, Option.some.injEq] at h
    subst h
    exact ⟨rfl, hwf⟩
  | e :: rest, p, q, hwf, h => by
    simp only [proto_run] at h
    cases hs : proto_step N p e with
    | none => simp [hs] at h
    | some m =>
      simp only [hs, Option.some_bind] at h
      obtain ⟨h1, h2⟩ := proto_step_sim N hN cb p m e hwf hs
      obtain ⟨h3, h4⟩ := proto_run_sim N hN cb rest m q h2 h
      refine ⟨?_, h4⟩
      simp only [aio_run, h1, Option.some_bind]
      exact h3

theorem proto_run_append (N : Nat) :
    ∀ (pre suf : List AioEvent) (p q : Proto), proto_run N p (pre ++ suf) = some q →
      ∃ m, proto_run N p pre = some m ∧ proto_run N m suf = some q
  | [], suf, p, q, h => ⟨p, rfl, h⟩
  | e :: rest, suf, p, q, h => by
    simp only [List.cons_append, proto_run] at h ⊢
    cases hs : proto_step N p e with
    | none => simp [hs] at h
    | some m =>
      simp only [hs, Option.some_bind] at h ⊢
      exact proto_run_append N rest suf m q h

theorem proto_step_facts (N : Nat) (p q : Proto) (e : AioEvent)
    (h : proto_step N p e = some q) :
    q.fin = (p.fin || decide (e = AioEvent.finish)) ∧
    q.rel = (p.rel || decide (e = AioEvent.release)) ∧
    q.reports = p.reports ++ reported [e] ∧
    (p.fin = true → q.adds = p.adds) := by
  cases e <;> simp only [proto_step] at h <;> split at h <;>
    first
    | (injection h with h; subst h; simp_all [reported])
    | simp at h

theorem proto_run_facts (N : Nat) :
    ∀ (evs : List AioEvent) (p q : Proto), proto_run N p evs = some q →
      q.fin = (p.fin || decide (AioEvent.finish ∈ evs)) ∧
      q.rel = (p.rel || decide (AioEvent.release ∈ evs)) ∧
      q.reports = p.reports ++ reported evs ∧
      (p.fin = true → q.adds = p.adds)
  | [], p, q, h => by
    simp only [proto_run, Option.some.injEq] at h
    subst h
    simp [reported]
  | e :: rest, p, q, h => by
    simp only [proto_run] at h
    cases hs : proto_step N p e with
    | none => simp [hs] at h
    | some m =>
      simp only [hs, Option.some_bind] at h
      obtain ⟨a1, a2, a3, a4⟩ := proto_step_facts N p m e hs
      obtain ⟨b1, b2, b3, b4⟩ := proto_run_facts N rest m q h
      have hrep : reported (e :: rest) = reported [e] ++ reported rest := by
        cases e <;> simp [reported]
      refine ⟨?_, ?_, ?_, ?_⟩
      · rw [b1, a1]
        by_cases he : e = AioEvent.finish
        · simp [he]
        · have : ¬ AioEvent.finish = e := fun h => he h.symm
          simp [he, this]
      · rw [b2, a2]
        by_cases he : e = AioEvent.release
        · simp [he]
        · have : ¬ AioEvent.release = e := fun h => he h.symm
          simp [he, this]
      · rw [b3, a3, hrep, List.append_assoc]
      · intro hf
        have h1 := a4 hf
        have h2 : m.fin = true := by rw [a1, hf]; rfl
        rw [b4 h2, h1]

theorem proto_stuck (N : Nat) (p : Proto) (hwf : p.wf N) (hrel : p.rel = true)
    (hlp : p.lp = true) (hk : p.regs = p.reports.length) (e : AioEvent) :
    proto_step N p e = none := by
  obtain ⟨h1, h2, h3, h4, h5, h6, h7⟩ := hwf
  have hfin := (h6 hlp).1
  have hlg := (h6 hlp).2
  have hadds := h5 hfin
  cases e <;> simp [proto_step, hrel, hlp, hfin, hlg] <;> omega

theorem foldl_rval_sum : ∀ (rs : List Int) (v : Int), 0 ≤ v → (∀ r ∈ rs, 0 ≤ r) →
    v + rs.sum < 9223372036854775808 → rs.foldl rval_update v = v + rs.sum
  | [], v, _, _, _ => by simp
  | r :: rest, v, hv, hall, hsum => by
    have hr : 0 ≤ r := hall r (List.mem_cons_self _ _)
    have hrest : ∀ x ∈ rest, 0 ≤ x := fun x hx => hall x (List.mem_cons_of_mem _ hx)
    have hs0 : 0 ≤ rest.sum := List.sum_nonneg hrest
    simp only [List.sum_cons] at hsum
    have hu : rval_update v r = v + r := by
      unfold rval_update toInt64
      rw [if_pos hv, if_neg (by omega)]
      by_cases h0 : 0 < r
      · rw [if_pos h0]; omega
      · rw [if_neg h0]; omega
    simp only [List.foldl_cons, List.sum_cons, hu]
    rw [foldl_rval_sum rest (v + r) (by omega) hrest (by omega)]
    omega

/-! ## Facts about folding a sub-op result -/

theorem lookup_append_other (l : List (String × SnapInfo)) (k n : String) (v : SnapInfo)
    (h : n ≠ k) : (l ++ [(k, v)]).lookup n = l.lookup n := by
  have hb : (n == k) = false := by simp [h]
  rw [List.lookup_append, List.lookup_cons, hb]
  simp [List.lookup]

theorem add_snap_facts (c : ImageCtx) (s : String) (id size : Nat) :
    (c.add_snap s id size).header = c.header ∧
    (c.add_snap s id size).snapc_seq = c.snapc_seq ∧
    (c.add_snap s id size).snapc_snaps = c.snapc_snaps ++ [id] ∧
    (c.add_snap s id size).snapid = c.snapid ∧
    (c.add_snap s id size).snapname = c.snapname ∧
    (c.add_snap s id size).needs_refresh = c.needs_refresh ∧
    (c.add_snap s id size).data_read_snap = c.data_read_snap ∧
    (∀ n, n ≠ s → (c.add_snap s id size).snaps_by_name.lookup n = c.snaps_by_name.lookup n) := by
  refine ⟨rfl, rfl, rfl, rfl, rfl, rfl, rfl, ?_⟩
  intro n hn
  simp only [ImageCtx.add_snap]
  split
  · rfl
  · exact lookup_append_other _ _ _ _ hn

theorem add_snaps_facts : ∀ (es : List (Nat × Nat × String)) (c : ImageCtx),
    (es.foldl (fun (c : ImageCtx) e => c.add_snap e.2.2 e.1 e.2.1) c).header = c.header ∧
    (es.foldl (fun (c : ImageCtx) e => c.add_snap e.2.2 e.1 e.2.1) c).snapc_seq = c.snapc_seq ∧
    (es.foldl (fun (c : ImageCtx) e => c.add_snap e.2.2 e.1 e.2.1) c).snapc_snaps
      = c.snapc_snaps ++ es.map (fun e => e.1) ∧
    (es.foldl (fun (c : ImageCtx) e => c.add_snap e.2.2 e.1 e.2.1) c).snapid = c.snapid ∧
    (es.foldl (fun (c : ImageCtx) e => c.add_snap e.2.2 e.1 e.2.1) c).snapname = c.snapname ∧
    (es.foldl (fun (c : ImageCtx) e => c.add_snap e.2.2 e.1 e.2.1) c).needs_refresh
      = c.needs_refresh ∧
    (es.foldl (fun (c : ImageCtx) e => c.add_snap e.2.2 e.1 e.2.1) c).data_read_snap
      = c.data_read_snap ∧
    (∀ n, n ∉ es.map (fun e => e.2.2) →
      (es.foldl (fun (c : ImageCtx) e => c.add_snap e.2.2 e.1 e.2.1) c).snaps_by_name.lookup n
        = c.snaps_by_name.lookup n)
  | [], c => by simp
  | e :: rest, c => by
    obtain ⟨a1, a2, a3, a4, a5, a6, a7, a8⟩ := add_snap_facts c e.2.2 e.1 e.2.1
    obtain ⟨b1, b2, b3, b4, b5, b6, b7, b8⟩ := add_snaps_facts rest (c.add_snap e.2.2 e.1 e.2.1)
    simp only [List.foldl_cons, List.map_cons]
    refine ⟨b1.trans a1, b2.trans a2, ?_, b4.trans a4, b5.trans a5, b6.trans a6, b7.trans a7, ?_⟩
    · rw [b3, a3]
      simp
    · intro n hn
      have h1 : n ≠ e.2.2 := fun h => hn (by simp [h])
      have h2 : n ∉ rest.map (fun e => e.2.2) := fun h => hn (List.mem_cons_of_mem _ h)
      rw [b8 n h2, a8 n h1]

/-- A refresh whose reads succeed and whose snapshot context is valid, asked to
re-select a name that the new snapshot list does not hold: the result is
NotFound, the selector is head, the staleness flag and the data session's read
pin are as before. -/
theorem ictx_refresh_snap_gone (is_valid : Nat → List Nat → Bool) (md : MdReply)
    (ictx : ImageCtx) (n : String)
    (hh : 0 ≤ md.header_r) (hs : md.header_short = false) (hl : 0 ≤ md.list_r)
    (hv : is_valid md.seq (md.snaps.map (fun e => e.1)) = true)
    (hgone : n ∉ md.snaps.map (fun e => e.2.2)) :
    (ictx_refresh is_valid md ictx (some n)).2 = - ENOENT ∧
    (ictx_refresh is_valid md ictx (some n)).1.snapid = CEPH_NOSNAP ∧
    (ictx_refresh is_valid md ictx (some n)).1.snapname = "" ∧
    (ictx_refresh is_valid md ictx (some n)).1.needs_refresh = ictx.needs_refresh ∧
    (ictx_refresh is_valid md ictx (some n)).1.data_read_snap = ictx.data_read_snap ∧
    (ictx_refresh is_valid md ictx (some n)).1.header = md.header := by
  have hrh : read_header md ictx.header = (md.header, 0) := by
    unfold read_header
    rw [if_neg (by omega), hs]
    simp
  obtain ⟨b1, b2, b3, b4, b5, b6, b7, b8⟩ := add_snaps_facts md.snaps
    (ImageCtx.mk md.header md.seq [] [] [] ictx.snapid ictx.name ictx.snapname
      ictx.needs_refresh ictx.data_read_snap ictx.data_write_seq ictx.data_write_snaps)
  have hlook := b8 n hgone
  simp only [List.lookup] at hlook b1 b2 b3 b4 b5 b6 b7
  have e2 : ENOENT = 2 := rfl
  unfold ictx_refresh
  simp only [hrh, lt_irrefl, if_false, not_lt.mpr hl]
  simp only [b2, b3, List.nil_append, hv, not_true_eq_false, if_false]
  simp only [ImageCtx.snap_set, hlook, ImageCtx.snap_unset, e2]
  simp [b6, b7, b1]

/-- A refresh without a name to re-select, whose reads succeed and whose
snapshot context is valid: it succeeds, keeps the selector and clears the
staleness flag. -/
theorem ictx_refresh_no_name (is_valid : Nat → List Nat → Bool) (md : MdReply)
    (ictx : ImageCtx)
    (hh : 0 ≤ md.header_r) (hs : md.header_short = false) (hl : 0 ≤ md.list_r)
    (hv : is_valid md.seq (md.snaps.map (fun e => e.1)) = true) :
    (ictx_refresh is_valid md ictx none).2 = 0 ∧
    (ictx_refresh is_valid md ictx none).1.snapid = ictx.snapid ∧
    (ictx_refresh is_valid md ictx none).1.snapname = ictx.snapname ∧
    (ictx_refresh is_valid md ictx none).1.needs_refresh = false ∧
    (ictx_refresh is_valid md ictx none).1.data_read_snap = ictx.data_read_snap := by
  have hrh : read_header md ictx.header = (md.header, 0) := by
    unfold read_header
    rw [if_neg (by omega), hs]
    simp
  obtain ⟨b1, b2, b3, b4, b5, b6, b7, b8⟩ := add_snaps_facts md.snaps
    (ImageCtx.mk md.header md.seq [] [] [] ictx.snapid ictx.name ictx.snapname
      ictx.needs_refresh ictx.data_read_snap ictx.data_write_seq ictx.data_write_snaps)
  simp only [List.lookup] at b1 b2 b3 b4 b5 b6 b7
  unfold ictx_refresh
  simp only [hrh, lt_irrefl, if_false, not_lt.mpr hl]
  simp only [b2, b3, List.nil_append, hv, not_true_eq_false, if_false]
  simp [b4, b5, b7]

/-! ## Facts about the rollback and trim loops -/

theorem rollback_image_loop_spec {τ : Type} (nameSize : Nat) (header : rbd_obj_header_ondisk)
    (rb : StoreRollback τ) (snapid : Nat) :
    ∀ (n i : Nat) (st : τ) (log : List RollbackCall),
      ∃ new : List RollbackCall,
        (rollback_image_loop nameSize header (record_rollbacks rb) snapid n i (st, log)).1.2
          = log ++ new ∧
        new.length ≤ n ∧
        (∀ (k : Nat) (hk : k < new.length),
          new[k].oid = get_block_oid nameSize header (i + k) ∧ new[k].snapid = snapid ∧
          (new[k].ret < 0 → new[k].ret ≠ - ENOENT →
            (rollback_image_loop nameSize header (record_rollbacks rb) snapid n i
              (st, log)).2 = new[k].ret ∧ k + 1 = new.length)) ∧
        ((∀ c ∈ new, c.ret < 0 → c.ret = - ENOENT) →
          (rollback_image_loop nameSize header (record_rollbacks rb) snapid n i (st, log)).2 = 0
            ∧ new.length = n) := by
  intro n
  induction n with
  | zero =>
    intro i st log
    refine ⟨[], by simp [rollback_image_loop], by simp, ?_, ?_⟩
    · intro k hk
      simp at hk
    · intro _
      simp [rollback_image_loop]
  | succ n ih =>
    intro i st log
    rw [rollback_image_loop]
    generalize hc : (⟨get_block_oid nameSize header i, snapid,
      (rb st (get_block_oid nameSize header i) snapid).2⟩ : RollbackCall) = c
    have hoid : c.oid = get_block_oid nameSize header i := by rw [← hc]
    have hsn : c.snapid = snapid := by rw [← hc]
    have hrec : record_rollbacks rb (st, log) (get_block_oid nameSize header i) snapid
        = (((rb st (get_block_oid nameSize header i) snapid).1, log ++ [c]), c.ret) := by
      rw [← hc]
      rfl
    simp only [hrec]
    by_cases hbad : c.ret < 0 ∧ c.ret ≠ - ENOENT
    · rw [if_pos hbad]
      refine ⟨[c], rfl, by simp, ?_, ?_⟩
      · intro k hk
        have hk0 : k = 0 := by simpa using hk
        subst hk0
        simp only [List.getElem_cons_zero, Nat.add_zero]
        exact ⟨hoid, hsn, fun _ _ => ⟨trivial, rfl⟩⟩
      · intro hall
        exact absurd (hall c (List.mem_singleton.mpr rfl) hbad.1) hbad.2
    · rw [if_neg hbad]
      obtain ⟨new, hlog, hlen, hcalls, hok⟩ := ih (i + 1)
        (rb st (get_block_oid nameSize header i) snapid).1 (log ++ [c])
      refine ⟨c :: new, ?_, ?_, ?_, ?_⟩
      · rw [hlog]
        simp
      · simp only [List.length_cons]
        omega
      · intro k hk
        cases k with
        | zero =>
          simp only [List.getElem_cons_zero, Nat.add_zero]
          refine ⟨hoid, hsn, fun h1 h2 => absurd ⟨h1, h2⟩ hbad⟩
        | succ j =>
          have hj : j < new.length := by simpa using hk
          have := hcalls j hj
          simp only [List.getElem_cons_succ, List.length_cons]
          have e : i + (j + 1) = i + 1 + j := by omega
          rw [e]
          refine ⟨this.1, this.2.1, fun h1 h2 => ?_⟩
          have h3 := this.2.2 h1 h2
          exact ⟨h3.1, by omega⟩
      · intro hall
        have := hok (fun c1 hc1 => hall c1 (List.mem_cons_of_mem _ hc1))
        simp only [List.length_cons]
        exact ⟨this.1, by omega⟩

theorem trim_image_loop_spec {τ : Type} (nameSize : Nat) (header : rbd_obj_header_ondisk)
    (rm : StoreRemove τ) :
    ∀ (n i : Nat) (st : τ) (log : List String),
      (trim_image_loop nameSize header (record_removes rm) n i (st, log)).2
        = log ++ (List.range n).map (fun k => get_block_oid nameSize header (i + k)) := by
  intro n
  induction n with
  | zero =>
    intro i st log
    simp [trim_image_loop]
  | succ n ih =>
    intro i st log
    rw [trim_image_loop]
    have hrec : (record_removes rm (st, log) (get_block_oid nameSize header i)).1
        = ((rm st (get_block_oid nameSize header i)).1,
            log ++ [get_block_oid nameSize header i]) := rfl
    rw [hrec, ih, List.range_succ_eq_map, List.map_cons, List.map_map, List.append_assoc]
    congr 1
    simp only [Nat.add_zero, List.singleton_append, List.cons.injEq, true_and]
    apply List.map_congr_left
    intro k _
    simp only [Function.comp]
    congr 1
    omega

theorem rollback_image_loop_record {τ : Type} (nameSize : Nat)
    (header : rbd_obj_header_ondisk) (rb : StoreRollback τ) (snapid : Nat) :
    ∀ (n i : Nat) (st : τ) (log : List RollbackCall),
      (rollback_image_loop nameSize header (record_rollbacks rb) snapid n i (st, log)).1.1
        = (rollback_image_loop nameSize header rb snapid n i st).1 ∧
      (rollback_image_loop nameSize header (record_rollbacks rb) snapid n i (st, log)).2
        = (rollback_image_loop nameSize header rb snapid n i st).2 := by
  intro n
  induction n with
  | zero =>
    intro i st log
    simp [rollback_image_loop]
  | succ n ih =>
    intro i st log
    rw [rollback_image_loop, rollback_image_loop]
    have hrec : record_rollbacks rb (st, log) (get_block_oid nameSize header i) snapid
        = (((rb st (get_block_oid nameSize header i) snapid).1,
            log ++ [⟨get_block_oid nameSize header i, snapid,
              (rb st (get_block_oid nameSize header i) snapid).2⟩]),
            (rb st (get_block_oid nameSize header i) snapid).2) := rfl
    simp only [hrec]
    by_cases hbad : (rb st (get_block_oid nameSize header i) snapid).2 < 0 ∧
        (rb st (get_block_oid nameSize header i) snapid).2 ≠ - ENOENT
    · rw [if_pos hbad, if_pos hbad]
      exact ⟨rfl, rfl⟩
    · rw [if_neg hbad, if_neg hbad]
      exact ih _ _ _

theorem trim_image_loop_record {τ : Type} (nameSize : Nat) (header : rbd_obj_header_ondisk)
    (rm : StoreRemove τ) :
    ∀ (n i : Nat) (st : τ) (log : List String),
      (trim_image_loop nameSize header (record_removes rm) n i (st, log)).1
        = trim_image_loop nameSize header rm n i st := by
  intro n
  induction n with
  | zero =>
    intro i st log
    simp [trim_image_loop]
  | succ n ih =>
    intro i st log
    rw [trim_image_loop, trim_image_loop]
    exact ih _ _ _

theorem lookup_filter_none (a : String) (p : String × List Byte → Bool) :
    ∀ (st : ObjectStore), List.lookup a st = none → List.lookup a (st.filter p) = none := by
  intro st
  induction st with
  | nil => intro _; rfl
  | cons x xs ih =>
    intro h
    obtain ⟨k, v⟩ := x
    rw [List.lookup_cons] at h
    cases hk : (a == k) with
    | true => rw [hk] at h; cases h
    | false =>
      rw [hk] at h
      rw [List.filter_cons]
      split
      · rw [List.lookup_cons, hk]
        exact ih h
      · exact ih h

theorem lookup_filter_self (a : String) :
    ∀ (st : ObjectStore), List.lookup a (st.filter (fun p => p.1 != a)) = none := by
  intro st
  induction st with
  | nil => rfl
  | cons x xs ih =>
    obtain ⟨k, v⟩ := x
    rw [List.filter_cons]
    by_cases hk : k = a
    · subst hk
      simpa using ih
    · have h1 : (k != a) = true := by simpa using hk
      have h2 : (a == k) = false := by
        simp only [beq_eq_false_iff_ne, ne_eq]
        exact fun h => hk h.symm
      simp only [h1, if_true, List.lookup_cons, h2]
      exact ih

theorem store_remove_self (st : ObjectStore) (a : String) :
    List.lookup a (store_remove st a).1 = none := by
  unfold store_remove
  cases h : List.lookup a st with
  | none => simpa using h
  | some v => exact lookup_filter_self a st

theorem store_remove_absent (st : ObjectStore) (a b : String)
    (h : List.lookup a st = none) : List.lookup a (store_remove st b).1 = none := by
  unfold store_remove
  cases hb : List.lookup b st with
  | none => simpa using h
  | some v => exact lookup_filter_none a _ st h

theorem trim_image_loop_absent (nameSize : Nat) (header : rbd_obj_header_ondisk)
    (oid : String) :
    ∀ (n i : Nat) (st : ObjectStore),
      ((∃ k, k < n ∧ oid = get_block_oid nameSize header (i + k)) ∨
        List.lookup oid st = none) →
      List.lookup oid (trim_image_loop nameSize header store_remove n i st) = none := by
  intro n
  induction n with
  | zero =>
    intro i st h
    rcases h with ⟨k, hk, _⟩ | h
    · omega
    · simpa [trim_image_loop] using h
  | succ n ih =>
    intro i st h
    rw [trim_image_loop]
    apply ih
    rcases h with ⟨k, hk, hoid⟩ | h
    · cases k with
      | zero =>
        right
        rw [hoid]
        exact store_remove_self st _
      | succ j =>
        left
        refine ⟨j, by omega, ?_⟩
        rw [hoid]
        congr 1
        omega
    · right
      exact store_remove_absent st oid _ h

theorem resize_shrink_store {τ : Type} (nameSize : Nat) (is_valid : Nat → List Nat → Bool)
    (md : MdReply) (rm : StoreRemove τ) (write_r : Int) (ictx : ImageCtx) (size : Nat)
    (st : τ) (hchk : 0 ≤ (ictx_check is_valid md ictx).2)
    (hlt : size < (ictx_check is_valid md ictx).1.header.image_size) :
    (resize nameSize is_valid md rm write_r ictx size st).2.1
      = trim_image nameSize (ictx_check is_valid md ictx).1.header rm size st := by
  unfold resize
  simp only
  have h1 : ¬ (ictx_check is_valid md ictx).2 < 0 := by omega
  have h2 : ¬ size = (ictx_check is_valid md ictx).1.header.image_size := by omega
  have h3 : ¬ size > (ictx_check is_valid md ictx).1.header.image_size := by omega
  rw [if_neg h1, if_neg h2, if_neg h3]
  split <;> rfl

theorem ceil_div_facts (size old b i : Nat) (hb : 0 < b)
    (h1 : (size + b - 1) / b ≤ i) (h2 : i < (old + b - 1) / b) :
    size / b ≤ i ∧ i - size / b < (old + b - 1) / b - size / b := by
  have h3 : size / b ≤ (size + b - 1) / b := Nat.div_le_div_right (by omega)
  omega

/-! ## Facts about the header read loop -/

theorem read_header_bl_loop_stuck (read : String → Nat → Nat → Int × List Byte)
    (md_oid : String) (bl : List Byte)
    (h : read md_oid READ_SIZE 0 = ((READ_SIZE : Int), bl)) :
    ∀ (fuel : Nat) (header : List Byte),
      (read_header_bl_loop read md_oid fuel header).2 = none ∧
      (read_header_bl_loop read md_oid fuel header).1.length
        = header.length + fuel * bl.length := by
  intro fuel
  induction fuel with
  | zero =>
    intro header
    simp [read_header_bl_loop]
  | succ n ih =>
    intro header
    have h0 : ¬ ((READ_SIZE : Nat) : Int) < 0 := by omega
    rw [read_header_bl_loop]
    simp only [h]
    rw [if_neg h0, if_pos trivial]
    obtain ⟨h1, h2⟩ := ih (header ++ bl)
    refine ⟨h1, ?_⟩
    rw [h2, List.length_append, Nat.succ_mul]
    omega

theorem cluster_read_whole (st : Cluster) (oid : String) (obj : List Byte) (len : Nat)
    (h : List.lookup oid st.objs = some obj) (hl : obj.length ≤ len) :
    cluster_io.read st oid len 0 = ((obj.length : Int), obj) := by
  simp only [cluster_io, h, List.drop_zero, List.take_of_length_le hl]

/-! ## Facts about the assertions of a completion -/

theorem aio_step_assertions (c d : AioCompletion) (e : AioEvent)
    (h : aio_step c e = some d) : assertions_hold c e = true := by
  have hput : ∀ x y : AioCompletion, x.put_unlock = some y → x.deleted = false ∧ 0 < x.ref := by
    intro x y hx
    unfold AioCompletion.put_unlock at hx
    by_cases hd : x.deleted = true
    · simp [hd] at hx
    · by_cases hr : 0 < x.ref
      · exact ⟨by simpa using hd, hr⟩
      · simp [hd, hr] at hx
  have hget : ∀ x y : AioCompletion, x.get = some y → x.deleted = false ∧ 0 < x.ref := by
    intro x y hx
    unfold AioCompletion.get at hx
    by_cases hd : x.deleted = true
    · simp [hd] at hx
    · by_cases hr : 0 < x.ref
      · exact ⟨by simpa using hd, hr⟩
      · simp [hd, hr] at hx
  cases e with
  | loop_get =>
    have := hget c d h
    simp [assertions_hold, this.1, this.2]
  | add_get =>
    have := hget c d h
    simp [assertions_hold, this.1, this.2]
  | loop_put =>
    have := hput c d h
    simp [assertions_hold, this.1, this.2]
  | add_pending =>
    simp only [aio_step, AioCompletion.add_pending] at h
    by_cases hd : c.deleted = true
    · simp [hd] at h
    · simp [assertions_hold, hd]
  | finish =>
    simp only [aio_step, AioCompletion.finish_adding_completions] at h
    by_cases hd : c.deleted = true
    · simp [hd] at h
    · by_cases hp : c.pending_count = 0
      · simp [hd, hp] at h
      · simp [assertions_hold, hd, hp]
  | release =>
    simp only [aio_step, AioCompletion.release] at h
    by_cases hd : c.deleted = true
    · simp [hd] at h
    · by_cases hr : c.released = true
      · simp [hd, hr] at h
      · simp only [hd, hr, Bool.false_eq_true, if_false] at h
        have := hput _ d h
        simp only at this
        simp [assertions_hold, hd, hr, this.2]
  | report r =>
    simp only [aio_step, AioCompletion.complete_block] at h
    by_cases hd : c.deleted = true
    · simp [hd] at h
    · by_cases hp : c.pending_count = 0
      · simp [hd, hp] at h
      · simp only [hd, hp, Bool.false_eq_true, if_false] at h
        have hr : 0 < c.ref := by
          split at h
          · have := hput _ d h
            simpa [AioCompletion.complete] using this.2
          · have := hput _ d h
            simpa using this.2
        simp [assertions_hold, hd, hp, hr]

/-! ## Facts about the modelled pool -/

theorem lookup_filter_ne (a b : String) (h : a ≠ b) :
    ∀ (st : ObjectStore), List.lookup a (st.filter (fun p => p.1 != b)) = List.lookup a st := by
  intro st
  induction st with
  | nil => rfl
  | cons x xs ih =>
    obtain ⟨k, v⟩ := x
    rw [List.filter_cons]
    by_cases hk : k = b
    · subst hk
      have h1 : (a == k) = false := by simpa using h
      simp only [bne_self_eq_false, Bool.false_eq_true, if_false, List.lookup_cons, h1]
      exact ih
    · have h1 : (k != b) = true := by simpa using hk
      simp only [h1, if_true, List.lookup_cons]
      rw [ih]

theorem store_write_lookup_self (st : ObjectStore) (oid : String) (bl : List Byte) (len : Nat)
    (h : (List.lookup oid st).getD [] = []) :
    List.lookup oid (store_write st oid bl len 0).1 = some (bl.take len) := by
  unfold store_write
  simp only [List.lookup_cons, beq_self_eq_true, h]
  simp

theorem store_write_lookup_other (st : ObjectStore) (oid a : String) (bl : List Byte)
    (len off : Nat) (h : a ≠ oid) :
    List.lookup a (store_write st oid bl len off).1 = List.lookup a st := by
  unfold store_write
  have h1 : (a == oid) = false := by simpa using h
  simp only [List.lookup_cons, h1]
  exact lookup_filter_ne a oid h st

theorem store_touch_lookup (st : ObjectStore) (oid a : String)
    (h : (List.lookup a st).getD [] = []) :
    (List.lookup a (store_write st oid [] 0 0).1).getD [] = [] := by
  by_cases ha : a = oid
  · subst ha
    rw [store_write_lookup_self st a [] 0 h]
    rfl
  · rw [store_write_lookup_other st oid a [] 0 0 ha]
    exact h

theorem create_fresh (nameSize defaultOrder : Nat) (L : HeaderLayout) (imgname : String)
    (size : Nat) (order : Int) (st : Cluster)
    (h : List.lookup (imgname ++ RBD_SUFFIX) st.objs = none) :
    (create nameSize defaultOrder L cluster_io imgname size order st).2 = 0 ∧
    List.lookup (imgname ++ RBD_SUFFIX)
        (create nameSize defaultOrder L cluster_io imgname size order st).1.objs
      = some (L.encode (init_rbd_header nameSize defaultOrder size order st.next_bid).1) ∧
    imgname ∈ (create nameSize defaultOrder L cluster_io imgname size order st).1.dir := by
  have e2 : ENOENT = 2 := rfl
  have hlen : ∀ (s : ObjectStore) (o : String) (b : List Byte) (l f : Nat),
      (store_write s o b l f).2 = (l : Int) := fun _ _ _ _ _ => rfl
  have htouch := store_touch_lookup st.objs RBD_INFO (imgname ++ RBD_SUFFIX) (by rw [h]; rfl)
  have hw := store_write_lookup_self (store_write st.objs RBD_INFO [] 0 0).1
    (imgname ++ RBD_SUFFIX)
    (L.encode (init_rbd_header nameSize defaultOrder size order st.next_bid).1)
    (L.encode (init_rbd_header nameSize defaultOrder size order st.next_bid).1).length htouch
  rw [List.take_length] at hw
  unfold create rbd_assign_bid touch_rbd_info
  simp only [cluster_io, h, hlen]
  rw [if_neg (by omega)]
  simp only [Int.Nat.cast_ofNat_Int, lt_irrefl, if_false]
  rw [if_neg (by omega)]
  exact ⟨rfl, hw, List.mem_cons_self _ _⟩

theorem create_success_absent (nameSize defaultOrder : Nat) (L : HeaderLayout)
    (imgname : String) (size : Nat) (order : Int) (st : Cluster)
    (h : (create nameSize defaultOrder L cluster_io imgname size order st).2 = 0) :
    List.lookup (imgname ++ RBD_SUFFIX) st.objs = none := by
  have e17 : EEXIST = 17 := rfl
  cases hl : List.lookup (imgname ++ RBD_SUFFIX) st.objs with
  | none => rfl
  | some v =>
    exfalso
    unfold create at h
    simp only [cluster_io, hl, if_true] at h
    omega

theorem trim_image_loop_cluster (nameSize : Nat) (header : rbd_obj_header_ondisk) :
    ∀ (n i : Nat) (st : Cluster),
      (trim_image_loop nameSize header cluster_io.remove n i st).dir = st.dir := by
  intro n
  induction n with
  | zero => intro i st; rfl
  | succ n ih =>
    intro i st
    rw [trim_image_loop, ih]
    rfl

theorem remove_after_create (nameSize : Nat) (L : HeaderLayout) (imgname : String)
    (fuel : Nat) (st : Cluster) (bl : List Byte) (hfuel : 0 < fuel)
    (hobj : List.lookup (imgname ++ RBD_SUFFIX) st.objs = some bl)
    (hlen : bl.length = L.sizeof) (hsz : L.sizeof < READ_SIZE) (hdir : imgname ∈ st.dir) :
    ∃ st2, remove nameSize L cluster_io imgname fuel st = some (st2, 0) ∧
      List.lookup (imgname ++ RBD_SUFFIX) st2.objs = none := by
  obtain ⟨k, rfl⟩ : ∃ k, fuel = k + 1 := ⟨fuel - 1, by omega⟩
  have hread : cluster_io.read st (imgname ++ RBD_SUFFIX) READ_SIZE 0
      = ((bl.length : Int), bl) :=
    cluster_read_whole st _ bl READ_SIZE hobj (by omega)
  have hbl : read_header_bl (cluster_io.read st) (imgname ++ RBD_SUFFIX) (k + 1)
      = (bl, some 0) := by
    unfold read_header_bl
    rw [read_header_bl_loop]
    simp only [hread, List.nil_append]
    rw [if_neg (by omega), if_neg (by omega)]
  have hrh : read_header_from L cluster_io st (imgname ++ RBD_SUFFIX) (k + 1) (mkHeader "" 0 0)
      = some (L.decode bl, 0) := by
    unfold read_header_from
    simp only [hbl, read_header, lt_irrefl, if_false, hlen, decide_False, Bool.false_eq_true]
  unfold remove
  simp only [hrh, le_refl, if_true]
  have hd : ((cluster_io.remove (trim_image nameSize (L.decode bl) cluster_io.remove 0 st)
      (imgname ++ RBD_SUFFIX)).1).dir = st.dir := by
    unfold trim_image
    simp only
    have := trim_image_loop_cluster nameSize (L.decode bl)
      (get_max_block (L.decode bl) - get_block_num (L.decode bl) 0)
      (get_block_num (L.decode bl) 0) st
    simp only [cluster_io] at this ⊢
    exact this
  have hin : imgname ∈ ((cluster_io.remove
      (trim_image nameSize (L.decode bl) cluster_io.remove 0 st)
      (imgname ++ RBD_SUFFIX)).1).dir := by rw [hd]; exact hdir
  have ho : List.lookup (imgname ++ RBD_SUFFIX) ((cluster_io.remove
      (trim_image nameSize (L.decode bl) cluster_io.remove 0 st)
      (imgname ++ RBD_SUFFIX)).1).objs = none := by
    simp only [cluster_io]
    exact store_remove_self _ _
  generalize (cluster_io.remove (trim_image nameSize (L.decode bl) cluster_io.remove 0 st)
      (imgname ++ RBD_SUFFIX)).1 = s1 at hin ho
  simp only [cluster_io, hin, if_true, lt_irrefl, if_false]
  exact ⟨_, rfl, ho⟩

/-! ## Facts about the per-block requests of `write` and `aio_write` -/

theorem lens_before_cons (q : BlockReq) (rest : List BlockReq) (k : Nat) :
    lens_before (q :: rest) (k + 1) = q.len + lens_before rest k := by
  simp [lens_before]

theorem lens_before_zero (reqs : List BlockReq) : lens_before reqs 0 = 0 := by
  simp [lens_before]

theorem loop_requests_length (nameSize : Nat) (header : rbd_obj_header_ondisk)
    (off bs : Nat) (buf : List Byte) :
    ∀ (n i total left : Nat),
      (loop_requests nameSize header off bs buf n i total left).length = n := by
  intro n
  induction n with
  | zero => intro i total left; rfl
  | succ n ih =>
    intro i total left
    rw [loop_requests]
    simp only [List.length_cons, ih]

theorem block_count_facts (x left bs i n : Nat) (hbs : 0 < bs) (hleft : 0 < left)
    (hi : i = x / bs) (hn : (x + left - 1) / bs + 1 = i + (n + 1)) :
    (n = 0 → left ≤ bs - x % bs) ∧
    (0 < n → bs - x % bs < left ∧ i + 1 = (x + (bs - x % bs)) / bs ∧
      (x + (bs - x % bs) + (left - (bs - x % bs)) - 1) / bs + 1 = i + 1 + n) := by
  have h1 : x / bs * bs + x % bs = x := Nat.div_add_mod' x bs
  have h2 : x % bs < bs := Nat.mod_lt x hbs
  have h3 : (x + left - 1) / bs * bs + (x + left - 1) % bs = x + left - 1 :=
    Nat.div_add_mod' _ bs
  have h4 : (x + left - 1) % bs < bs := Nat.mod_lt _ hbs
  have hd : (x + left - 1) / bs = i + n := by omega
  rw [hd, Nat.add_mul, hi] at h3
  constructor
  · intro h0
    subst h0
    simp only [Nat.zero_mul, Nat.add_zero] at h3
    omega
  · intro hpos
    have h5 : bs ≤ n * bs := Nat.le_mul_of_pos_left bs hpos
    have h6 : bs - x % bs < left := by omega
    refine ⟨h6, ?_, ?_⟩
    · rw [next_block_start x bs hbs, hi]
    · have h7 : x + (bs - x % bs) + (left - (bs - x % bs)) - 1 = x + left - 1 := by omega
      rw [h7, hd]
      omega

theorem loop_requests_spec (nameSize : Nat) (header : rbd_obj_header_ondisk) (off : Nat)
    (buf : List Byte) (hord : header.order ≤ 30) :
    ∀ (n i total left : Nat), off + total + left < TWO64 → 0 < left →
      i = (off + total) / 2 ^ header.order →
      (off + total + left - 1) / 2 ^ header.order + 1 = i + n →
      lens_before (loop_requests nameSize header off (get_block_size header) buf
        n i total left) n = left ∧
      ∀ (k : Nat) (q : BlockReq),
        (loop_requests nameSize header off (get_block_size header) buf
          n i total left)[k]? = some q →
        q.oid = get_block_oid nameSize header (i + k) ∧
        (i + k) * 2 ^ header.order + q.off
          = off + total + lens_before (loop_requests nameSize header off
              (get_block_size header) buf n i total left) k ∧
        1 ≤ q.len ∧ q.off + q.len ≤ 2 ^ header.order ∧
        q.bl = (buf.drop (total + lens_before (loop_requests nameSize header off
              (get_block_size header) buf n i total left) k)).take q.len := by
  intro n
  induction n with
  | zero =>
    intro i total left _ hleft hi hn
    exfalso
    have h3 : (off + total) / 2 ^ header.order ≤ (off + total + left - 1) / 2 ^ header.order :=
      Nat.div_le_div_right (by omega)
    omega
  | succ n ih =>
    intro i total left hsum hleft hi hn
    simp only [TWO64] at hsum
    have hbs : 0 < 2 ^ header.order := Nat.two_pow_pos _
    have hbs2 : 2 ^ header.order ≤ 2 ^ 30 := Nat.pow_le_pow_right (by decide) hord
    have hm : (off + total) % 2 ^ header.order < 2 ^ header.order := Nat.mod_lt _ hbs
    have hdm : (off + total) / 2 ^ header.order * 2 ^ header.order
        + (off + total) % 2 ^ header.order = off + total := Nat.div_add_mod' _ _
    obtain ⟨f0, f1⟩ := block_count_facts (off + total) left (2 ^ header.order) i n hbs hleft
      hi hn
    rw [loop_requests]
    have hofs : get_block_ofs header (add64 off total) = (off + total) % 2 ^ header.order := by
      rw [get_block_ofs_of_le header _ hord, add64_of_lt (by simp only [TWO64]; omega)]
    have hsub : sub64 (get_block_size header) ((off + total) % 2 ^ header.order)
        = 2 ^ header.order - (off + total) % 2 ^ header.order := by
      rw [get_block_size_of_le header hord,
        sub64_of_le (Nat.le_of_lt hm) (by simp only [TWO64]; omega)]
    simp only [hofs, hsub]
    generalize hwl : min (2 ^ header.order - (off + total) % 2 ^ header.order) left = wl
    have hwl1 : 1 ≤ wl := by rw [← hwl]; omega
    have hwl2 : wl ≤ left := by rw [← hwl]; omega
    have hwl3 : wl ≤ 2 ^ header.order - (off + total) % 2 ^ header.order := by
      rw [← hwl]; omega
    have ha : add64 total wl = total + wl := add64_of_lt (by simp only [TWO64]; omega)
    have hs : sub64 left wl = left - wl := sub64_of_le hwl2 (by simp only [TWO64]; omega)
    rw [ha, hs]
    have hhead : ∀ q : BlockReq,
        q = ⟨get_block_oid nameSize header i, (buf.drop total).take wl, wl,
          (off + total) % 2 ^ header.order⟩ →
        q.oid = get_block_oid nameSize header (i + 0) ∧
        (i + 0) * 2 ^ header.order + q.off = off + total + 0 ∧
        1 ≤ q.len ∧ q.off + q.len ≤ 2 ^ header.order ∧
        q.bl = (buf.drop (total + 0)).take q.len := by
      intro q hq
      subst hq
      simp only [Nat.add_zero]
      refine ⟨trivial, ?_, hwl1, by omega, trivial⟩
      rw [hi]
      exact hdm
    rcases Nat.eq_zero_or_pos n with hn0 | hnpos
    · subst hn0
      have hwleq : wl = left := by
        have := f0 rfl
        rw [← hwl]
        omega
      refine ⟨?_, ?_⟩
      · rw [lens_before_cons]
        simp [loop_requests, lens_before, hwleq]
      · intro k q hq
        cases k with
        | zero =>
          simp only [List.getElem?_cons_zero, Option.some.injEq] at hq
          have := hhead q hq.symm
          rw [lens_before_zero]
          exact this
        | succ j =>
          simp [loop_requests] at hq
    · obtain ⟨g1, g2, g3⟩ := f1 hnpos
      have hwleq : wl = 2 ^ header.order - (off + total) % 2 ^ header.order := by
        rw [← hwl]
        omega
      have hih := ih (i + 1) (total + wl) (left - wl) (by simp only [TWO64]; omega)
        (by omega)
        (by rw [← Nat.add_assoc, hwleq]; exact g2)
        (by rw [← Nat.add_assoc, hwleq]; exact g3)
      obtain ⟨hsumr, hrest⟩ := hih
      refine ⟨?_, ?_⟩
      · rw [lens_before_cons, hsumr]
        simp only
        omega
      · intro k q hq
        cases k with
        | zero =>
          simp only [List.getElem?_cons_zero, Option.some.injEq] at hq
          have := hhead q hq.symm
          rw [lens_before_zero]
          exact this
        | succ j =>
          simp only [List.getElem?_cons_succ] at hq
          obtain ⟨r1, r2, r3, r4, r5⟩ := hrest j q hq
          rw [lens_before_cons]
          simp only
          have e1 : i + (j + 1) = i + 1 + j := by omega
          refine ⟨by rw [e1]; exact r1, ?_, r3, r4, ?_⟩
          · rw [e1, r2]
            omega
          · rw [r5]
            congr 2
            omega

theorem write_loop_requests {τ : Type} (nameSize : Nat) (header : rbd_obj_header_ondisk)
    (w : StoreWrite τ) (off bs : Nat) (buf : List Byte) :
    ∀ (n i total left : Nat) (st : τ) (log : List WriteCall),
      ∃ new : List WriteCall,
        (write_loop nameSize header (record_writes w) off bs buf n i total left
          (st, log)).1.2 = log ++ new ∧
        new.map WriteCall.req
          = (loop_requests nameSize header off bs buf n i total left).take new.length ∧
        ((∀ c ∈ new, ¬ c.ret < 0 ∧ toU64 c.ret = c.len) → new.length = n) := by
  intro n
  induction n with
  | zero =>
    intro i total left st log
    exact ⟨[], by simp [write_loop], by simp, fun _ => rfl⟩
  | succ n ih =>
    intro i total left st log
    rw [write_loop, loop_requests]
    generalize hwl : min (sub64 bs (get_block_ofs header (add64 off total))) left = write_len
    generalize hc : (⟨get_block_oid nameSize header i, (buf.drop total).take write_len,
      write_len, get_block_ofs header (add64 off total),
      (w st (get_block_oid nameSize header i) ((buf.drop total).take write_len) write_len
        (get_block_ofs header (add64 off total))).2⟩ : WriteCall) = c
    have hclen : c.len = write_len := by rw [← hc]
    have hreq : c.req = ⟨get_block_oid nameSize header i, (buf.drop total).take write_len,
        write_len, get_block_ofs header (add64 off total)⟩ := by rw [← hc]; rfl
    have hrec : record_writes w (st, log) (get_block_oid nameSize header i)
        ((buf.drop total).take write_len) write_len (get_block_ofs header (add64 off total))
        = (((w st (get_block_oid nameSize header i) ((buf.drop total).take write_len) write_len
            (get_block_ofs header (add64 off total))).1, log ++ [c]), c.ret) := by
      rw [← hc]
      rfl
    simp only [hrec]
    by_cases hneg : c.ret < 0
    · rw [if_pos hneg]
      refine ⟨[c], rfl, by simp [hreq], ?_⟩
      intro hall
      exact absurd hneg (hall c (List.mem_singleton.mpr rfl)).1
    · by_cases hshort : toU64 c.ret ≠ write_len
      · rw [if_neg hneg, if_pos hshort]
        refine ⟨[c], rfl, by simp [hreq], ?_⟩
        intro hall
        have := (hall c (List.mem_singleton.mpr rfl)).2
        rw [hclen] at this
        exact absurd this hshort
      · rw [if_neg hneg, if_neg hshort]
        obtain ⟨new, hlog, hmap, hfull⟩ := ih (i + 1) (add64 total write_len)
          (sub64 left write_len)
          (w st (get_block_oid nameSize header i) ((buf.drop total).take write_len) write_len
            (get_block_ofs header (add64 off total))).1 (log ++ [c])
        refine ⟨c :: new, ?_, ?_, ?_⟩
        · rw [hlog]
          simp
        · simp only [List.map_cons, List.length_cons, List.take_succ_cons, hreq, hmap]
        · intro hall
          have := hfull (fun c1 hc1 => hall c1 (List.mem_cons_of_mem _ hc1))
          simp only [List.length_cons, this]

theorem aio_write_loop_requests (nameSize : Nat) (header : rbd_obj_header_ondisk)
    (submit : String → List Byte → Nat → Nat → Int) (off len bs : Nat) (buf : List Byte) :
    ∀ (n i total left : Nat) (c : Option AioCompletion) (subs : List SubOp),
      ∃ new : List SubOp,
        (aio_write_loop nameSize header submit off len bs buf n i total left c subs).2.1
          = subs ++ new ∧
        new.map SubOp.req
          = (loop_requests nameSize header off bs buf n i total left).take new.length ∧
        ((∀ s ∈ new, ¬ s.r < 0) → new.length = n) := by
  intro n
  induction n with
  | zero =>
    intro i total left c subs
    exact ⟨[], by simp [aio_write_loop], by simp, fun _ => rfl⟩
  | succ n ih =>
    intro i total left c subs
    rw [aio_write_loop, loop_requests]
    generalize hwl : min (sub64 bs (get_block_ofs header (add64 off total))) left = write_len
    generalize hs : (⟨⟨off, len, none, [], []⟩, get_block_oid nameSize header i,
      (buf.drop total).take write_len, write_len, get_block_ofs header (add64 off total),
      submit (get_block_oid nameSize header i) ((buf.drop total).take write_len) write_len
        (get_block_ofs header (add64 off total))⟩ : SubOp) = s
    have hr : s.r = submit (get_block_oid nameSize header i) ((buf.drop total).take write_len)
        write_len (get_block_ofs header (add64 off total)) := by rw [← hs]
    have hreq : s.req = ⟨get_block_oid nameSize header i, (buf.drop total).take write_len,
        write_len, get_block_ofs header (add64 off total)⟩ := by rw [← hs]; rfl
    simp only [← hr]
    by_cases hneg : s.r < 0
    · rw [if_pos hneg]
      refine ⟨[s], rfl, by simp [hreq], ?_⟩
      intro hall
      exact absurd hneg (hall s (List.mem_singleton.mpr rfl))
    · rw [if_neg hneg]
      obtain ⟨new, hlog, hmap, hfull⟩ := ih (i + 1) (add64 total write_len)
        (sub64 left write_len) (c.bind AioCompletion.add_block_completion) (subs ++ [s])
      refine ⟨s :: new, ?_, ?_, ?_⟩
      · rw [hlog]
        simp
      · simp only [List.map_cons, List.length_cons, List.take_succ_cons, hreq, hmap]
      · intro hall
        have := hfull (fun s1 hs1 => hall s1 (List.mem_cons_of_mem _ hs1))
        simp only [List.length_cons, this]

theorem blockSlices_of_take (nameSize : Nat) (header : rbd_obj_header_ondisk) (off : Nat)
    (buf : List Byte) (slices reqs : List BlockReq)
    (hreq : reqs = slices.take reqs.length)
    (hs : ∀ (k : Nat) (q : BlockReq), slices[k]? = some q →
      q.oid = get_block_oid nameSize header (get_block_num header off + k) ∧
      (get_block_num header off + k) * 2 ^ header.order + q.off
        = off + 0 + lens_before slices k ∧
      1 ≤ q.len ∧ q.off + q.len ≤ 2 ^ header.order ∧
      q.bl = (buf.drop (0 + lens_before slices k)).take q.len) :
    BlockSlices nameSize header off buf reqs := by
  intro k hk
  have h2 : (slices.take reqs.length)[k]? = slices[k]? := List.getElem?_take_of_lt hk
  have h4 : reqs[k]? = slices[k]? := by
    conv_lhs => rw [hreq]
    exact h2
  have h1 : slices[k]? = some reqs[k] := by
    rw [← h4]
    exact List.getElem?_eq_getElem hk
  have h3 : lens_before reqs k = lens_before slices k := by
    unfold lens_before
    conv_lhs => rw [hreq]
    rw [List.take_take, Nat.min_eq_left (Nat.le_of_lt hk)]
  obtain ⟨a1, a2, a3, a4, a5⟩ := hs k reqs[k] h1
  rw [h3]
  simp only [Nat.add_zero, Nat.zero_add] at a2 a5
  exact ⟨a1, a2, a3, a4, a5⟩

theorem lens_before_length (reqs : List BlockReq) :
    lens_before reqs reqs.length = (reqs.map (fun q => q.len)).sum := by
  unfold lens_before
  rw [List.take_length]

theorem initial_block_count (off len bs : Nat) (hlen : 0 < len) :
    (off + 0 + len - 1) / bs + 1 = off / bs + ((off + len - 1) / bs + 1 - off / bs) := by
  have h : off / bs ≤ (off + len - 1) / bs := Nat.div_le_div_right (by omega)
  simp only [Nat.add_zero]
  omega

theorem write_calls_eq_loop {τ : Type} (nameSize : Nat) (header : rbd_obj_header_ondisk)
    (ictx_check_r : Int) (w : StoreWrite τ) (off len : Nat) (buf : List Byte) (st : τ)
    (hsz : header.image_size < TWO64) (hchk : 0 ≤ ictx_check_r) (hlen : 0 < len)
    (hle : off + len ≤ header.image_size) :
    write_calls nameSize header ictx_check_r w off len buf st
      = (write_loop nameSize header (record_writes w) off (get_block_size header) buf
          ((off + len - 1) / 2 ^ header.order + 1 - off / 2 ^ header.order)
          (off / 2 ^ header.order) 0 len (st, [])).1.2 := by
  have ha : add64 off len = off + len := add64_of_lt (by omega)
  have hs : sub64 (off + len) 1 = off + len - 1 := sub64_of_le (by omega) (by omega)
  have hio : ¬ check_io header off len < 0 := by
    unfold check_io
    simp only [ha]
    rw [if_neg (by omega)]
    omega
  unfold write_calls write
  rw [if_neg (by omega), if_neg (by omega), if_neg hio]
  simp only [ha, hs, get_block_num_eq_div]

theorem aio_write_subs_eq_loop (nameSize : Nat) (header : rbd_obj_header_ondisk)
    (ictx_check_r : Int) (submit : String → List Byte → Nat → Nat → Int) (off len : Nat)
    (buf : List Byte) (c : AioCompletion)
    (hsz : header.image_size < TWO64) (hchk : 0 ≤ ictx_check_r) (hlen : 0 < len)
    (hle : off + len ≤ header.image_size) :
    (aio_write nameSize header ictx_check_r submit off len buf c).2.1
      = (aio_write_loop nameSize header submit off len (get_block_size header) buf
          ((off + len - 1) / 2 ^ header.order + 1 - off / 2 ^ header.order)
          (off / 2 ^ header.order) 0 len c.get []).2.1 := by
  have ha : add64 off len = off + len := add64_of_lt (by omega)
  have hs : sub64 (off + len) 1 = off + len - 1 := sub64_of_le (by omega) (by omega)
  have hio : ¬ check_io header off len < 0 := by
    unfold check_io
    simp only [ha]
    rw [if_neg (by omega)]
    omega
  unfold aio_write
  rw [if_neg (by omega), if_neg (by omega)]
  simp only
  rw [if_neg hio]
  simp only [ha, hs, get_block_num_eq_div]

theorem rollback_image_loop_all_ok {τ : Type} (nameSize : Nat)
    (header : rbd_obj_header_ondisk) (rb : StoreRollback τ) (snapid : Nat)
    (hrb : ∀ st oid sn, (rb st oid sn).2 = 0) :
    ∀ (n i : Nat) (st : τ) (log : List RollbackCall),
      (rollback_image_loop nameSize header (record_rollbacks rb) snapid n i (st, log)).1.2
        = log ++ (List.range n).map
            (fun k => (⟨get_block_oid nameSize header (i + k), snapid, 0⟩ : RollbackCall)) := by
  intro n
  induction n with
  | zero =>
    intro i st log
    simp [rollback_image_loop]
  | succ n ih =>
    intro i st log
    rw [rollback_image_loop]
    have hrec : record_rollbacks rb (st, log) (get_block_oid nameSize header i) snapid
        = (((rb st (get_block_oid nameSize header i) snapid).1,
            log ++ [⟨get_block_oid nameSize header i, snapid, 0⟩]), 0) := by
      simp only [record_rollbacks, hrb]
    simp only [hrec]
    rw [if_neg (by omega), ih, List.range_succ_eq_map, List.map_cons, List.map_map,
      List.append_assoc]
    congr 1
    simp only [Nat.add_zero, List.singleton_append, List.cons.injEq, true_and]
    apply List.map_congr_left
    intro k _
    simp only [Function.comp]
    congr 2
    omega

theorem rollback_calls_all_ok {τ : Type} (nameSize : Nat) (ictx : ImageCtx)
    (rb : StoreRollback τ) (snapid : Nat) (st : τ) (hrb : ∀ s oid sn, (rb s oid sn).2 = 0) :
    rollback_calls nameSize ictx rb snapid st
      = (List.range (get_max_block ictx.header)).map
          (fun k => (⟨get_block_oid nameSize ictx.header (0 + k), snapid, 0⟩ : RollbackCall)) := by
  unfold rollback_calls rollback_image
  exact (rollback_image_loop_all_ok nameSize ictx.header rb snapid hrb
    (get_max_block ictx.header) 0 st []).trans (List.nil_append _)

/-! ## The claims -/

/-- C1 (the code at the failing input): block size 4, image size 8. Writing
4 bytes at offset 2 succeeds and fills two block objects. Reading them back
makes `handle_sparse_read`, for the second block, ask the sink for a zero-fill
of `2 ^ 64 - 2` bytes at offset 4, past the end of the caller's 4 byte buffer:
the read does not leave the written bytes in the buffer. -/
theorem C1_round_trip_two_blocks :
    write 24 (mkHeader "rb.0.0" 8 2) 0 store_write 2 4 [1, 2, 3, 4] []
      = ([("rb.0.0.000000000001", [3, 4]), ("rb.0.0.000000000000", [0, 0, 1, 2])], 4) ∧
    read_iterate_calls 24 (mkHeader "rb.0.0" 8 2) 0
      (store_sparse_read
        (write 24 (mkHeader "rb.0.0" 8 2) 0 store_write 2 4 [1, 2, 3, 4] []).1)
      2 4 null_cb ()
      = [⟨0, 2, some [1, 2]⟩, ⟨2, 2, some [3, 4]⟩, ⟨4, 18446744073709551614, none⟩] ∧
    read 24 (mkHeader "rb.0.0" 8 2) 0
      (store_sparse_read
        (write 24 (mkHeader "rb.0.0" 8 2) 0 store_write 2 4 [1, 2, 3, 4] []).1)
      2 4 [0, 0, 0, 0] = (none, 4) := by
  decide

/-- C2 (amended): when `handle_sparse_read` is called with `buf_ofs = 0`, an extent map
whose extents are sorted, disjoint and inside `[block_ofs, block_ofs + buf_len)`,
and a sink that never returns a negative value, the ranges handed to the sink
are increasing and non-overlapping (each ends at or before the start of every
later one), none reaches past `buf_len`, and every byte position of
`[0, buf_len)` lies in exactly one of them; when no extent is empty the offsets
are strictly increasing. -/
theorem C2_sparse_read_ranges_cover_once {σ : Type} (data_bl : List Byte)
    (block_ofs buf_len : Nat) (data_map : List (Nat × Nat)) (cb : Sink σ) (arg : σ)
    (hmap : ExtentsWithin block_ofs (block_ofs + buf_len) data_map)
    (hrange : block_ofs + buf_len < TWO64)
    (hcb : ∀ s o l d, 0 ≤ (cb s o l d).2) :
    ((sparse_read_calls data_bl block_ofs data_map buf_len cb arg).map Emit.range).Pairwise
        (fun x y => x.1 + x.2 ≤ y.1) ∧
    (∀ r ∈ (sparse_read_calls data_bl block_ofs data_map buf_len cb arg).map Emit.range,
        r.1 + r.2 ≤ buf_len) ∧
    (∀ p, p < buf_len →
        ((sparse_read_calls data_bl block_ofs data_map buf_len cb arg).map Emit.range).countP
          (inRange p) = 1) ∧
    ((∀ e ∈ data_map, 0 < e.2) →
      ((sparse_read_calls data_bl block_ofs data_map buf_len cb arg).map Emit.range).Pairwise
        (fun x y => x.1 < y.1)) := by
  have hlen : buf_len < TWO64 := by omega
  have heq := handle_sparse_read_loop_eq data_bl buf_len (record cb) (record_nonneg cb hcb)
    (block_ofs + buf_len) hrange hlen data_map block_ofs 0 0 (arg, []) hmap (by omega)
    (Nat.le_refl 0)
  have hcalls : sparse_read_calls data_bl block_ofs data_map buf_len cb arg
      = reconstruction data_bl buf_len data_map block_ofs 0 0 := by
    unfold sparse_read_calls handle_sparse_read
    rw [heq, feed_record]
    simp
  have ht := reconstruction_tiles data_bl buf_len (block_ofs + buf_len) data_map block_ofs 0 0
    hmap (by omega)
  rw [hcalls]
  refine ⟨tiles_pairwise _ _ _ ht, ?_, ?_, ?_⟩
  · intro r hr
    exact ((tiles_bounds _ _ _ ht).2 r hr).2
  · intro p hp
    rw [tiles_count _ _ _ ht p]
    simp [hp]
  · intro hpos
    exact tiles_strict _ _ _ ht (reconstruction_pos data_bl buf_len data_map block_ofs 0 0 hpos)

/-- C2 (amended) at the specification's example: extents `[(2, 3)]` over
`buf_len = 10`. -/
theorem C2_witness :
    ExtentsWithin 0 (0 + 10) [(2, 3)] ∧ 0 + 10 < TWO64 ∧
    (∀ (s : Unit) (o l : Nat) (d : Option (List Byte)), 0 ≤ (null_cb s o l d).2) ∧
    (∀ e ∈ [((2 : Nat), (3 : Nat))], 0 < e.2) ∧
    ((sparse_read_calls [65, 66, 67] 0 [(2, 3)] 10 null_cb ()).map Emit.range).Pairwise
        (fun x y => x.1 + x.2 ≤ y.1) ∧
    (∀ r ∈ (sparse_read_calls [65, 66, 67] 0 [(2, 3)] 10 null_cb ()).map Emit.range,
        r.1 + r.2 ≤ 10) ∧
    (∀ p, p < 10 →
        ((sparse_read_calls [65, 66, 67] 0 [(2, 3)] 10 null_cb ()).map Emit.range).countP
          (inRange p) = 1) ∧
    ((sparse_read_calls [65, 66, 67] 0 [(2, 3)] 10 null_cb ()).map Emit.range).Pairwise
        (fun x y => x.1 < y.1) :=
  have h := C2_sparse_read_ranges_cover_once [65, 66, 67] 0 10 [(2, 3)] null_cb () (by decide)
    (by decide) (fun _ _ _ _ => Int.le_refl 0)
  ⟨by decide, by decide, fun _ _ _ _ => Int.le_refl 0, by decide,
    h.1, h.2.1, h.2.2.1, h.2.2.2 (by decide)⟩

/-- Called with `buf_ofs = 0`, well-formed extents and a sink that never
returns a negative value, `handle_sparse_read` makes exactly the sink calls of
the specification's reconstruction, in that order (for each extent a zero-fill
for a non-empty gap, then the extent's bytes from the running blob offset, and a
final zero-fill for what remains up to `buf_len`), leaves the sink in the state
those calls produce, and returns `buf_len`. -/
theorem handle_sparse_read_reconstruction_at_zero {σ : Type} (data_bl : List Byte)
    (block_ofs buf_len : Nat) (data_map : List (Nat × Nat)) (cb : Sink σ) (arg : σ)
    (hmap : ExtentsWithin block_ofs (block_ofs + buf_len) data_map)
    (hrange : block_ofs + buf_len < TWO64)
    (hlen : buf_len < 9223372036854775808)
    (hcb : ∀ s o l d, 0 ≤ (cb s o l d).2) :
    handle_sparse_read data_bl block_ofs data_map 0 buf_len (record cb) (arg, []) =
      ((feed cb arg (reconstruction data_bl buf_len data_map block_ofs 0 0),
        reconstruction data_bl buf_len data_map block_ofs 0 0), (buf_len : Int)) := by
  have hlen2 : buf_len < TWO64 := by omega
  have heq := handle_sparse_read_loop_eq data_bl buf_len (record cb) (record_nonneg cb hcb)
    (block_ofs + buf_len) hrange hlen2 data_map block_ofs 0 0 (arg, []) hmap (by omega)
    (Nat.le_refl 0)
  unfold handle_sparse_read
  rw [heq, feed_record, toInt64_of_lt hlen]
  simp

/-- C4 (the code at the failing input): with order 31 the block size `1 << 31`
is an `int` shift, `INT_MIN`, which becomes `0xFFFFFFFF80000000` as `uint64_t`.
For byte offset `2 ^ 32` of an image of `2 ^ 33` bytes, `get_block_num` is 2 and
`get_block_ofs` is `2 ^ 32`, so block number times `2 ^ 31` plus block offset is
`2 ^ 33` and not the offset. -/
theorem C4_block_split_order_31 :
    get_block_size (mkHeader "rb.0.0" 8589934592 31) = 18446744071562067968 ∧
    get_block_num (mkHeader "rb.0.0" 8589934592 31) 4294967296 = 2 ∧
    get_block_ofs (mkHeader "rb.0.0" 8589934592 31) 4294967296 = 4294967296 ∧
    get_block_num (mkHeader "rb.0.0" 8589934592 31) 4294967296 * 2 ^ 31
      + get_block_ofs (mkHeader "rb.0.0" 8589934592 31) 4294967296 ≠ 4294967296 := by
  decide

/-- C5 (the code at the failing input): for an image of `2 ^ 64 - 1` bytes and
order 22 the sum `size + block_size - 1` wraps around and `get_max_block`
returns 0, while `ceil(size / 2 ^ 22)` is `2 ^ 42`. -/
theorem C5_max_block_wraps :
    get_max_block (mkHeader "rb.0.0" 18446744073709551615 22) = 0 ∧
    (18446744073709551615 + 2 ^ 22 - 1) / 2 ^ 22 = 4398046511104 := by
  decide

/-- C6 (amended): when the block-name prefix leaves room for 14 more bytes in
the `RBD_MAX_BLOCK_NAME_SIZE` byte buffer and the block index is below `2 ^ 48`,
`get_block_oid` returns the prefix, then `.`, then exactly 12 lowercase
hexadecimal digits, zero-padded, whose value is the block index. -/
theorem C6_block_oid_of_short_prefix (nameSize : Nat) (header : rbd_obj_header_ondisk)
    (n : Nat) (hfit : header.block_name.length + 14 ≤ nameSize) (hn : n < 2 ^ 48) :
    ∃ digits : List Char,
      get_block_oid nameSize header n = header.block_name ++ "." ++ String.mk digits ∧
      digits.length = 12 ∧ (∀ c ∈ digits, isLowerHex c = true) ∧ hexValue digits = n := by
  obtain ⟨h1, h2, h3⟩ := fmt_012x_spec n hn
  refine ⟨(fmt_012x n).data, ?_, h1, h2, h3⟩
  unfold get_block_oid snprintf
  have hl : (header.block_name ++ "." ++ fmt_012x n).data.length ≤ nameSize - 1 := by
    simp only [String.data_append, List.length_append, h1]
    have h4 : header.block_name.data.length = header.block_name.length := rfl
    have h5 : (".": String).data.length = 1 := rfl
    rw [h4, h5]
    omega
  rw [List.take_of_length_le hl]

/-- C6 (amended) at the prefix `rb.0.0` of block-name id 0 and block index 255. -/
theorem C6_witness :
    (init_rbd_header 24 22 8 0 0).1.block_name.length + 14 ≤ 24 ∧ 255 < 2 ^ 48 ∧
    ∃ digits : List Char,
      get_block_oid 24 (init_rbd_header 24 22 8 0 0).1 255
        = (init_rbd_header 24 22 8 0 0).1.block_name ++ "." ++ String.mk digits ∧
      digits.length = 12 ∧ (∀ c ∈ digits, isLowerHex c = true) ∧ hexValue digits = 255 :=
  ⟨by decide, by decide,
    C6_block_oid_of_short_prefix 24 (init_rbd_header 24 22 8 0 0).1 255 (by decide) (by decide)⟩

/-- C6 (counterexample): for the prefix `rb.0.0` that `init_rbd_header` builds
for block-name id 0, block index `2 ^ 48` is written with 13 hexadecimal digits,
so the name is not the prefix, a dot and 12 digits; and with
`RBD_MAX_BLOCK_NAME_SIZE = 24` the prefix `rb.0.100000` built for block-name id
`2 ^ 20` leaves room for 11 digits only, so that blocks 0 and 1 get one name. -/
theorem C6_counterexample :
    (get_block_oid 24 (init_rbd_header 24 22 8 0 0).1 281474976710656 = "rb.0.0.1000000000000" ∧
      ¬ ∃ digits : List Char, digits.length = 12 ∧
        get_block_oid 24 (init_rbd_header 24 22 8 0 0).1 281474976710656
          = (init_rbd_header 24 22 8 0 0).1.block_name ++ "." ++ String.mk digits) ∧
    (get_block_oid 24 (init_rbd_header 24 22 8 0 1048576).1 1 = "rb.0.100000.00000000000" ∧
      get_block_oid 24 (init_rbd_header 24 22 8 0 1048576).1 0 = "rb.0.100000.00000000000") := by
  have h1 : get_block_oid 24 (init_rbd_header 24 22 8 0 0).1 281474976710656
      = "rb.0.0.1000000000000" := by decide
  have h2 : (init_rbd_header 24 22 8 0 0).1.block_name = "rb.0.0" := by decide
  refine ⟨⟨h1, ?_⟩, by decide, by decide⟩
  rintro ⟨digits, hlen, heq⟩
  rw [h1, h2] at heq
  have := congrArg String.length heq
  simp only [String.length_append, String.length_mk, hlen] at this
  revert this
  decide

/-- C7 (the code at the failing input): for `off = 2 ^ 64 - 1` and `len = 2` on
an image of 4 bytes the sum `off + len` wraps to 1 and `check_io` returns 0,
although the mathematical sum exceeds the image size. -/
theorem C7_check_io_wraps :
    check_io (mkHeader "rb.0.0" 4 22) 18446744073709551615 2 = 0 ∧
    18446744073709551615 + 2 > (mkHeader "rb.0.0" 4 22).image_size := by
  decide

/-- C8 (the code at the failing input): block size 4, image size 8, a sink that
always returns 0. With both block objects present `read_iterate(2, 4)` returns 4
but hands the sink the ranges `(0, 2)`, `(2, 2)` and `(4, 2 ^ 64 - 2)`. With
block 0 alone present `read_iterate(0, 4)`, a read of exactly the first block,
visits block 1 as well (NotFound), returns 4 and hands the sink `(0, 4)` and
`(4, 2 ^ 64 - 4)`. Neither list covers exactly `[0, 4)`. -/
theorem C8_read_iterate_ranges :
    read_iterate 24 (mkHeader "rb.0.0" 8 2) 0
      (store_sparse_read
        [("rb.0.0.000000000000", [1, 2, 3, 4]), ("rb.0.0.000000000001", [5, 6, 7, 8])])
      2 4 (record null_cb) ((), [])
      = (((), [⟨0, 2, some [3, 4]⟩, ⟨2, 2, some [5, 6]⟩, ⟨4, 18446744073709551614, none⟩]), 4) ∧
    read_iterate 24 (mkHeader "rb.0.0" 8 2) 0
      (store_sparse_read [("rb.0.0.000000000000", [1, 2, 3, 4])])
      0 4 (record null_cb) ((), [])
      = (((), [⟨0, 4, some [1, 2, 3, 4]⟩, ⟨4, 18446744073709551612, none⟩]), 4) ∧
    ¬ Tiles 0 4 [(0, 2), (2, 2), (4, 18446744073709551614)] ∧
    ¬ Tiles 0 4 [(0, 4), (4, 18446744073709551612)] := by
  decide

/-- C9 (the code at the failing input): block size 4, image size 8, block 0
present and block 1 missing. `read_iterate(2, 5)` asks block 1 for 3 bytes, gets
NotFound, and hands the sink a zero-fill of length 1 at offset 2 instead of
length 3; it returns 5, and `read` leaves the last two bytes of the caller's
buffer as they were. -/
theorem C9_not_found_zero_fill :
    store_sparse_read [("rb.0.0.000000000000", [1, 2, 3, 4])] "rb.0.0.000000000001" 3 0
      = ⟨- ENOENT, [], []⟩ ∧
    read_iterate 24 (mkHeader "rb.0.0" 8 2) 0
      (store_sparse_read [("rb.0.0.000000000000", [1, 2, 3, 4])])
      2 5 (record null_cb) ((), [])
      = (((), [⟨0, 2, some [3, 4]⟩, ⟨2, 1, none⟩]), 5) ∧
    read 24 (mkHeader "rb.0.0" 8 2) 0
      (store_sparse_read [("rb.0.0.000000000000", [1, 2, 3, 4])])
      2 5 [9, 9, 9, 9, 9] = (some [3, 4, 0, 9, 9], 5) := by
  decide

/-- C10: for `write(off, len, buf)`, against any store: (1) with `len > 0`,
`off + len <= image_size`, a successful `ictx_check`, an object order of at most
30 and `len` below `2 ^ 63`, if every store write returns exactly the length it
was asked to write then `write` returns `len` and the lengths written add up to
`len`; (2) a store write that returns a non-negative count below the requested
length makes `write` return `-EIO` and is the last store write; (3) a store
write that returns a negative value makes `write` return that value and is the
last store write. -/
theorem C10_write_result {τ : Type} (nameSize : Nat) (header : rbd_obj_header_ondisk)
    (ictx_check_r : Int) (w : StoreWrite τ) (off len : Nat) (buf : List Byte) (st : τ) :
    (header.order ≤ 30 → header.image_size < TWO64 → 0 ≤ ictx_check_r → 0 < len →
      len < 9223372036854775808 → off + len ≤ header.image_size →
      (∀ c ∈ write_calls nameSize header ictx_check_r w off len buf st, c.ret = (c.len : Int)) →
      write_result nameSize header ictx_check_r w off len buf st = (len : Int) ∧
      ((write_calls nameSize header ictx_check_r w off len buf st).map (fun c => c.len)).sum
        = len) ∧
    (∀ (k : Nat) (hk : k < (write_calls nameSize header ictx_check_r w off len buf st).length),
      0 ≤ (write_calls nameSize header ictx_check_r w off len buf st)[k].ret →
      (write_calls nameSize header ictx_check_r w off len buf st)[k].ret
        < ((write_calls nameSize header ictx_check_r w off len buf st)[k].len : Int) →
      write_result nameSize header ictx_check_r w off len buf st = - EIO ∧
      k + 1 = (write_calls nameSize header ictx_check_r w off len buf st).length) ∧
    (∀ (k : Nat) (hk : k < (write_calls nameSize header ictx_check_r w off len buf st).length),
      (write_calls nameSize header ictx_check_r w off len buf st)[k].ret < 0 →
      write_result nameSize header ictx_check_r w off len buf st
        = (write_calls nameSize header ictx_check_r w off len buf st)[k].ret ∧
      k + 1 = (write_calls nameSize header ictx_check_r w off len buf st).length) := by
  obtain ⟨hstops, hok⟩ := write_spec nameSize header ictx_check_r w off len buf st
  refine ⟨hok, ?_, ?_⟩
  · intro k hk h0 hlt
    refine (hstops k hk).2 h0 ?_
    intro heq
    have h1 : toU64 (write_calls nameSize header ictx_check_r w off len buf st)[k].ret
        ≤ ((write_calls nameSize header ictx_check_r w off len buf st)[k].ret).toNat := by
      unfold toU64
      omega
    omega
  · intro k hk hneg
    exact (hstops k hk).1 hneg

/-- C10 at block size 4, for 4 bytes written at offset 2 of an 8 byte image:
with a store that accepts everything `write` returns 4; with a store that
accepts one byte per write it returns `-EIO` after the first store write; with a
store whose writes fail with -28 it returns -28 after the first store write. -/
theorem C10_witness :
    (write_result 24 (mkHeader "rb.0.0" 8 2) 0 store_write 2 4 [1, 2, 3, 4] [] = 4 ∧
      ((write_calls 24 (mkHeader "rb.0.0" 8 2) 0 store_write 2 4 [1, 2, 3, 4] []).map
        (fun c => c.len)).sum = 4) ∧
    (write_result 24 (mkHeader "rb.0.0" 8 2) 0 (capped_write 1) 2 4 [1, 2, 3, 4] [] = - EIO ∧
      0 + 1 = (write_calls 24 (mkHeader "rb.0.0" 8 2) 0 (capped_write 1) 2 4 [1, 2, 3, 4]
        []).length) ∧
    (write_result 24 (mkHeader "rb.0.0" 8 2) 0 (failing_write (-28)) 2 4 [1, 2, 3, 4] []
        = (write_calls 24 (mkHeader "rb.0.0" 8 2) 0 (failing_write (-28)) 2 4 [1, 2, 3, 4]
          [])[0].ret ∧
      0 + 1 = (write_calls 24 (mkHeader "rb.0.0" 8 2) 0 (failing_write (-28)) 2 4 [1, 2, 3, 4]
        []).length) :=
  ⟨(C10_write_result 24 (mkHeader "rb.0.0" 8 2) 0 store_write 2 4 [1, 2, 3, 4] []).1
      (by decide) (by decide) (by decide) (by decide) (by decide) (by decide) (by decide),
    (C10_write_result 24 (mkHeader "rb.0.0" 8 2) 0 (capped_write 1) 2 4 [1, 2, 3, 4] []).2.1
      0 (by decide) (by decide) (by decide),
    (C10_write_result 24 (mkHeader "rb.0.0" 8 2) 0 (failing_write (-28)) 2 4 [1, 2, 3, 4]
      []).2.2 0 (by decide) (by decide)⟩

/-- C11: for every complete fan-out of `N` sub-ops (registrations, one
`finish_adding_completions` after the last registration, each `complete_block`
after its own registration, in any interleaving; fewer than `2 ^ 31 - 3`
sub-ops): no step fails; after any prefix of the steps `complete()` has run once
if the prefix holds `finish_adding_completions` and all `N` reports, and not at
all otherwise; the callback has run as often as `complete()` when there is one;
`done` is set exactly when `complete()` has run; and at the end, when every
reported count is non-negative and the counts add up to less than `2 ^ 63`,
`get_return_value` is their sum. -/
theorem C11_fanout_fires_once (N : Nat) (hB : N + 3 < 2147483648) (cb : Bool)
    (evs : List AioEvent) (hv : is_fanout N evs = true) :
    (∀ pre suf : List AioEvent, evs = pre ++ suf →
      ∃ c, aio_run (aio_create_completion cb) pre = some c ∧
        c.completes
          = (if AioEvent.finish ∈ pre ∧ (reported pre).length = N then 1 else 0) ∧
        c.cb_calls = (if cb = true then c.completes else 0) ∧
        c.done = decide (c.completes = 1)) ∧
    (∃ c, aio_run (aio_create_completion cb) evs = some c ∧ c.completes = 1 ∧
      c.done = true ∧ c.wait_for_complete = some 0 ∧
      ((∀ r ∈ reported evs, 0 ≤ r) → (reported evs).sum < 9223372036854775808 →
        c.get_return_value = (reported evs).sum)) := by
  unfold is_fanout at hv
  cases hrun : proto_run N Proto.start evs with
  | none => simp [hrun] at hv
  | some q =>
    simp only [hrun, decide_eq_true_eq] at hv
    obtain ⟨qa, qr, qf, qk⟩ := hv
    have hfacts := proto_run_facts N evs Proto.start q hrun
    refine ⟨?_, ?_⟩
    · intro pre suf hsplit
      subst hsplit
      obtain ⟨m, hm1, hm2⟩ := proto_run_append N pre suf Proto.start q hrun
      obtain ⟨s1, s2⟩ := proto_run_sim N hB cb pre Proto.start m (proto_start_wf N) hm1
      obtain ⟨f1, _, f3, _⟩ := proto_run_facts N pre Proto.start m hm1
      obtain ⟨_, _, _, g4⟩ := proto_run_facts N suf m q hm2
      rw [proto_state_start] at s1
      refine ⟨proto_state cb m, s1, ?_, ?_, ?_⟩
      · have hrep : m.reports = reported pre := by simpa [Proto.start] using f3
        have hfin : m.fin = decide (AioEvent.finish ∈ pre) := by simpa [Proto.start] using f1
        simp only [proto_state]
        by_cases hf : AioEvent.finish ∈ pre
        · have hmf : m.fin = true := by simp [hfin, hf]
          have hma : m.adds = N := by rw [← g4 hmf]; exact qa
          simp [hmf, hma, hrep, hf, eq_comm]
        · have hmf : m.fin = false := by simp [hfin, hf]
          simp [hmf, hf]
      · cases cb <;> simp [proto_state]
      · simp only [proto_state]
        by_cases hc : m.fin = true ∧ m.adds = m.reports.length
        · simp [hc]
        · simp [hc]
    · obtain ⟨s1, s2⟩ := proto_run_sim N hB cb evs Proto.start q (proto_start_wf N) hrun
      rw [proto_state_start] at s1
      have hrep : q.reports = reported evs := by simpa [Proto.start] using hfacts.2.2.1
      refine ⟨proto_state cb q, s1, ?_, ?_, ?_, ?_⟩
      · simp [proto_state, qf, qa, qk]
      · simp [proto_state, qf, qa, qk]
      · simp [AioCompletion.wait_for_complete, proto_state, qf, qa, qk]
      · intro hall hsum
        simp only [AioCompletion.get_return_value, proto_state, hrep]
        rw [foldl_rval_sum (reported evs) 0 (le_refl 0) hall (by omega)]
        simp

/-- C11 at two sub-ops whose first report arrives between the registrations and
whose second report arrives after `finish_adding_completions`. -/
theorem C11_witness :
    2 + 3 < 2147483648 ∧
    is_fanout 2 [.add_pending, .add_get, .report 4, .add_pending, .add_get, .finish,
      .report 3] = true ∧
    (∃ c, aio_run (aio_create_completion true)
        [.add_pending, .add_get, .report 4, .add_pending, .add_get, .finish, .report 3]
          = some c ∧ c.completes = 1 ∧
      c.done = true ∧ c.wait_for_complete = some 0 ∧ c.get_return_value = 7) :=
  ⟨by decide, by decide,
    match (C11_fanout_fires_once 2 (by decide) true
      [.add_pending, .add_get, .report 4, .add_pending, .add_get, .finish, .report 3]
      (by decide)).2 with
    | ⟨c, h1, h2, h3, h4, h5⟩ =>
      ⟨c, h1, h2, h3, h4, (h5 (by decide) (by decide)).trans (by decide)⟩⟩

/-- C14: for every complete submission of `N` sub-ops (the loop's `get()`, the
registrations, `finish_adding_completions`, the loop's `put()`, one
`complete_block` per sub-op after its registration, one `release()` by the
caller after the loop's `get()`, in any interleaving; fewer than `2 ^ 31 - 3`
sub-ops): no step fails; after any prefix of the steps the object is deleted
exactly when its reference count is zero, the count is zero exactly when the
prefix is the whole sequence, and a zero count implies that the caller's release
and all `N` reports have happened. -/
theorem C14_refcount_zero_at_the_end (N : Nat) (hB : N + 3 < 2147483648) (cb : Bool)
    (evs : List AioEvent) (hv : is_submission N evs = true) :
    ∀ pre suf : List AioEvent, evs = pre ++ suf →
      ∃ c, aio_run (aio_create_completion cb) pre = some c ∧
        (c.deleted = true ↔ c.ref = 0) ∧ 0 ≤ c.ref ∧
        (c.ref = 0 ↔ suf = []) ∧
        (c.ref = 0 → AioEvent.release ∈ pre ∧ (reported pre).length = N) := by
  unfold is_submission at hv
  cases hrun : proto_run N Proto.start evs with
  | none => simp [hrun] at hv
  | some q =>
    simp only [hrun, decide_eq_true_eq] at hv
    obtain ⟨qa, qr, qf, qk, qlg, qlp, qrel⟩ := hv
    intro pre suf hsplit
    subst hsplit
    obtain ⟨m, hm1, hm2⟩ := proto_run_append N pre suf Proto.start q hrun
    obtain ⟨s1, hwf⟩ := proto_run_sim N hB cb pre Proto.start m (proto_start_wf N) hm1
    obtain ⟨_, f2, f3, _⟩ := proto_run_facts N pre Proto.start m hm1
    rw [proto_state_start] at s1
    have hrep : m.reports = reported pre := by simpa [Proto.start] using f3
    have hrel : m.rel = decide (AioEvent.release ∈ pre) := by simpa [Proto.start] using f2
    obtain ⟨w1, w2, w3, w4, w5, w6, w7⟩ := hwf
    have hzero : (proto_state cb m).ref = 0 ↔
        (m.rel = true ∧ m.lp = true ∧ m.regs = m.reports.length) := by
      simp only [proto_state]
      constructor
      · intro h0
        cases hr : m.rel <;> cases hl : m.lg <;> cases hp : m.lp <;>
          simp_all <;> omega
      · rintro ⟨a, b, c⟩
        have := (w6 b).2
        simp [a, b, c, this]
    refine ⟨proto_state cb m, s1, ?_, ?_, ?_, ?_⟩
    · rw [hzero]
      simp only [proto_state, decide_eq_true_eq]
      constructor
      · rintro ⟨a, b, c⟩
        refine ⟨a, ?_, c⟩
        have := w7 a
        cases hp : m.lp
        · exact absurd ⟨this, hp⟩ b
        · rfl
      · rintro ⟨a, b, c⟩
        exact ⟨a, by simp [b], c⟩
    · simp only [proto_state]
      cases hr : m.rel <;> cases hl : m.lg <;> cases hp : m.lp <;> simp <;> omega
    · rw [hzero]
      constructor
      · rintro ⟨a, b, c⟩
        cases suf with
        | nil => rfl
        | cons e rest =>
          exfalso
          have hst := proto_stuck N m ⟨w1, w2, w3, w4, w5, w6, w7⟩ a b c e
          simp [proto_run, hst] at hm2
      · intro hs
        subst hs
        simp only [proto_run, Option.some.injEq] at hm2
        subst hm2
        exact ⟨qrel, qlp, by omega⟩
    · rw [hzero]
      rintro ⟨a, b, c⟩
      have hfin := (w6 b).1
      obtain ⟨_, _, _, g4⟩ := proto_run_facts N suf m q hm2
      have hadds : m.adds = N := by rw [← g4 hfin]; exact qa
      have hregs := w5 hfin
      refine ⟨?_, ?_⟩
      · rw [hrel] at a
        simpa using a
      · rw [← hrep]
        omega

/-- C14 at one sub-op, with the caller's release before the sub-op's report:
after all six steps the reference count is zero and the object is deleted. -/
theorem C14_witness :
    1 + 3 < 2147483648 ∧
    is_submission 1 [.loop_get, .add_pending, .add_get, .finish, .loop_put, .release,
      .report 4] = true ∧
    ∃ c, aio_run (aio_create_completion false)
        ([AioEvent.loop_get, .add_pending, .add_get, .finish, .loop_put, .release, .report 4])
          = some c ∧
      (c.deleted = true ↔ c.ref = 0) ∧ 0 ≤ c.ref ∧
      (c.ref = 0 ↔ ([] : List AioEvent) = []) ∧
      (c.ref = 0 → AioEvent.release ∈ [AioEvent.loop_get, .add_pending, .add_get, .finish,
          .loop_put, .release, .report 4] ∧
        (reported [AioEvent.loop_get, .add_pending, .add_get, .finish, .loop_put, .release,
          .report 4]).length = 1) :=
  ⟨by decide, by decide,
    C14_refcount_zero_at_the_end 1 (by decide) false
      [.loop_get, .add_pending, .add_get, .finish, .loop_put, .release, .report 4] (by decide)
      [.loop_get, .add_pending, .add_get, .finish, .loop_put, .release, .report 4] []
      (by simp)⟩

/-- C13 (the code at the failing input): `aio_write` with `len = 0` on a fresh
completion returns 0 at its first test and leaves the completion untouched:
`pending_count` is still 1, `done` is false, the callback has not run and
`wait_for_complete` does not return. `aio_read` with `len = 0` has no such
return: at a block boundary (offset 4, block size 4) its loop is empty and the
completion fires; inside a block (offset 2) it registers one zero-length sub-op
and has not fired when the call returns. -/
theorem C13_empty_aio_write_never_fires :
    aio_write 24 (mkHeader "rb.0.0" 8 2) 0 (fun _ _ _ _ => 0) 0 0 []
        (aio_create_completion true)
      = (some (aio_create_completion true), [], 0) ∧
    (aio_create_completion true).pending_count = 1 ∧
    (aio_create_completion true).done = false ∧
    (aio_create_completion true).cb_calls = 0 ∧
    (aio_create_completion true).wait_for_complete = none ∧
    aio_read 24 (mkHeader "rb.0.0" 8 2) 0 (fun _ _ _ => 0) 4 0 (aio_create_completion true)
      = (some { aio_create_completion true with
          done := true, pending_count := 0, completes := 1, cb_calls := 1 }, [], 0) ∧
    aio_read 24 (mkHeader "rb.0.0" 8 2) 0 (fun _ _ _ => 0) 2 0 (aio_create_completion true)
      = (some { aio_create_completion true with pending_count := 1, ref := 2 },
          [⟨⟨2, 0, some 0, [], []⟩, "rb.0.0.000000000000", [], 0, 2, 0⟩], 0) := by
  decide

/-- C15 (the code at the failing input): on a refreshed context whose cache
holds only snapshot `A`, `ImageCtx::snap_set("B")` returns `-ENOENT`, but the
function `snap_set(ictx, "B")` drops that value: it returns 0 and leaves head
selected. With the cached name `A` it selects id 1 and returns 0; with a null
name it selects head and returns 0. -/
theorem C15_snap_set_unknown_name :
    (sample_ctx.snap_set "B").2 = - ENOENT ∧
    snap_set snapc_is_valid sample_md_no_snaps sample_ctx (some "B") = (sample_ctx, 0) ∧
    sample_ctx.snapid = CEPH_NOSNAP ∧
    snap_set snapc_is_valid sample_md_no_snaps sample_ctx (some "A")
      = (sample_ctx_pinned, 0) ∧
    snap_set snapc_is_valid sample_md_no_snaps sample_ctx_pinned none
      = ({ sample_ctx with data_read_snap := CEPH_NOSNAP }, 0) := by
  decide

/-- When a pinned snapshot is found gone by a refresh (staleness
flag set, reads successful, snapshot context valid, pinned name not in the new
list), `ictx_check` returns `-ENOENT`, and after it the selector is head
(`snapid = CEPH_NOSNAP`, empty name), the staleness flag is still set and the
data session's read pin is what it was; the next `ictx_check`, when its refresh
succeeds, returns 0 with head selected and clears the flag. -/
theorem ictx_check_snapshot_gone_state (is_valid : Nat → List Nat → Bool)
    (md md2 : MdReply) (ictx : ImageCtx)
    (hstale : ictx.needs_refresh = true) (hpin : ictx.snapid ≠ CEPH_NOSNAP)
    (hh : 0 ≤ md.header_r) (hs : md.header_short = false) (hl : 0 ≤ md.list_r)
    (hv : is_valid md.seq (md.snaps.map (fun e => e.1)) = true)
    (hgone : ictx.snapname ∉ md.snaps.map (fun e => e.2.2))
    (hh2 : 0 ≤ md2.header_r) (hs2 : md2.header_short = false) (hl2 : 0 ≤ md2.list_r)
    (hv2 : is_valid md2.seq (md2.snaps.map (fun e => e.1)) = true) :
    (ictx_check is_valid md ictx).2 = - ENOENT ∧
    (ictx_check is_valid md ictx).1.snapid = CEPH_NOSNAP ∧
    (ictx_check is_valid md ictx).1.snapname = "" ∧
    (ictx_check is_valid md ictx).1.needs_refresh = true ∧
    (ictx_check is_valid md ictx).1.data_read_snap = ictx.data_read_snap ∧
    (ictx_check is_valid md2 (ictx_check is_valid md ictx).1).2 = 0 ∧
    (ictx_check is_valid md2 (ictx_check is_valid md ictx).1).1.snapid = CEPH_NOSNAP ∧
    (ictx_check is_valid md2 (ictx_check is_valid md ictx).1).1.needs_refresh = false := by
  obtain ⟨r1, r2, r3, r4, r5, _⟩ := ictx_refresh_snap_gone is_valid md ictx ictx.snapname
    hh hs hl hv hgone
  have e2 : ENOENT = 2 := rfl
  have hchk : ictx_check is_valid md ictx
      = ictx_refresh is_valid md ictx (some ictx.snapname) := by
    unfold ictx_check
    simp only [hstale, if_true, hpin, ne_eq, not_false_eq_true, r1]
    rw [if_pos (by omega)]
  rw [hchk]
  obtain ⟨n1, n2, n3, n4, n5⟩ := ictx_refresh_no_name is_valid md2
    (ictx_refresh is_valid md ictx (some ictx.snapname)).1 hh2 hs2 hl2 hv2
  have hchk2 : ictx_check is_valid md2 (ictx_refresh is_valid md ictx (some ictx.snapname)).1
      = ictx_refresh is_valid md2 (ictx_refresh is_valid md ictx (some ictx.snapname)).1
          none := by
    unfold ictx_check
    simp only [r4, hstale, if_true, r2, ne_eq, not_true_eq_false, if_false, n1, lt_irrefl]
    exact Prod.ext rfl n1.symm
  rw [hchk2]
  exact ⟨r1, r2, r3, r4.trans hstale, r5, n1, n2.trans r2, n4⟩

/-- Source function `rollback_image`, on a context whose object order is at most 30 and
whose size does not make the block count wrap, calls the per-object rollback
for the block objects 0, 1, 2, ... in that order, each with the snapshot id, and
at most `ceil(size / 2 ^ order)` times; a call that returns a negative value
other than `-ENOENT` is the last call and its value is what `rollback_image`
returns; when no call returns such a value (NotFound included among the
harmless ones) every one of the `ceil(size / 2 ^ order)` blocks is called and
`rollback_image` returns 0; and `snap_rollback`, when its `ictx_check` succeeds
with this context and the snapshot name is known, returns a negative result of
`rollback_image` unchanged. -/
theorem rollback_image_first_error_of_le {τ : Type} (nameSize : Nat) (ictx : ImageCtx)
    (rb : StoreRollback τ) (snapid : Nat) (st : τ)
    (ho : ictx.header.order ≤ 30)
    (hs : ictx.header.image_size + 2 ^ ictx.header.order - 1 < TWO64) :
    (rollback_calls nameSize ictx rb snapid st).length
      ≤ (ictx.header.image_size + 2 ^ ictx.header.order - 1) / 2 ^ ictx.header.order ∧
    (∀ (k : Nat) (hk : k < (rollback_calls nameSize ictx rb snapid st).length),
      (rollback_calls nameSize ictx rb snapid st)[k].oid
        = get_block_oid nameSize ictx.header k ∧
      (rollback_calls nameSize ictx rb snapid st)[k].snapid = snapid ∧
      ((rollback_calls nameSize ictx rb snapid st)[k].ret < 0 →
        (rollback_calls nameSize ictx rb snapid st)[k].ret ≠ - ENOENT →
        (rollback_image nameSize ictx rb snapid st).2
          = (rollback_calls nameSize ictx rb snapid st)[k].ret ∧
        k + 1 = (rollback_calls nameSize ictx rb snapid st).length)) ∧
    ((∀ c ∈ rollback_calls nameSize ictx rb snapid st, c.ret < 0 → c.ret = - ENOENT) →
      (rollback_image nameSize ictx rb snapid st).2 = 0 ∧
      (rollback_calls nameSize ictx rb snapid st).length
        = (ictx.header.image_size + 2 ^ ictx.header.order - 1) / 2 ^ ictx.header.order) ∧
    (∀ (is_valid : Nat → List Nat → Bool) (md md2 : MdReply) (ictx0 : ImageCtx)
      (snap_name : String),
      (ictx_check is_valid md ictx0).1 = ictx → 0 ≤ (ictx_check is_valid md ictx0).2 →
      ictx.get_snapid snap_name = snapid → snapid ≠ CEPH_NOSNAP →
      (rollback_image nameSize ictx rb snapid st).2 < 0 →
      (snap_rollback nameSize is_valid md md2 rb ictx0 snap_name st).2.2
        = (rollback_image nameSize ictx rb snapid st).2) := by
  have hmax := get_max_block_of_le ictx.header ho hs
  obtain ⟨new, hlog, hlen, hcalls, hok⟩ := rollback_image_loop_spec nameSize ictx.header rb
    snapid (get_max_block ictx.header) 0 st []
  have hres := (rollback_image_loop_record nameSize ictx.header rb snapid
    (get_max_block ictx.header) 0 st []).2
  have hc : rollback_calls nameSize ictx rb snapid st = new := by
    unfold rollback_calls rollback_image
    simpa using hlog
  have hr : (rollback_image nameSize ictx rb snapid st).2
      = (rollback_image_loop nameSize ictx.header (record_rollbacks rb) snapid
          (get_max_block ictx.header) 0 (st, [])).2 := by
    unfold rollback_image
    exact hres.symm
  rw [hc, hr, ← hmax]
  refine ⟨hlen, ?_, hok, ?_⟩
  · intro k hk
    have := hcalls k hk
    rw [Nat.zero_add] at this
    exact this
  · intro is_valid md md2 ictx0 snap_name h1 h2 h3 h4 h5
    rw [← hr] at h5 ⊢
    unfold snap_rollback
    simp only
    rw [if_neg (by omega), h1, h3, if_neg h4, if_pos h5]

/-- When `ictx_check` succeeds, the object order is at most 30, the old
size does not make the block count wrap and `size` is smaller than the old
size, `resize` asks the data session to remove the block object of every index
from `ceil(size / 2 ^ order)` up to, and not including,
`ceil(old size / 2 ^ order)`; and with a store whose `remove` removes the object
it is given, no object with a block index of at least `ceil(size / 2 ^ order)`
is in the store afterwards, provided none was there at or above the old block
count before. -/
theorem shrink_removes_blocks_of_le {τ : Type} (nameSize : Nat)
    (is_valid : Nat → List Nat → Bool) (md : MdReply) (rm : StoreRemove τ) (write_r : Int)
    (ictx : ImageCtx) (size : Nat) (st : τ)
    (hchk : 0 ≤ (ictx_check is_valid md ictx).2)
    (ho : (ictx_check is_valid md ictx).1.header.order ≤ 30)
    (hs : (ictx_check is_valid md ictx).1.header.image_size
      + 2 ^ (ictx_check is_valid md ictx).1.header.order - 1 < TWO64)
    (hlt : size < (ictx_check is_valid md ictx).1.header.image_size) :
    (∀ i : Nat,
      (size + 2 ^ (ictx_check is_valid md ictx).1.header.order - 1)
        / 2 ^ (ictx_check is_valid md ictx).1.header.order ≤ i →
      i < ((ictx_check is_valid md ictx).1.header.image_size
          + 2 ^ (ictx_check is_valid md ictx).1.header.order - 1)
        / 2 ^ (ictx_check is_valid md ictx).1.header.order →
      get_block_oid nameSize (ictx_check is_valid md ictx).1.header i
        ∈ resize_removes nameSize is_valid md rm write_r ictx size st) ∧
    (∀ (os : ObjectStore) (i : Nat),
      (size + 2 ^ (ictx_check is_valid md ictx).1.header.order - 1)
        / 2 ^ (ictx_check is_valid md ictx).1.header.order ≤ i →
      (i < ((ictx_check is_valid md ictx).1.header.image_size
            + 2 ^ (ictx_check is_valid md ictx).1.header.order - 1)
          / 2 ^ (ictx_check is_valid md ictx).1.header.order ∨
        List.lookup (get_block_oid nameSize (ictx_check is_valid md ictx).1.header i) os
          = none) →
      List.lookup (get_block_oid nameSize (ictx_check is_valid md ictx).1.header i)
        (resize nameSize is_valid md store_remove write_r ictx size os).2.1 = none) := by
  have hmax := get_max_block_of_le (ictx_check is_valid md ictx).1.header ho hs
  have hb : 0 < 2 ^ (ictx_check is_valid md ictx).1.header.order := Nat.two_pow_pos _
  constructor
  · intro i h1 h2
    obtain ⟨f1, f2⟩ := ceil_div_facts size _ _ i hb h1 h2
    unfold resize_removes
    rw [resize_shrink_store nameSize is_valid md (record_removes rm) write_r ictx size
      (st, []) hchk hlt]
    unfold trim_image
    simp only
    rw [trim_image_loop_spec, hmax, get_block_num_eq_div, List.nil_append, List.mem_map]
    refine ⟨i - size / 2 ^ (ictx_check is_valid md ictx).1.header.order,
      List.mem_range.mpr f2, ?_⟩
    congr 1
    omega
  · intro os i h1 h2
    rw [resize_shrink_store nameSize is_valid md store_remove write_r ictx size os hchk hlt]
    unfold trim_image
    simp only
    rw [hmax, get_block_num_eq_div]
    apply trim_image_loop_absent
    rcases h2 with h2 | h2
    · obtain ⟨f1, f2⟩ := ceil_div_facts size _ _ i hb h1 h2
      left
      refine ⟨i - size / 2 ^ (ictx_check is_valid md ictx).1.header.order, f2, ?_⟩
      congr 1
      omega
    · right
      exact h2

/-- C25 (the code at the failing input): on a header object of exactly
`READ_SIZE` (4096) bytes every read of `read_header_bl` is made at offset 0 and
returns 4096, so the loop has not returned after any number of iterations, and
the buffer holds the first 4096 bytes once per iteration. On an object of 3
bytes the first read is short and the function returns 0 with those bytes. -/
theorem C25_read_header_bl_never_returns :
    READ_SIZE = 4096 ∧
    (∀ fuel : Nat,
      (read_header_bl
        (cluster_io.read ⟨[("img.rbd", List.replicate READ_SIZE 1)], [], 0⟩)
        "img.rbd" fuel).2 = none ∧
      (read_header_bl
        (cluster_io.read ⟨[("img.rbd", List.replicate READ_SIZE 1)], [], 0⟩)
        "img.rbd" fuel).1.length = fuel * READ_SIZE) ∧
    read_header_bl (cluster_io.read ⟨[("img.rbd", [1, 1, 1])], [], 0⟩) "img.rbd" 1
      = ([1, 1, 1], some 0) := by
  refine ⟨rfl, ?_, by decide⟩
  intro fuel
  have hread : cluster_io.read ⟨[("img.rbd", List.replicate READ_SIZE 1)], [], 0⟩ "img.rbd"
      READ_SIZE 0 = ((READ_SIZE : Int), List.replicate READ_SIZE 1) := by
    have h := cluster_read_whole ⟨[("img.rbd", List.replicate READ_SIZE 1)], [], 0⟩ "img.rbd"
      (List.replicate READ_SIZE 1) READ_SIZE rfl (by rw [List.length_replicate])
    rw [List.length_replicate] at h
    exact h
  have h := read_header_bl_loop_stuck _ "img.rbd" _ hread fuel []
  rw [List.length_replicate] at h
  unfold read_header_bl
  refine ⟨h.1, ?_⟩
  rw [h.2]
  simp

/-- C21 (the code at the failing input): `copy` of the image `src` (one block of
4 bytes) whose block holds the bytes 7, 8 at offsets 2 and 3, so that the sparse
read returns the extent map `{2: 2}` and the data blob `[7, 8]`. The destination
image is created, then `copy` returns `-EIO` at its test
`extent_ofs + extent_len > bl.length()` and no block of the destination is
written. `handle_sparse_read` accepts the same reply and delivers the two bytes
after two zeros. On the reply `{1: 1, 2: 2}` with blob `[7, 8, 9]` `copy` writes
the blob byte at index 1 (the 8) to offset 1, where the source holds the 7, and
then fails. -/
theorem C21_copy_slices_blob_at_extent_offset :
    copy 24 22 sample_layout sample_sparse_io sample_sparse_io "src" "dst" 1
        sample_cluster_src
      = some
          (⟨[("dst.rbd", sample_layout.encode (mkHeader "rb.0.1" 4 2)), ("rbd_info", []),
              ("src.rbd", sample_layout.encode (mkHeader "rb.0.0" 4 2))],
            ["dst", "src"], 2⟩, - EIO) ∧
    copy_extents store_write "rb.0.1.000000000000" [7, 8] [(2, 2)] []
      = ([], some (- EIO)) ∧
    handle_sparse_read [7, 8] 0 [(2, 2)] 0 4 simple_read_cb (some [9, 9, 9, 9])
      = (some [0, 0, 7, 8], 4) ∧
    copy_extents store_write "rb.0.1.000000000000" [7, 8, 9] [(1, 1), (2, 2)] []
      = ([("rb.0.1.000000000000", [0, 8])], some (- EIO)) := by
  decide

/-- C22: when `stat` of the header object succeeds, `create` returns `-EEXIST`
and hands back the store it was given, whatever the operations of the session
are: no write to the counter object, no `assign_bid` call, no `tmap_update` and
no header write has been made. -/
theorem C22_create_existing_image {τ : Type} (nameSize defaultOrder : Nat)
    (L : HeaderLayout) (io : IoCtx τ) (imgname : String) (size : Nat) (order : Int) (st : τ)
    (hstat : io.stat st (imgname ++ RBD_SUFFIX) = 0) :
    create nameSize defaultOrder L io imgname size order st = (st, - EEXIST) := by
  unfold create
  simp only
  rw [if_pos hstat]

/-- C22 at the pool `sample_cluster_src`, which holds the header object of the
image `src`: the counter, the directory and the objects are as before. -/
theorem C22_witness :
    cluster_io.stat sample_cluster_src ("src" ++ RBD_SUFFIX) = 0 ∧
    create 24 22 sample_layout cluster_io "src" 8 2 sample_cluster_src
      = (sample_cluster_src, - EEXIST) :=
  ⟨by decide,
    C22_create_existing_image 24 22 sample_layout cluster_io "src" 8 2 sample_cluster_src
      (by decide)⟩

/-- C27 (the code at the failing input): on an image of 10 bytes in blocks of 4
bytes, `trim_image` to the new size 5 removes the block objects 1 and 2, although
the new size needs `get_max_block = 2` blocks (0 and 1): block 1 holds the byte
at image offset 4, which is below the new size. After ten bytes have been
written and the image has been resized to 5 bytes, block 1 is gone and the byte
at offset 4 reads as 0 where 5 was written. -/
theorem C27_trim_removes_the_last_kept_block :
    (trim_image 24 (mkHeader "rb.0.0" 10 2) (record_removes store_remove) 5 ([], [])).2
      = ["rb.0.0.000000000001", "rb.0.0.000000000002"] ∧
    get_block_oid 24 (mkHeader "rb.0.0" 10 2) 1 = "rb.0.0.000000000001" ∧
    get_max_block (mkHeader "rb.0.0" 5 2) = 2 ∧
    get_block_num (mkHeader "rb.0.0" 10 2) 4 = 1 ∧
    (write 24 (mkHeader "rb.0.0" 10 2) 0 store_write 0 10 [1, 2, 3, 4, 5, 6, 7, 8, 9, 10] []).1
      = [("rb.0.0.000000000002", [9, 10]), ("rb.0.0.000000000001", [5, 6, 7, 8]),
          ("rb.0.0.000000000000", [1, 2, 3, 4])] ∧
    resize 24 snapc_is_valid sample_md_no_snaps store_remove 0 sample_ctx 5
        [("rb.0.0.000000000002", [9, 10]), ("rb.0.0.000000000001", [5, 6, 7, 8]),
          ("rb.0.0.000000000000", [1, 2, 3, 4])]
      = (notify_change { sample_ctx with header := mkHeader "rb.0.0" 5 2 },
          [("rb.0.0.000000000000", [1, 2, 3, 4])], 0) ∧
    read 24 (mkHeader "rb.0.0" 10 2) 0
        (store_sparse_read [("rb.0.0.000000000002", [9, 10]),
          ("rb.0.0.000000000001", [5, 6, 7, 8]), ("rb.0.0.000000000000", [1, 2, 3, 4])])
        4 1 [0]
      = (some [5], 1) ∧
    read 24 (mkHeader "rb.0.0" 5 2) 0
        (store_sparse_read [("rb.0.0.000000000000", [1, 2, 3, 4])]) 4 1 [9]
      = (some [0], 1) := by
  decide

/-- C28 (the code at the failing input): `aio_write` of 4 bytes at offset 0
whose only submission fails with -5 returns -5 with `pending_count = 1`, although
no sub-op was submitted successfully; the completion has not fired and no report
is outstanding. `aio_read` behaves the same. With two blocks, the first
submitted and the second refused, `pending_count` is 2 on return, and after the
report of the one submitted sub-op it is 1 and the completion still has not
fired. -/
theorem C28_failed_submission_stays_pending :
    aio_write 24 (mkHeader "rb.0.0" 8 2) 0 (fun _ _ _ _ => -5) 0 4 [1, 2, 3, 4]
        (aio_create_completion true)
      = (some { aio_create_completion true with pending_count := 1, ref := 2 },
          [⟨⟨0, 4, none, [], []⟩, "rb.0.0.000000000000", [1, 2, 3, 4], 4, 0, -5⟩], -5) ∧
    ({ aio_create_completion true with pending_count := 1, ref := 2 }
      : AioCompletion).wait_for_complete = none ∧
    aio_read 24 (mkHeader "rb.0.0" 8 2) 0 (fun _ _ _ => -5) 0 4 (aio_create_completion true)
      = (some { aio_create_completion true with pending_count := 1, ref := 2 },
          [⟨⟨0, 4, some 0, [], []⟩, "rb.0.0.000000000000", [], 4, 0, -5⟩], -5) ∧
    (aio_write 24 (mkHeader "rb.0.0" 8 2) 0
        (fun oid _ _ _ => if oid = "rb.0.0.000000000001" then -5 else 0) 2 4 [1, 2, 3, 4]
        (aio_create_completion true)).1
      = some { aio_create_completion true with pending_count := 2, ref := 3 } ∧
    ({ aio_create_completion true with pending_count := 2, ref := 3 }
      : AioCompletion).complete_block 2
      = some { aio_create_completion true with pending_count := 1, ref := 2, rval := 2 } := by
  decide

/-- C30 (the code at the failing input): for an image of 10 bytes in blocks of
4 bytes `image_info` reports `num_objs = 2`, the size shifted right by the order,
while `get_max_block` is 3. The object size it reports is `get_block_size` for
every header, and `num_objs` is the rounded-down quotient for every header. -/
theorem C30_num_objs_rounds_down :
    (image_info (mkHeader "rb.0.0" 10 2)).num_objs = 2 ∧
    get_max_block (mkHeader "rb.0.0" 10 2) = 3 ∧
    (∀ header : rbd_obj_header_ondisk,
      (image_info header).obj_size = get_block_size header ∧
      (image_info header).num_objs = header.image_size / 2 ^ header.order) := by
  refine ⟨by decide, by decide, fun header => ⟨?_, ?_⟩⟩
  · simp only [image_info, get_block_size]
  · simp only [image_info, Nat.shiftRight_eq_div_pow]

/-- C24: whenever `snap_create`, `snap_remove`, `snap_rollback` or a `resize` to
a size other than the cached one returns 0, the staleness flag of the context is
set when the call returns. -/
theorem C24_success_sets_needs_refresh {τ : Type} (nameSize : Nat)
    (is_valid : Nat → List Nat → Bool) (md md2 : MdReply) (ictx : ImageCtx)
    (snap_name : String) (r1 r2 : Int) (rb : StoreRollback τ) (rm : StoreRemove τ)
    (write_r : Int) (size : Nat) (st : τ) :
    ((snap_create is_valid md r1 r2 ictx).2 = 0 →
      (snap_create is_valid md r1 r2 ictx).1.needs_refresh = true) ∧
    ((snap_remove is_valid md r1 r2 ictx snap_name).2 = 0 →
      (snap_remove is_valid md r1 r2 ictx snap_name).1.needs_refresh = true) ∧
    ((snap_rollback nameSize is_valid md md2 rb ictx snap_name st).2.2 = 0 →
      (snap_rollback nameSize is_valid md md2 rb ictx snap_name st).1.needs_refresh = true) ∧
    ((resize nameSize is_valid md rm write_r ictx size st).2.2 = 0 →
      size ≠ (ictx_check is_valid md ictx).1.header.image_size →
      (resize nameSize is_valid md rm write_r ictx size st).1.needs_refresh = true) := by
  have e2 : ENOENT = 2 := rfl
  refine ⟨?_, ?_, ?_, ?_⟩
  · intro h
    by_cases h1 : (ictx_check is_valid md ictx).2 < 0
    · simp only [snap_create, h1, if_true] at h
      omega
    · by_cases h2 : r1 < 0
      · simp only [snap_create, add_snap, h1, h2, if_true, if_false] at h
        omega
      · by_cases h3 : r2 < 0
        · simp only [snap_create, add_snap, h1, h2, h3, if_true, if_false] at h
          omega
        · simp [snap_create, add_snap, h1, h2, h3, notify_change]
  · intro h
    by_cases h1 : (ictx_check is_valid md ictx).2 < 0
    · simp only [snap_remove, h1, if_true] at h
      omega
    · by_cases h2 : (ictx_check is_valid md ictx).1.get_snapid snap_name = CEPH_NOSNAP
      · simp only [snap_remove, h1, h2, if_true, if_false] at h
        omega
      · by_cases h3 : r1 < 0
        · simp only [snap_remove, rm_snap, h1, h2, h3, if_true, if_false] at h
          omega
        · by_cases h4 : r2 < 0
          · simp only [snap_remove, rm_snap, h1, h2, h3, h4, if_true, if_false,
              lt_irrefl] at h
            omega
          · simp [snap_remove, rm_snap, h1, h2, h3, h4, notify_change]
  · intro h
    by_cases h1 : (ictx_check is_valid md ictx).2 < 0
    · simp only [snap_rollback, h1, if_true] at h
      omega
    · by_cases h2 : (ictx_check is_valid md ictx).1.get_snapid snap_name = CEPH_NOSNAP
      · simp only [snap_rollback, h1, h2, if_true, if_false] at h
        omega
      · by_cases h3 : (rollback_image nameSize (ictx_check is_valid md ictx).1 rb
            ((ictx_check is_valid md ictx).1.get_snapid snap_name) st).2 < 0
        · simp only [snap_rollback, h1, h2, h3, if_true, if_false] at h
          omega
        · simp [snap_rollback, h1, h2, h3, notify_change]
  · intro h hne
    by_cases h1 : (ictx_check is_valid md ictx).2 < 0
    · simp only [resize, h1, if_true] at h
      omega
    · by_cases h2 : write_r < 0
      · simp only [resize, h1, hne, h2, if_true, if_false] at h
        omega
      · simp [resize, h1, hne, h2, notify_change]

/-- C24 at the context `sample_ctx` (refreshed, snapshot `A` with id 1, 10
bytes): the four calls return 0 and leave the flag set. -/
theorem C24_witness :
    (snap_create snapc_is_valid sample_md_no_snaps 0 0 sample_ctx).1.needs_refresh = true ∧
    (snap_remove snapc_is_valid sample_md_no_snaps 0 0 sample_ctx "A").1.needs_refresh
      = true ∧
    (snap_rollback 24 snapc_is_valid sample_md_no_snaps sample_md_no_snaps
      (scripted_rollback "" "" 0) sample_ctx "A" ()).1.needs_refresh = true ∧
    (resize 24 snapc_is_valid sample_md_no_snaps store_remove 0 sample_ctx 5
      []).1.needs_refresh = true :=
  have h := C24_success_sets_needs_refresh 24 snapc_is_valid sample_md_no_snaps
    sample_md_no_snaps sample_ctx "A" 0 0
    (fun (s : ObjectStore) (_ : String) (_ : Nat) => (s, (0 : Int))) store_remove 0 5 []
  ⟨h.1 (by decide), h.2.1 (by decide),
    (C24_success_sets_needs_refresh 24 snapc_is_valid sample_md_no_snaps
      sample_md_no_snaps sample_ctx "A" 0 0 (scripted_rollback "" "" 0)
      (fun (u : Unit) (_ : String) => (u, (0 : Int))) 0 5 ()).2.2.1 (by decide),
    h.2.2.2 (by decide) (by decide)⟩

/-- C29: in every execution that follows the submission protocol for at most
`N` sub-ops (the steps of `aio_read` / `aio_write` in program order, each report
after its own registration, at most one release by the caller, made after the
`get()` of `aio_read` / `aio_write`; fewer than `2 ^ 31 - 3` sub-ops), complete
or not, every step finds its assertions satisfied and the object not deleted:
`ref > 0` at every `get` and `put_unlock`, `pending_count != 0` at
`finish_adding_completions` and `complete_block`, `released` false at
`release`; and the whole run ends without a failed assertion. -/
theorem C29_assertions_never_fail (N : Nat) (hB : N + 3 < 2147483648) (cb : Bool)
    (evs : List AioEvent) (hv : follows_protocol N evs = true) :
    (∀ (pre suf : List AioEvent) (e : AioEvent), evs = pre ++ e :: suf →
      ∃ c, aio_run (aio_create_completion cb) pre = some c ∧ assertions_hold c e = true) ∧
    (∃ c, aio_run (aio_create_completion cb) evs = some c) := by
  unfold follows_protocol at hv
  cases hrun : proto_run N Proto.start evs with
  | none => simp [hrun] at hv
  | some q =>
    refine ⟨?_, ?_⟩
    · intro pre suf e hsplit
      subst hsplit
      obtain ⟨m, hm1, hm2⟩ := proto_run_append N pre (e :: suf) Proto.start q hrun
      obtain ⟨s1, s2⟩ := proto_run_sim N hB cb pre Proto.start m (proto_start_wf N) hm1
      rw [proto_state_start] at s1
      simp only [proto_run] at hm2
      cases hs : proto_step N m e with
      | none => simp [hs] at hm2
      | some m1 =>
        obtain ⟨t1, _⟩ := proto_step_sim N hB cb m m1 e s2 hs
        exact ⟨proto_state cb m, s1, aio_step_assertions _ _ e t1⟩
    · obtain ⟨s1, _⟩ := proto_run_sim N hB cb evs Proto.start q (proto_start_wf N) hrun
      rw [proto_state_start] at s1
      exact ⟨proto_state cb q, s1⟩

/-- C29 at two sub-ops, the caller releasing before the second report: the
state before that report has `pending_count = 1` and `ref = 1`. -/
theorem C29_witness :
    2 + 3 < 2147483648 ∧
    follows_protocol 2 [.loop_get, .add_pending, .add_get, .report 4, .add_pending, .add_get,
      .finish, .loop_put, .release, .report 3] = true ∧
    (∃ c, aio_run (aio_create_completion true)
        [.loop_get, .add_pending, .add_get, .report 4, .add_pending, .add_get, .finish,
          .loop_put, .release] = some c ∧
      assertions_hold c (.report 3) = true) :=
  ⟨by decide, by decide,
    (C29_assertions_never_fail 2 (by decide) true
      [.loop_get, .add_pending, .add_get, .report 4, .add_pending, .add_get, .finish,
        .loop_put, .release, .report 3] (by decide)).1
      [.loop_get, .add_pending, .add_get, .report 4, .add_pending, .add_get, .finish,
        .loop_put, .release] [] (.report 3) rfl⟩

/-- C23: over the modelled pool `cluster_io`, for a header layout whose image
has the same length for every header and is shorter than `READ_SIZE`: when
`create(name, S, order)` has returned 0, `remove(name)` returns 0 (its header
read loop ends at the first iteration, so any positive number of iterations is
enough), and a second `create(name, S, order)` on the store `remove` left
returns 0, not `-EEXIST`; the header object it writes is exactly the image of
the header `init_rbd_header` builds for a new block-name id, whose size is `S`
and whose snapshot sequence number, snapshot count and snapshot-names length
are 0. -/
theorem C23_create_after_remove (nameSize defaultOrder : Nat) (L : HeaderLayout)
    (imgname : String) (S : Nat) (order : Int) (st : Cluster)
    (hL : ∀ h : rbd_obj_header_ondisk, (L.encode h).length = L.sizeof)
    (hsz : L.sizeof < READ_SIZE)
    (hc : (create nameSize defaultOrder L cluster_io imgname S order st).2 = 0) :
    ∀ fuel : Nat, 0 < fuel →
      ∃ st2 : Cluster,
        remove nameSize L cluster_io imgname fuel
          (create nameSize defaultOrder L cluster_io imgname S order st).1 = some (st2, 0) ∧
        (create nameSize defaultOrder L cluster_io imgname S order st2).2 = 0 ∧
        ∃ bid : Nat,
          List.lookup (imgname ++ RBD_SUFFIX)
              (create nameSize defaultOrder L cluster_io imgname S order st2).1.objs
            = some (L.encode (init_rbd_header nameSize defaultOrder S order bid).1) ∧
          (init_rbd_header nameSize defaultOrder S order bid).1.image_size = S ∧
          (init_rbd_header nameSize defaultOrder S order bid).1.snap_seq = 0 ∧
          (init_rbd_header nameSize defaultOrder S order bid).1.snap_count = 0 ∧
          (init_rbd_header nameSize defaultOrder S order bid).1.snap_names_len = 0 := by
  intro fuel hfuel
  have habs := create_success_absent nameSize defaultOrder L imgname S order st hc
  obtain ⟨_, c2, c3⟩ := create_fresh nameSize defaultOrder L imgname S order st habs
  obtain ⟨st2, r1, r2⟩ := remove_after_create nameSize L imgname fuel
    (create nameSize defaultOrder L cluster_io imgname S order st).1 _ hfuel c2 (hL _) hsz c3
  obtain ⟨d1, d2, _⟩ := create_fresh nameSize defaultOrder L imgname S order st2 r2
  exact ⟨st2, r1, d1, st2.next_bid, d2, rfl, rfl, rfl, rfl⟩

/-- C23 at the empty pool `sample_cluster` and the layout `sample_layout`, for
an image `img` of 8 bytes. -/
theorem C23_witness :
    (create 24 22 sample_layout cluster_io "img" 8 2 sample_cluster).2 = 0 ∧
    ∃ st2 : Cluster,
      remove 24 sample_layout cluster_io "img" 1
        (create 24 22 sample_layout cluster_io "img" 8 2 sample_cluster).1 = some (st2, 0) ∧
      (create 24 22 sample_layout cluster_io "img" 8 2 st2).2 = 0 ∧
      ∃ bid : Nat,
        List.lookup ("img" ++ RBD_SUFFIX)
            (create 24 22 sample_layout cluster_io "img" 8 2 st2).1.objs
          = some (sample_layout.encode (init_rbd_header 24 22 8 2 bid).1) ∧
        (init_rbd_header 24 22 8 2 bid).1.image_size = 8 ∧
        (init_rbd_header 24 22 8 2 bid).1.snap_seq = 0 ∧
        (init_rbd_header 24 22 8 2 bid).1.snap_count = 0 ∧
        (init_rbd_header 24 22 8 2 bid).1.snap_names_len = 0 :=
  ⟨by decide,
    C23_create_after_remove 24 22 sample_layout "img" 8 2 sample_cluster
      (by intro h; simp [sample_layout]; omega) (by decide) (by decide) 1 (by decide)⟩

/-- For `write` and `aio_write` with `len > 0`, `off + len <= image_size`,
a successful `ictx_check` and an object order of at most 30, the per-block
requests issued are block-relative slices of `[off, off + len)`: request `k` is
for block `block_num(off) + k`, starts in that block where the earlier requests
ended, holds at least one byte, does not pass the end of the block and carries
the bytes of `buf` after those of the earlier requests. When no store write
fails or is short (for `aio_write`: when no submission is refused) there is one
request for each block from `block_num(off)` to `block_num(off + len - 1)` and
the lengths add up to `len`. -/
theorem block_slices_of_le {τ : Type} (nameSize : Nat) (header : rbd_obj_header_ondisk)
    (ictx_check_r : Int) (w : StoreWrite τ) (submit : String → List Byte → Nat → Nat → Int)
    (off len : Nat) (buf : List Byte) (st : τ) (c : AioCompletion)
    (hord : header.order ≤ 30) (hsz : header.image_size < TWO64) (hchk : 0 ≤ ictx_check_r)
    (hlen : 0 < len) (hle : off + len ≤ header.image_size) :
    (BlockSlices nameSize header off buf
        ((write_calls nameSize header ictx_check_r w off len buf st).map WriteCall.req) ∧
      ((∀ x ∈ write_calls nameSize header ictx_check_r w off len buf st,
          ¬ x.ret < 0 ∧ toU64 x.ret = x.len) →
        (write_calls nameSize header ictx_check_r w off len buf st).length
          = get_block_num header (off + len - 1) + 1 - get_block_num header off ∧
        ((write_calls nameSize header ictx_check_r w off len buf st).map
          (fun x => x.len)).sum = len)) ∧
    (BlockSlices nameSize header off buf
        ((aio_write nameSize header ictx_check_r submit off len buf c).2.1.map SubOp.req) ∧
      ((∀ s ∈ (aio_write nameSize header ictx_check_r submit off len buf c).2.1, ¬ s.r < 0) →
        (aio_write nameSize header ictx_check_r submit off len buf c).2.1.length
          = get_block_num header (off + len - 1) + 1 - get_block_num header off ∧
        ((aio_write nameSize header ictx_check_r submit off len buf c).2.1.map
          (fun s => s.len)).sum = len)) := by
  have hcount := initial_block_count off len (2 ^ header.order) hlen
  obtain ⟨hsum, hslices⟩ := loop_requests_spec nameSize header off buf hord
    ((off + len - 1) / 2 ^ header.order + 1 - off / 2 ^ header.order)
    (off / 2 ^ header.order) 0 len (by omega) hlen (by simp) hcount
  have hslen := loop_requests_length nameSize header off (get_block_size header) buf
    ((off + len - 1) / 2 ^ header.order + 1 - off / 2 ^ header.order)
    (off / 2 ^ header.order) 0 len
  have hfull : ∀ reqs : List BlockReq,
      reqs = (loop_requests nameSize header off (get_block_size header) buf
        ((off + len - 1) / 2 ^ header.order + 1 - off / 2 ^ header.order)
        (off / 2 ^ header.order) 0 len).take reqs.length →
      reqs.length = (off + len - 1) / 2 ^ header.order + 1 - off / 2 ^ header.order →
      (reqs.map (fun q => q.len)).sum = len := by
    intro reqs h1 h2
    have h3 : reqs = loop_requests nameSize header off (get_block_size header) buf
        ((off + len - 1) / 2 ^ header.order + 1 - off / 2 ^ header.order)
        (off / 2 ^ header.order) 0 len :=
      h1.trans (List.take_of_length_le (by rw [hslen, h2]))
    rw [← lens_before_length, h2, h3]
    exact hsum
  simp only [get_block_num_eq_div]
  refine ⟨?_, ?_⟩
  · rw [write_calls_eq_loop nameSize header ictx_check_r w off len buf st hsz hchk hlen hle]
    obtain ⟨new, hlog, hmap, hall⟩ := write_loop_requests nameSize header w off
      (get_block_size header) buf
      ((off + len - 1) / 2 ^ header.order + 1 - off / 2 ^ header.order)
      (off / 2 ^ header.order) 0 len st []
    rw [hlog, List.nil_append]
    have hmap2 : new.map WriteCall.req
        = (loop_requests nameSize header off (get_block_size header) buf
          ((off + len - 1) / 2 ^ header.order + 1 - off / 2 ^ header.order)
          (off / 2 ^ header.order) 0 len).take (new.map WriteCall.req).length := by
      rw [List.length_map]
      exact hmap
    refine ⟨blockSlices_of_take nameSize header off buf _ _ hmap2
      (by simpa only [get_block_num_eq_div] using hslices), ?_⟩
    intro hok
    have hl := hall hok
    refine ⟨hl, ?_⟩
    have := hfull _ hmap2 (by rw [List.length_map]; exact hl)
    rw [List.map_map] at this
    exact this
  · rw [aio_write_subs_eq_loop nameSize header ictx_check_r submit off len buf c hsz hchk
      hlen hle]
    obtain ⟨new, hlog, hmap, hall⟩ := aio_write_loop_requests nameSize header submit off len
      (get_block_size header) buf
      ((off + len - 1) / 2 ^ header.order + 1 - off / 2 ^ header.order)
      (off / 2 ^ header.order) 0 len c.get []
    rw [hlog, List.nil_append]
    have hmap2 : new.map SubOp.req
        = (loop_requests nameSize header off (get_block_size header) buf
          ((off + len - 1) / 2 ^ header.order + 1 - off / 2 ^ header.order)
          (off / 2 ^ header.order) 0 len).take (new.map SubOp.req).length := by
      rw [List.length_map]
      exact hmap
    refine ⟨blockSlices_of_take nameSize header off buf _ _ hmap2
      (by simpa only [get_block_num_eq_div] using hslices), ?_⟩
    intro hok
    have hl := hall hok
    refine ⟨hl, ?_⟩
    have := hfull _ hmap2 (by rw [List.length_map]; exact hl)
    rw [List.map_map] at this
    exact this

/-- C2 (counterexample): the extent map `{0: 0, 1: 2}` over `buf_len = 4` with a
data blob of two bytes is sorted, disjoint and inside `[0, 4)`, and the sink
receives the ranges `(0, 0)`, `(0, 1)`, `(1, 2)`, `(3, 1)`: the empty extent is
passed on as an empty range, so two ranges start at offset 0 and the offsets are
not strictly increasing. -/
theorem C2_counterexample :
    ExtentsWithin 0 (0 + 4) [(0, 0), (1, 2)] ∧
    (sparse_read_calls [1, 2] 0 [(0, 0), (1, 2)] 4 null_cb ()).map Emit.range
      = [(0, 0), (0, 1), (1, 2), (3, 1)] ∧
    ¬ ((sparse_read_calls [1, 2] 0 [(0, 0), (1, 2)] 4 null_cb ()).map Emit.range).Pairwise
        (fun x y => x.1 < y.1) := by
  decide

/-- C3 (the code at the failing input): `handle_sparse_read` called as
`read_iterate` calls it for the second block of a read, with `buf_ofs = 2`,
`buf_len = 2`, the extent map `{0: 2}` and the data `[5, 6]`: after the data at
`(2, 2)` no byte remains, but the sink receives a final zero-fill of
`buf_len - buf_ofs = 2 - 4`, that is `2 ^ 64 - 2` bytes, at offset 4; the result
is 2. With `buf_ofs = 0` the example of the specification (extents `[(2, 3)]`,
data `ABC`, `buf_len = 10`) gives the three calls it names and the result 10. -/
theorem C3_final_zero_fill_wraps :
    handle_sparse_read [5, 6] 0 [(0, 2)] 2 2 (record null_cb) ((), [])
      = (((), [⟨2, 2, some [5, 6]⟩, ⟨4, 18446744073709551614, none⟩]), 2) ∧
    reconstruction [5, 6] 2 [(0, 2)] 0 0 0 = [⟨0, 2, some [5, 6]⟩] ∧
    handle_sparse_read [65, 66, 67] 0 [(2, 3)] 0 10 (record null_cb) ((), [])
      = (((), [⟨0, 2, none⟩, ⟨2, 3, some [65, 66, 67]⟩, ⟨5, 5, none⟩]), 10) := by
  decide

/-- C16 (amended): when a snapshot is pinned (`snapid != CEPH_NOSNAP`), the
staleness flag is set, the refresh reads the header and the snapshot list
without error, the snapshot context built from the list is valid and the list
no longer holds the pinned name, `ictx_check` returns `-ENOENT`, and so does
every operation that calls it: `snap_create`, `snap_remove`, `info`, `resize`,
`snap_list`, `snap_rollback`, `snap_set`, `read_iterate` and `read`,
`aio_read`, and `write` and `aio_write` with `len > 0`. -/
theorem C16_pinned_snapshot_gone (is_valid : Nat → List Nat → Bool) (md : MdReply)
    (ictx : ImageCtx) (hstale : ictx.needs_refresh = true) (hpin : ictx.snapid ≠ CEPH_NOSNAP)
    (hh : 0 ≤ md.header_r) (hs : md.header_short = false) (hl : 0 ≤ md.list_r)
    (hv : is_valid md.seq (md.snaps.map (fun e => e.1)) = true)
    (hgone : ictx.snapname ∉ md.snaps.map (fun e => e.2.2)) :
    (ictx_check is_valid md ictx).2 = - ENOENT ∧
    (∀ r1 r2 : Int, (snap_create is_valid md r1 r2 ictx).2 = - ENOENT) ∧
    (∀ (r1 r2 : Int) (n : String), (snap_remove is_valid md r1 r2 ictx n).2 = - ENOENT) ∧
    (info is_valid md ictx).2.2 = - ENOENT ∧
    (∀ (τ : Type) (nameSize : Nat) (rm : StoreRemove τ) (write_r : Int) (size : Nat) (st : τ),
      (resize nameSize is_valid md rm write_r ictx size st).2.2 = - ENOENT) ∧
    (snap_list is_valid md ictx).2.2 = - ENOENT ∧
    (∀ (τ : Type) (nameSize : Nat) (md2 : MdReply) (rb : StoreRollback τ) (n : String) (st : τ),
      (snap_rollback nameSize is_valid md md2 rb ictx n st).2.2 = - ENOENT) ∧
    (∀ n, (snap_set is_valid md ictx n).2 = - ENOENT) ∧
    (∀ (σ : Type) (nameSize : Nat) (sr : SparseReader) (off len : Nat) (cb : Sink σ) (arg : σ),
      (read_iterate nameSize (ictx_check is_valid md ictx).1.header
        (ictx_check is_valid md ictx).2 sr off len cb arg).2 = - ENOENT) ∧
    (∀ (nameSize : Nat) (sr : SparseReader) (off len : Nat) (buf : List Byte),
      (read nameSize (ictx_check is_valid md ictx).1.header
        (ictx_check is_valid md ictx).2 sr off len buf).2 = - ENOENT) ∧
    (∀ (nameSize : Nat) (submit : String → Nat → Nat → Int) (off len : Nat)
      (c : AioCompletion),
      (aio_read nameSize (ictx_check is_valid md ictx).1.header
        (ictx_check is_valid md ictx).2 submit off len c).2.2 = - ENOENT) ∧
    (∀ (τ : Type) (nameSize : Nat) (w : StoreWrite τ) (off len : Nat) (buf : List Byte) (st : τ),
      len ≠ 0 →
      (write nameSize (ictx_check is_valid md ictx).1.header
        (ictx_check is_valid md ictx).2 w off len buf st).2 = - ENOENT) ∧
    (∀ (nameSize : Nat) (submit : String → List Byte → Nat → Nat → Int) (off len : Nat)
      (buf : List Byte) (c : AioCompletion), len ≠ 0 →
      (aio_write nameSize (ictx_check is_valid md ictx).1.header
        (ictx_check is_valid md ictx).2 submit off len buf c).2.2 = - ENOENT) := by
  obtain ⟨r1, _, _, _, _, _⟩ := ictx_refresh_snap_gone is_valid md ictx ictx.snapname
    hh hs hl hv hgone
  have e2 : ENOENT = 2 := rfl
  have hchk : (ictx_check is_valid md ictx).2 = - ENOENT := by
    unfold ictx_check
    simp only [hstale, if_true, hpin, ne_eq, not_false_eq_true, r1]
    rw [if_pos (by omega)]
    exact r1
  have hneg : (ictx_check is_valid md ictx).2 < 0 := by rw [hchk]; omega
  refine ⟨hchk, ?_, ?_, ?_, ?_, ?_, ?_, ?_, ?_, ?_, ?_, ?_, ?_⟩
  · intro r1 r2
    unfold snap_create
    simp only [hneg, if_true]
    exact hchk
  · intro r1 r2 n
    unfold snap_remove
    simp only [hneg, if_true]
    exact hchk
  · unfold info
    simp only [hneg, if_true]
    exact hchk
  · intro τ nameSize rm write_r size st
    unfold resize
    simp only [hneg, if_true]
    exact hchk
  · unfold snap_list
    simp only [hneg, if_true]
    exact hchk
  · intro τ nameSize md2 rb n st
    unfold snap_rollback
    simp only [hneg, if_true]
    exact hchk
  · intro n
    unfold snap_set
    simp only [hneg, if_true]
    exact hchk
  · intro σ nameSize sr off len cb arg
    unfold read_iterate
    rw [if_pos hneg]
    exact hchk
  · intro nameSize sr off len buf
    unfold read read_iterate
    rw [if_pos hneg]
    exact hchk
  · intro nameSize submit off len c
    unfold aio_read
    rw [if_pos hneg]
    exact hchk
  · intro τ nameSize w off len buf st hlen
    unfold write
    rw [if_neg hlen, if_pos hneg]
    exact hchk
  · intro nameSize submit off len buf c hlen
    unfold aio_write
    rw [if_neg hlen, if_pos hneg]
    exact hchk

/-- C16 (amended) at the context `sample_ctx_pinned` made stale, when the
refresh finds no snapshot left: `ictx_check`, `info`, `snap_list` and an
`aio_write` of 4 bytes return `-ENOENT`. -/
theorem C16_witness :
    ({ sample_ctx_pinned with needs_refresh := true } : ImageCtx).needs_refresh = true ∧
    ({ sample_ctx_pinned with needs_refresh := true } : ImageCtx).snapid ≠ CEPH_NOSNAP ∧
    (ictx_check snapc_is_valid sample_md_no_snaps
      { sample_ctx_pinned with needs_refresh := true }).2 = - ENOENT ∧
    (info snapc_is_valid sample_md_no_snaps
      { sample_ctx_pinned with needs_refresh := true }).2.2 = - ENOENT ∧
    (snap_list snapc_is_valid sample_md_no_snaps
      { sample_ctx_pinned with needs_refresh := true }).2.2 = - ENOENT ∧
    (aio_write 24
      (ictx_check snapc_is_valid sample_md_no_snaps
        { sample_ctx_pinned with needs_refresh := true }).1.header
      (ictx_check snapc_is_valid sample_md_no_snaps
        { sample_ctx_pinned with needs_refresh := true }).2
      (fun _ _ _ _ => 0) 0 4 [1, 2, 3, 4] (aio_create_completion false)).2.2 = - ENOENT :=
  have h := C16_pinned_snapshot_gone snapc_is_valid sample_md_no_snaps
    { sample_ctx_pinned with needs_refresh := true } (by decide) (by decide) (by decide)
    (by decide) (by decide) (by decide) (by decide)
  ⟨by decide, by decide, h.1, h.2.2.2.1, h.2.2.2.2.2.1,
    h.2.2.2.2.2.2.2.2.2.2.2.2 24 (fun _ _ _ _ => 0) 0 4 [1, 2, 3, 4]
      (aio_create_completion false) (by decide)⟩

/-- C16 (counterexample): the context `sample_ctx_pinned` (snapshot `A` pinned),
made stale, and a refresh whose snapshot list holds the snapshots `B` and `C`
with the same id: the list does not hold the pinned name, the snapshot context
built from it is not valid, and `ictx_check` returns `-EIO`, not `-ENOENT`. -/
theorem C16_counterexample :
    ({ sample_ctx_pinned with needs_refresh := true } : ImageCtx).snapid ≠ CEPH_NOSNAP ∧
    ({ sample_ctx_pinned with needs_refresh := true } : ImageCtx).snapname
      ∉ sample_md_invalid.snaps.map (fun e => e.2.2) ∧
    snapc_is_valid sample_md_invalid.seq (sample_md_invalid.snaps.map (fun e => e.1))
      = false ∧
    (ictx_check snapc_is_valid sample_md_invalid
      { sample_ctx_pinned with needs_refresh := true }).2 = - EIO ∧
    - EIO ≠ - ENOENT := by
  decide

/-- C17 (the code at the failing input): the context `sample_ctx_pinned`
(snapshot `A`, id 1, pinned for reading), made stale, when the refresh finds no
snapshot left. `ictx_check` returns `-ENOENT`, and after it the selector is head
(`snapid = CEPH_NOSNAP`, empty name) while the read pin of the data session is
still the id 1 of the removed snapshot and the staleness flag is still set. The
next `ictx_check` refreshes without a name, returns 0 and clears the flag, with
head selected and the read pin still at 1; a `write` of 4 bytes run with that
result succeeds, with no `snap_set` in between. The function `snap_set` with a
null name, by contrast, moves the read pin to head together with the
selector. -/
theorem C17_snapshot_gone_falls_back_to_head :
    (ictx_check snapc_is_valid sample_md_no_snaps
      { sample_ctx_pinned with needs_refresh := true }).2 = - ENOENT ∧
    (ictx_check snapc_is_valid sample_md_no_snaps
      { sample_ctx_pinned with needs_refresh := true }).1.snapid = CEPH_NOSNAP ∧
    (ictx_check snapc_is_valid sample_md_no_snaps
      { sample_ctx_pinned with needs_refresh := true }).1.snapname = "" ∧
    (ictx_check snapc_is_valid sample_md_no_snaps
      { sample_ctx_pinned with needs_refresh := true }).1.data_read_snap = 1 ∧
    (ictx_check snapc_is_valid sample_md_no_snaps
      { sample_ctx_pinned with needs_refresh := true }).1.needs_refresh = true ∧
    ictx_check snapc_is_valid sample_md_no_snaps
        (ictx_check snapc_is_valid sample_md_no_snaps
          { sample_ctx_pinned with needs_refresh := true }).1
      = ({ ImageCtx.create "img" (mkHeader "rb.0.0" 10 2) with
            snapc_seq := 1, needs_refresh := false, snapid := CEPH_NOSNAP, snapname := "",
            data_read_snap := 1, data_write_seq := 1, data_write_snaps := [] }, 0) ∧
    (write 24 (mkHeader "rb.0.0" 10 2) 0 store_write 0 4 [1, 2, 3, 4] []).2 = 4 ∧
    (snap_set snapc_is_valid sample_md_no_snaps sample_ctx_pinned none).1.data_read_snap
      = CEPH_NOSNAP := by
  decide

/-- C18 (amended): when `ictx_refresh` fails at the header read (read error or
short header) it returns a negative value and the whole `ImageCtx` is as it was
before the call; when the header read succeeds and the `snap_list` call fails,
it returns that call's error and only the cached header has changed; when both
succeed and the snapshot context built from the list is not valid, it returns
`-EIO`, the cached header is the header read, the snapshot context and the
index by name are the ones built from the list (the entries of the list added
one by one to empty caches), and the selector is as it was before the call. -/
theorem C18_refresh_failure_state (is_valid : Nat → List Nat → Bool) (md : MdReply)
    (ictx : ImageCtx) (snap_name : Option String) :
    (md.header_r < 0 ∨ md.header_short = true →
      (ictx_refresh is_valid md ictx snap_name).2 < 0 ∧
      (ictx_refresh is_valid md ictx snap_name).1 = ictx) ∧
    (0 ≤ md.header_r → md.header_short = false → md.list_r < 0 →
      ictx_refresh is_valid md ictx snap_name
        = ({ ictx with header := md.header }, md.list_r)) ∧
    (0 ≤ md.header_r → md.header_short = false → 0 ≤ md.list_r →
      is_valid md.seq (md.snaps.map (fun e => e.1)) = false →
      (ictx_refresh is_valid md ictx snap_name).2 = - EIO ∧
      (ictx_refresh is_valid md ictx snap_name).1
        = md.snaps.foldl (fun (c : ImageCtx) e => c.add_snap e.2.2 e.1 e.2.1)
            (ImageCtx.mk md.header md.seq [] [] [] ictx.snapid ictx.name ictx.snapname
              ictx.needs_refresh ictx.data_read_snap ictx.data_write_seq
              ictx.data_write_snaps) ∧
      (ictx_refresh is_valid md ictx snap_name).1.header = md.header ∧
      (ictx_refresh is_valid md ictx snap_name).1.snapc_seq = md.seq ∧
      (ictx_refresh is_valid md ictx snap_name).1.snapc_snaps = md.snaps.map (fun e => e.1) ∧
      (ictx_refresh is_valid md ictx snap_name).1.snapid = ictx.snapid ∧
      (ictx_refresh is_valid md ictx snap_name).1.snapname = ictx.snapname) := by
  have e5 : EIO = 5 := rfl
  refine ⟨?_, ?_, ?_⟩
  · intro hfail
    by_cases h1 : md.header_r < 0
    · have hrh : read_header md ictx.header = (ictx.header, md.header_r) := by
        unfold read_header
        rw [if_pos h1]
      unfold ictx_refresh
      simp only [hrh, h1, if_true]
      exact ⟨trivial, trivial⟩
    · have h2 : md.header_short = true := by
        rcases hfail with h | h
        · exact absurd h h1
        · exact h
      have hrh : read_header md ictx.header = (ictx.header, - EIO) := by
        unfold read_header
        rw [if_neg h1, h2]
        simp
      unfold ictx_refresh
      simp only [hrh]
      rw [if_pos (by omega)]
      exact ⟨by simp only; omega, rfl⟩
  · intro h1 h2 h3
    have hrh : read_header md ictx.header = (md.header, 0) := by
      unfold read_header
      rw [if_neg (by omega), h2]
      simp
    unfold ictx_refresh
    simp only [hrh, lt_irrefl, if_false, h3, if_true]
  · intro hh hs hl hv
    have hrh : read_header md ictx.header = (md.header, 0) := by
      unfold read_header
      rw [if_neg (by omega), hs]
      simp
    obtain ⟨b1, b2, b3, b4, b5, _, _, _⟩ := add_snaps_facts md.snaps
      (ImageCtx.mk md.header md.seq [] [] [] ictx.snapid ictx.name ictx.snapname
        ictx.needs_refresh ictx.data_read_snap ictx.data_write_seq ictx.data_write_snaps)
    simp only [List.nil_append] at b1 b2 b3 b4 b5
    have hres : ictx_refresh is_valid md ictx snap_name
        = (md.snaps.foldl (fun (c : ImageCtx) e => c.add_snap e.2.2 e.1 e.2.1)
            (ImageCtx.mk md.header md.seq [] [] [] ictx.snapid ictx.name ictx.snapname
              ictx.needs_refresh ictx.data_read_snap ictx.data_write_seq
              ictx.data_write_snaps), - EIO) := by
      unfold ictx_refresh
      simp only [hrh, lt_irrefl, if_false, not_lt.mpr hl]
      simp only [b2, b3, hv, Bool.false_eq_true, not_false_eq_true, if_true]
    rw [hres]
    exact ⟨rfl, rfl, b1, b2, b3, b4, b5⟩

/-- C18 (amended) at the context `sample_ctx`: a reply whose header read fails
with -5, a reply whose `snap_list` call fails, and a reply whose snapshot list
gives a snapshot context that is not valid. -/
theorem C18_witness :
    ((ictx_refresh snapc_is_valid { sample_md_no_snaps with header_r := -5 } sample_ctx
        none).2 < 0 ∧
      (ictx_refresh snapc_is_valid { sample_md_no_snaps with header_r := -5 } sample_ctx
        none).1 = sample_ctx) ∧
    ictx_refresh snapc_is_valid sample_md_list_fails sample_ctx none
      = ({ sample_ctx with header := sample_md_list_fails.header },
          sample_md_list_fails.list_r) ∧
    ((ictx_refresh snapc_is_valid sample_md_invalid sample_ctx none).2 = - EIO ∧
      (ictx_refresh snapc_is_valid sample_md_invalid sample_ctx none).1.snapc_snaps
        = sample_md_invalid.snaps.map (fun e => e.1) ∧
      (ictx_refresh snapc_is_valid sample_md_invalid sample_ctx none).1.snapid
        = sample_ctx.snapid) :=
  have h := (C18_refresh_failure_state snapc_is_valid sample_md_invalid sample_ctx
    none).2.2 (by decide) (by decide) (by decide) (by decide)
  ⟨(C18_refresh_failure_state snapc_is_valid
      { sample_md_no_snaps with header_r := -5 } sample_ctx none).1 (Or.inl (by decide)),
    (C18_refresh_failure_state snapc_is_valid sample_md_list_fails sample_ctx
      none).2.1 (by decide) (by decide) (by decide),
    h.1, h.2.2.2.2.1, h.2.2.2.2.2.1⟩

/-- C18 (counterexample): a refresh of `sample_ctx` (image size 10, snapshot
context with the id 1, index holding `A`) whose header read succeeds with an
image size of 16 and whose `snap_list` call fails returns -5 with the cached
header replaced; a refresh whose reads succeed and whose snapshot list is not
valid returns `-EIO` with the cached header, the snapshot context and the index
replaced. -/
theorem C18_counterexample :
    (ictx_refresh snapc_is_valid sample_md_list_fails sample_ctx none).2 = -5 ∧
    (ictx_refresh snapc_is_valid sample_md_list_fails sample_ctx none).1.header.image_size
      = 16 ∧
    sample_ctx.header.image_size = 10 ∧
    ictx_refresh snapc_is_valid sample_md_invalid sample_ctx none
      = ({ sample_ctx with
            header := mkHeader "rb.0.0" 16 2, snapc_seq := 1, snapc_snaps := [1, 1],
            snaps := [1, 1], snaps_by_name := [("B", ⟨1, 16⟩), ("C", ⟨1, 16⟩)] }, - EIO) ∧
    sample_ctx.snapc_snaps = [1] ∧
    sample_ctx.snaps_by_name = [("A", ⟨1, 10⟩)] := by
  decide

/-- C19 (the code at the failing input): for an image of `2 ^ 31` bytes with
order 31, which one block covers, `get_max_block` is `2 ^ 33 - 1`, so
`rollback_image`, against a store whose rollbacks succeed, issues `2 ^ 33 - 1`
rollbacks, the one for block 1 among them. For an image of `2 ^ 64 - 1` bytes
with order 22, which has `2 ^ 42` blocks, `get_max_block` is 0: `rollback_image`
issues no rollback and returns 0, and so does `snap_rollback`. -/
theorem C19_rollback_image_block_count :
    get_max_block sample_ctx_order31.header = 8589934591 ∧
    (2147483648 + 2 ^ 31 - 1) / 2 ^ 31 = 1 ∧
    (rollback_calls 24 sample_ctx_order31 rollback_ok 1 ()).length = 8589934591 ∧
    (⟨"rb.0.0.000000000001", 1, 0⟩ : RollbackCall)
      ∈ rollback_calls 24 sample_ctx_order31 rollback_ok 1 () ∧
    get_max_block sample_ctx_huge.header = 0 ∧
    (18446744073709551615 + 2 ^ 22 - 1) / 2 ^ 22 = 4398046511104 ∧
    rollback_calls 24 sample_ctx_huge rollback_ok 1 () = [] ∧
    (rollback_image 24 sample_ctx_huge rollback_ok 1 ()).2 = 0 ∧
    (snap_rollback 24 snapc_is_valid sample_md_no_snaps sample_md_no_snaps rollback_ok
      sample_ctx_huge "A" ()).2.2 = 0 := by
  have hcalls := rollback_calls_all_ok 24 sample_ctx_order31 rollback_ok 1 ()
    (fun _ _ _ => rfl)
  refine ⟨by decide, by decide, ?_, ?_, by decide, by decide, by decide, by decide, by decide⟩
  · rw [hcalls, List.length_map, List.length_range]
    decide
  · rw [hcalls, List.mem_map]
    exact ⟨1, List.mem_range.mpr (by decide), by decide⟩

/-- C20 (the code at the failing input): an image of `2 ^ 64 - 1` bytes with
order 22 (`2 ^ 42` blocks) is resized to 8 bytes (one block). `get_max_block` of
the old header is 0, so the loop of `trim_image` does not run: `resize` returns
0 without asking for any removal, and the block object with index 1, which is
at or above the new block count and below the old one, is still in the
store. -/
theorem C20_shrink_removes_nothing :
    get_max_block sample_ctx_huge.header = 0 ∧
    (18446744073709551615 + 2 ^ 22 - 1) / 2 ^ 22 = 4398046511104 ∧
    (8 + 2 ^ 22 - 1) / 2 ^ 22 = 1 ∧
    resize_removes 24 snapc_is_valid sample_md_no_snaps store_remove 0 sample_ctx_huge 8
      [("rb.0.0.000000000001", [1])] = [] ∧
    resize 24 snapc_is_valid sample_md_no_snaps store_remove 0 sample_ctx_huge 8
        [("rb.0.0.000000000001", [1])]
      = (notify_change { sample_ctx_huge with header := mkHeader "rb.0.0" 8 22 },
          [("rb.0.0.000000000001", [1])], 0) ∧
    get_block_oid 24 sample_ctx_huge.header 1 = "rb.0.0.000000000001" := by
  decide

/-- C26 (the code at the failing input): with order 31 (block size `2 ^ 31`) and
an image of `2 ^ 32` bytes, `write` of 2 bytes at offset `2 ^ 31 - 1` issues a
request of 2 bytes at offset `2 ^ 31 - 1` of block 0, which passes the end of
the block, and a request of 0 bytes at offset 1 of block 1; it returns 2.
`aio_write` issues the same two requests. The byte at image offset `2 ^ 31`
belongs at offset 0 of block 1. -/
theorem C26_slice_crosses_block_at_order_31 :
    write_calls 24 (mkHeader "rb.0.0" 4294967296 31) 0 write_ok 2147483647 2 [1, 2] ()
      = [⟨"rb.0.0.000000000000", [1, 2], 2, 2147483647, 2⟩,
          ⟨"rb.0.0.000000000001", [], 0, 1, 0⟩] ∧
    write_result 24 (mkHeader "rb.0.0" 4294967296 31) 0 write_ok 2147483647 2 [1, 2] () = 2 ∧
    (aio_write 24 (mkHeader "rb.0.0" 4294967296 31) 0 (fun _ _ _ _ => 0) 2147483647 2 [1, 2]
        (aio_create_completion false)).2.1.map SubOp.req
      = [⟨"rb.0.0.000000000000", [1, 2], 2, 2147483647⟩,
          ⟨"rb.0.0.000000000001", [], 0, 1⟩] ∧
    2 ^ 31 < 2147483647 + 2 ∧
    get_block_num (mkHeader "rb.0.0" 4294967296 31) 2147483648 = 1 ∧
    2147483648 % 2 ^ 31 = 0 := by
  decide

end Librbd
